import Mathlib

/-!
pub_tools: queues, the session registry, the command line, the acceptor and
the polling workers.

A shallow embedding of `src/structs/aqueues.c`, of `src/structs/sessions.c`
and of `read_args`, `args_check`, `main_cleanup`, `main_loop` and `poll_func`
of `src/structs/threadpoll.c`.

Memory is modelled block-wise: every `calloc` of a `Q_NODE_t` or of a
`session_t` yields a fresh cell of a typed arena, addressed by its index.
A freed cell stays in its arena as `none`, so that any later access through a
stale pointer has no result.  The `QUEUE_t` / `AQUEUE_t` control block that a
function receives through its pointer argument is passed by value
(`none` is the NULL pointer) and handed back in its state after the call.
The mutex of the atomic queue is not modelled: every call runs sequentially.
A function result of `none` stands for an execution without defined result
(a NULL or stale dereference) or for a loop that ran out of fuel.
-/

namespace PubTools

/-! ## Memory model -/

/-- Pointer values. `node i` and `session i` are the cells handed out by
`calloc`; `session_number` is the address of the global of that name in
sessions.c; `frame_temp` is the address of the automatic variable `temp` of
`adequeue`; `obj b off` is element `off` of an object `b` owned by a caller. -/
inductive Ptr where
  | null
  | node (i : Nat)
  | session (i : Nat)
  | session_number
  | frame_temp
  | obj (b : Nat) (off : Nat)
  deriving DecidableEq, Repr

/-- The struct q_node of aqueues.h. -/
structure Q_NODE_t where
  data : Ptr
  next : Ptr
  deriving DecidableEq, Repr

/-- The struct queue of aqueues.h. -/
structure QUEUE_t where
  head : Ptr
  tail : Ptr
  deriving DecidableEq, Repr

/-- The struct aqueue of aqueues.h (the lock is not modelled). -/
structure AQUEUE_t where
  head : Ptr
  tail : Ptr
  num_nodes : Int
  deriving DecidableEq, Repr

/-- The struct _session_t of sessions.h: `session_id` is a uint32_t,
`permissions` a uint8_t. -/
structure session_t where
  session_id : Nat
  permissions : Nat
  username : Ptr
  username_len : Int
  deriving DecidableEq, Repr

/-- The memory: the arena of queue nodes, the arena of session records, the
number of allocations that `calloc` can still serve, and the global
`atomic_int session_number` of sessions.c. -/
structure Mem where
  nodes : List (Option Q_NODE_t)
  sessions : List (Option session_t)
  room : Nat
  session_number : Int
  deriving DecidableEq, Repr

def MAX_QUEUE_NODES : Int := 1000

def MAX_SESSIONS : Int := 100000

/-- Wrap-around of a 32-bit signed integer (arithmetic on `atomic_int`). -/
def wrap_int (x : Int) : Int := (x + 2147483648) % 4294967296 - 2147483648

/-- Conversion of an `int` to `uint32_t`. -/
def to_uint32 (x : Int) : Nat := (x % 4294967296).toNat

/-- Element `count` of the array at `items`, as in `&items[count]`. -/
def Ptr.index : Ptr → Nat → Ptr
  | Ptr.obj b off, count => Ptr.obj b (off + count)
  | p, _ => p

/-- Read of the node `*p`. -/
def Mem.node_at (m : Mem) : Ptr → Option Q_NODE_t
  | Ptr.node i => m.nodes[i]?.join
  | _ => none

/-- Write of the node `*p`. -/
def Mem.set_node (m : Mem) (p : Ptr) (n : Q_NODE_t) : Option Mem :=
  match m.node_at p, p with
  | some _, Ptr.node i => some { m with nodes := m.nodes.set i (some n) }
  | _, _ => none

/-- Read of the session record `*p`. -/
def Mem.session_at (m : Mem) : Ptr → Option session_t
  | Ptr.session i => m.sessions[i]?.join
  | _ => none

/-- `calloc(1, sizeof(Q_NODE_t))`: NULL when memory is exhausted, otherwise a
fresh zeroed node. -/
def Mem.calloc_node (m : Mem) : Ptr × Mem :=
  if m.room = 0 then (Ptr.null, m)
  else (Ptr.node m.nodes.length,
    { m with nodes := m.nodes ++ [some ⟨Ptr.null, Ptr.null⟩], room := m.room - 1 })

/-- `calloc(1, sizeof(session_t))`: NULL when memory is exhausted, otherwise
a fresh zeroed record. -/
def Mem.calloc_session (m : Mem) : Ptr × Mem :=
  if m.room = 0 then (Ptr.null, m)
  else (Ptr.session m.sessions.length,
    { m with sessions := m.sessions ++ [some ⟨0, 0, Ptr.null, 0⟩], room := m.room - 1 })

/-- `calloc` of a control block (`QUEUE_t`, `AQUEUE_t`), which is then held
by value: `false` when memory is exhausted. -/
def Mem.calloc_block (m : Mem) : Bool × Mem :=
  if m.room = 0 then (false, m) else (true, { m with room := m.room - 1 })

/-- `free(p)`: nothing for NULL, releases a live cell, and has no defined
result for any other pointer. -/
def Mem.free (m : Mem) : Ptr → Option Mem
  | Ptr.null => some m
  | Ptr.node i =>
    match m.nodes[i]? with
    | some (some _) => some { m with nodes := m.nodes.set i none }
    | _ => none
  | Ptr.session i =>
    match m.sessions[i]? with
    | some (some _) => some { m with sessions := m.sessions.set i none }
    | _ => none
  | _ => none

/-! ## aqueues.c -/

/-- The function `enqueue` of aqueues.c. Result: return value, the queue
control block after the call, memory after the call. -/
def enqueue (m : Mem) (queue : Option QUEUE_t) (item : Ptr) :
    Option (Int × Option QUEUE_t × Mem) :=
  match queue with
  | none => some (-1, none, m)
  | some q =>
    let a := m.calloc_node
    let newnode := a.1
    let m1 := a.2
    if newnode = Ptr.null then some (-1, some q, m1)
    else do
      let n ← m1.node_at newnode
      let m2 ← m1.set_node newnode { n with data := item }
      let m3 ← (if q.tail ≠ Ptr.null then do
          let t ← m2.node_at q.tail
          m2.set_node q.tail { t with next := newnode }
        else some m2)
      let q1 : QUEUE_t := { q with tail := newnode }
      let q2 : QUEUE_t := if q1.head = Ptr.null then { q1 with head := newnode } else q1
      some (0, some q2, m3)

/-- The function `aenqueue` of aqueues.c. -/
def aenqueue (m : Mem) (aqueue : Option AQUEUE_t) (item : Ptr) :
    Option (Int × Option AQUEUE_t × Mem) :=
  match aqueue with
  | none => some (-1, none, m)
  | some q =>
    let a := m.calloc_node
    let newnode := a.1
    let m1 := a.2
    if newnode = Ptr.null then some (-1, some q, m1)
    else if item = Ptr.null ∨ q.num_nodes > MAX_QUEUE_NODES then do
      let m2 ← m1.free newnode
      some (0, some q, m2)
    else do
      let n ← m1.node_at newnode
      let m2 ← m1.set_node newnode { n with data := item }
      let m3 ← (if q.tail ≠ Ptr.null then do
          let t ← m2.node_at q.tail
          m2.set_node q.tail { t with next := newnode }
        else some m2)
      let q1 : AQUEUE_t := { q with tail := newnode }
      let q2 : AQUEUE_t := if q1.head = Ptr.null then { q1 with head := newnode } else q1
      some (0, some { q2 with num_nodes := wrap_int (q2.num_nodes + 1) }, m3)

/-- The function `dequeue` of aqueues.c. It does not write to memory; the
result is the returned pointer and the control block after the call. With
`ret_address == 1` it returns `&(temp->data)`, the address of the first member
of the node, which is the address of the node. -/
def dequeue (m : Mem) (queue : Option QUEUE_t) (ret_address : Int) :
    Option (Ptr × Option QUEUE_t) :=
  match queue with
  | none => some (Ptr.null, none)
  | some q =>
    if q.head = Ptr.null then some (Ptr.null, some q)
    else do
      let temp := q.head
      let n ← m.node_at temp
      let ret := if ret_address = 1 then temp else n.data
      let q1 : QUEUE_t := { q with head := n.next }
      let q2 : QUEUE_t := if q1.head = Ptr.null then { q1 with tail := Ptr.null } else q1
      some (ret, some q2)

/-- The function `adequeue` of aqueues.c. With `ret_address == 1` it returns
the address of its own local variable. -/
def adequeue (m : Mem) (aqueue : Option AQUEUE_t) (ret_address : Int) :
    Option (Ptr × Option AQUEUE_t) :=
  match aqueue with
  | none => some (Ptr.null, none)
  | some q =>
    if q.num_nodes = 0 then some (Ptr.null, some q)
    else if q.num_nodes = 0 ∨ q.head = Ptr.null then some (Ptr.null, some q)
    else do
      let temp := q.head
      let ret := if ret_address = 1 then Ptr.frame_temp else temp
      let n ← m.node_at q.head
      let q1 : AQUEUE_t := { q with head := n.next }
      let q2 : AQUEUE_t := if q1.head = Ptr.null then { q1 with tail := Ptr.null } else q1
      some (ret, some { q2 with num_nodes := wrap_int (q2.num_nodes - 1) })

/-- The loop `for (count = 0; count < numItems; count++)` of `create_queue`,
with `todo` iterations left: `true` when the loop reached `goto FAIL`. The
queue it enqueues to is the variable `ret`, not `new_queue`. -/
def create_queue_loop (ret : Option QUEUE_t) (items : Ptr) :
    Nat → Nat → Mem → Option (Bool × Mem)
  | 0, _, m => some (false, m)
  | todo + 1, count, m =>
    match enqueue m ret (items.index count) with
    | none => none
    | some (r, _, m1) =>
      if r = -1 then some (true, m1) else create_queue_loop ret items todo (count + 1) m1

/-- The function `create_queue` of aqueues.c. -/
def create_queue (m : Mem) (items : Ptr) (numItems : Int) : Option (Option QUEUE_t × Mem) :=
  let ret : Option QUEUE_t := none
  if 0 > numItems ∨ MAX_QUEUE_NODES < numItems then some (none, m)
  else
    let a := m.calloc_block
    if a.1 = false then some (none, a.2)
    else
      let new_queue : QUEUE_t := { head := Ptr.null, tail := Ptr.null }
      match create_queue_loop ret items numItems.toNat 0 a.2 with
      | none => none
      | some (true, m1) => some (none, m1)
      | some (false, m1) => some (some new_queue, m1)

/-- The loop `while (temp != queue->tail->next)` of `check_queue`. -/
def check_queue_loop (m : Mem) (q : QUEUE_t) (data : Ptr) : Nat → Ptr → Option Int
  | 0, _ => none
  | fuel + 1, temp => do
    let t ← m.node_at q.tail
    if temp = t.next then some (-1)
    else do
      let n ← m.node_at temp
      if n.data = data then some 1 else check_queue_loop m q data fuel n.next

/-- The function `check_queue` of aqueues.c. -/
def check_queue (fuel : Nat) (m : Mem) (queue : Option QUEUE_t) (data : Ptr) : Option Int :=
  match queue with
  | none => some (-1)
  | some q => if q.head = Ptr.null then some (-1) else check_queue_loop m q data fuel q.head

/-! ## sessions.c -/

/-- Write of the session record `*p`. -/
def Mem.set_session (m : Mem) (p : Ptr) (s : session_t) : Option Mem :=
  match m.session_at p, p with
  | some _, Ptr.session i => some { m with sessions := m.sessions.set i (some s) }
  | _, _ => none

/-- The function `create_sessions_queue` of sessions.c: it hands on the
result of `create_queue(NULL, 0)`. -/
def create_sessions_queue (m : Mem) : Option (Option QUEUE_t × Mem) :=
  match create_queue m Ptr.null 0 with
  | none => none
  | some (none, m1) => some (none, m1)
  | some (some p_sessions, m1) => some (some p_sessions, m1)

/-- The loop `while (1 == check_queue(p_sessions, &session_number))` of
`add_session`; `cfuel` bounds each run of `check_queue`. -/
def add_session_loop (cfuel : Nat) (p_sessions : Option QUEUE_t) : Nat → Mem → Option Mem
  | 0, _ => none
  | fuel + 1, m => do
    let c ← check_queue cfuel m p_sessions Ptr.session_number
    if c = 1 then
      add_session_loop cfuel p_sessions fuel
        { m with session_number := Int.tmod (m.session_number + 1) MAX_SESSIONS }
    else some m

/-- The function `add_session` of sessions.c; `random_num` is the value that
the call of `random()` returned. Result: returned id, the queue control block
and memory after the call. -/
def add_session (fuel : Nat) (m : Mem) (random_num : Int) (permissions : Nat)
    (p_sessions : Option QUEUE_t) (username : Ptr) (username_len : Int) :
    Option (Nat × Option QUEUE_t × Mem) := do
  let m0 : Mem := { m with session_number := Int.tmod random_num MAX_SESSIONS }
  let m1 ← add_session_loop fuel p_sessions fuel m0
  let a := m1.calloc_session
  let new_session := a.1
  let m2 := a.2
  if new_session = Ptr.null then some (0, p_sessions, m2)
  else do
    let m3 ← m2.set_session new_session
      { session_id := to_uint32 m2.session_number, permissions := permissions % 256,
        username := username, username_len := username_len }
    let e ← enqueue m3 p_sessions new_session
    if e.1 = -1 then some (0, e.2.1, e.2.2)
    else
      let m4 := e.2.2
      some (to_uint32 m4.session_number, e.2.1,
        { m4 with session_number := Int.tmod (m4.session_number + 1) MAX_SESSIONS })

/-- The function `dequeue_session` of sessions.c: the pointer it frees is the
one `dequeue(p_sessions, 1)` returned. -/
def dequeue_session (m : Mem) (p_sessions : Option QUEUE_t) :
    Option (Int × Option QUEUE_t × Mem) := do
  let d ← dequeue m p_sessions 1
  let expired_session := d.1
  if expired_session = Ptr.null then some (-1, d.2, m)
  else do
    let m1 ← m.free expired_session
    some (0, d.2, m1)

/-- The loop `while (temp != p_sessions->tail->next)` of `check_session`. -/
def check_session_loop (m : Mem) (q : QUEUE_t) (session_id : Nat) : Nat → Ptr → Option Nat
  | 0, _ => none
  | fuel + 1, temp => do
    let t ← m.node_at q.tail
    if temp = t.next then some 0
    else do
      let n ← m.node_at temp
      let mtch ← m.session_at n.data
      if mtch.session_id = session_id then some mtch.permissions
      else check_session_loop m q session_id fuel n.next

/-- The function `check_session` of sessions.c. -/
def check_session (fuel : Nat) (m : Mem) (session_id : Nat) (p_sessions : Option QUEUE_t) :
    Option Nat :=
  match p_sessions with
  | none => some 0
  | some q =>
    if q.head = Ptr.null then some 0 else check_session_loop m q session_id fuel q.head

/-! ## Sequences of calls -/

/-- One call of `enqueue` for each item of the list, in order; the list of
return values comes first in the result. -/
def enqueue_calls : Mem → Option QUEUE_t → List Ptr → Option (List Int × Option QUEUE_t × Mem)
  | m, q, [] => some ([], q, m)
  | m, q, x :: xs => do
    let e ← enqueue m q x
    let r ← enqueue_calls e.2.2 e.2.1 xs
    some (e.1 :: r.1, r.2)

/-- A number `k` of calls `dequeue(queue, 0)`; the list of returned pointers
comes first in the result. -/
def dequeue_calls (m : Mem) : Nat → Option QUEUE_t → Option (List Ptr × Option QUEUE_t)
  | 0, q => some ([], q)
  | k + 1, q => do
    let d ← dequeue m q 0
    let r ← dequeue_calls m k d.2
    some (d.1 :: r.1, r.2)

/-- One call of `aenqueue` for each item of the list, in order. -/
def aenqueue_calls :
    Mem → Option AQUEUE_t → List Ptr → Option (List Int × Option AQUEUE_t × Mem)
  | m, q, [] => some ([], q, m)
  | m, q, x :: xs => do
    let e ← aenqueue m q x
    let r ← aenqueue_calls e.2.2 e.2.1 xs
    some (e.1 :: r.1, r.2)

/-- A number `k` of calls `adequeue(aqueue, 0)`. -/
def adequeue_calls (m : Mem) : Nat → Option AQUEUE_t → Option (List Ptr × Option AQUEUE_t)
  | 0, q => some ([], q)
  | k + 1, q => do
    let d ← adequeue m q 0
    let r ← adequeue_calls m k d.2
    some (d.1 :: r.1, r.2)

/-! ## Shape of a queue in memory -/

/-- The nodes with the indices and payloads of `cells` are linked in this
order, starting at `p`; the `next` link of the last one is `q`. -/
def Seg (m : Mem) : Ptr → List (Nat × Ptr) → Ptr → Prop
  | p, [], q => p = q
  | p, c :: rest, q =>
    p = Ptr.node c.1 ∧ ∃ nx, m.nodes[c.1]? = some (some ⟨c.2, nx⟩) ∧ Seg m nx rest q

/-- The shape `Seg` can be checked by following the links. -/
instance Seg.instDecidable (m : Mem) :
    ∀ (p : Ptr) (cells : List (Nat × Ptr)) (q : Ptr), Decidable (Seg m p cells q)
  | p, [], q => inferInstanceAs (Decidable (p = q))
  | p, c :: rest, q =>
    match hc : m.nodes[c.1]? with
    | some (some n) =>
      have := Seg.instDecidable m n.next rest q
      decidable_of_iff (p = Ptr.node c.1 ∧ n.data = c.2 ∧ Seg m n.next rest q)
        ⟨fun h => ⟨h.1, n.next, by rw [hc, ← h.2.1], h.2.2⟩,
          fun h => by
            obtain ⟨h1, nx, h2, h3⟩ := h
            rw [hc] at h2
            have h4 := Option.some.inj (Option.some.inj h2)
            subst h4
            exact ⟨h1, rfl, h3⟩⟩
    | some none => isFalse (fun h => by
        obtain ⟨_, nx, h2, _⟩ := h
        rw [hc] at h2
        cases h2)
    | none => isFalse (fun h => by
        obtain ⟨_, nx, h2, _⟩ := h
        rw [hc] at h2
        cases h2)

/-- Address of the last node of `cells`, NULL when there is none. -/
def last_node (cells : List (Nat × Ptr)) : Ptr :=
  match cells.getLast? with
  | none => Ptr.null
  | some c => Ptr.node c.1

/-- The control block `q` heads the NULL-terminated list of the nodes
`cells`, and its tail is the last of them. -/
def IsQueue (m : Mem) (q : QUEUE_t) (cells : List (Nat × Ptr)) : Prop :=
  Seg m q.head cells Ptr.null ∧ q.tail = last_node cells

/-- The same for an atomic queue, whose `num_nodes` counts the nodes. -/
def IsAQueue (m : Mem) (q : AQUEUE_t) (cells : List (Nat × Ptr)) : Prop :=
  Seg m q.head cells Ptr.null ∧ q.tail = last_node cells ∧ q.num_nodes = cells.length

instance IsQueue.instDecidable (m : Mem) (q : QUEUE_t) (cells : List (Nat × Ptr)) :
    Decidable (IsQueue m q cells) :=
  inferInstanceAs (Decidable (Seg m q.head cells Ptr.null ∧ q.tail = last_node cells))

instance IsAQueue.instDecidable (m : Mem) (q : AQUEUE_t) (cells : List (Nat × Ptr)) :
    Decidable (IsAQueue m q cells) :=
  inferInstanceAs (Decidable (Seg m q.head cells Ptr.null ∧ q.tail = last_node cells ∧
    q.num_nodes = cells.length))

/-- The payloads of a queue, oldest first. -/
def payloads (cells : List (Nat × Ptr)) : List Ptr := cells.map Prod.snd

/-- The payload of each node of `cells` is the address of a live session
record, and these records are `recs`, in the same order. -/
def HoldsSessions (m : Mem) (cells : List (Nat × Ptr)) (recs : List session_t) : Prop :=
  List.Forall₂ (fun c r => m.session_at c.2 = some r) cells recs

instance HoldsSessions.instDecidable (m : Mem) (cells : List (Nat × Ptr))
    (recs : List session_t) : Decidable (HoldsSessions m cells recs) :=
  inferInstanceAs (Decidable (List.Forall₂
    (fun (c : Nat × Ptr) (r : session_t) => m.session_at c.2 = some r) cells recs))

/-- Permissions of the first record of `recs` whose id is `session_id`, and
0 when there is none. -/
def first_permissions (session_id : Nat) : List session_t → Nat
  | [] => 0
  | r :: rest =>
    if r.session_id = session_id then r.permissions else first_permissions session_id rest

/-- One call of `add_session` for each entry (value of `random()`,
permissions, username, username_len) of the list, in order; the list of
returned ids comes first in the result. -/
def add_session_calls (fuel : Nat) :
    Mem → Option QUEUE_t → List (Int × Nat × Ptr × Int) →
      Option (List Nat × Option QUEUE_t × Mem)
  | m, q, [] => some ([], q, m)
  | m, q, a :: rest => do
    let e ← add_session fuel m a.1 a.2.1 q a.2.2.1 a.2.2.2
    let r ← add_session_calls fuel e.2.2 e.2.1 rest
    some (e.1 :: r.1, r.2)

/-- Session ids of the records linked from `p`, oldest first. -/
def live_session_ids (m : Mem) : Nat → Ptr → Option (List Nat)
  | 0, _ => none
  | fuel + 1, p =>
    if p = Ptr.null then some []
    else do
      let n ← m.node_at p
      let s ← m.session_at n.data
      let rest ← live_session_ids m fuel n.next
      some (s.session_id :: rest)

/-! ## sessions.c: find_session -/

/-- The loop `while (temp != p_sessions->tail->next)` of `find_session`. -/
def find_session_loop (m : Mem) (q : QUEUE_t) (session_id : Nat) : Nat → Ptr → Option Ptr
  | 0, _ => none
  | fuel + 1, temp => do
    let t ← m.node_at q.tail
    if temp = t.next then some Ptr.null
    else do
      let n ← m.node_at temp
      let mtch ← m.session_at n.data
      if mtch.session_id = session_id then some n.data
      else find_session_loop m q session_id fuel n.next

/-- The function `find_session` of sessions.c: the address of the record, or
NULL. -/
def find_session (fuel : Nat) (m : Mem) (session_id : Nat) (p_sessions : Option QUEUE_t) :
    Option Ptr :=
  match p_sessions with
  | none => some Ptr.null
  | some q =>
    if q.head = Ptr.null then some Ptr.null else find_session_loop m q session_id fuel q.head

/-- Payload of the first node of `cells` whose record in `recs` has the id
`session_id`, and NULL when there is none. -/
def first_session (session_id : Nat) : List (Nat × Ptr) → List session_t → Ptr
  | c :: cells, r :: recs =>
    if r.session_id = session_id then c.2 else first_session session_id cells recs
  | _, _ => Ptr.null

/-! ## aqueues.c: clear -/

/-- The loop `while (list->head != NULL)` of `clear`: each round frees the
pointer that `dequeue(list, 1)` returned. -/
def clear_loop : Nat → Mem → QUEUE_t → Option (QUEUE_t × Mem)
  | 0, _, _ => none
  | fuel + 1, m, list =>
    if list.head ≠ Ptr.null then do
      let d ← dequeue m (some list) 1
      let m1 ← m.free d.1
      let l1 ← d.2
      clear_loop fuel m1 l1
    else some (list, m)

/-- The function `clear` of aqueues.c. -/
def clear (fuel : Nat) (m : Mem) (list : Option QUEUE_t) : Option (Int × Option QUEUE_t × Mem) :=
  match list with
  | none => some (-1, none, m)
  | some l => do
    let r ← clear_loop fuel m l
    let l1 := r.1
    let l2 : QUEUE_t := if l1.head = Ptr.null then { l1 with tail := Ptr.null } else l1
    some (0, some l2, r.2)

/-! ## threadpoll.c: the command line -/

/-- Model of the C library function `isspace` in the C locale, on the code of
a character. -/
def isspace (c : Char) : Bool := c.toNat = 32 || (9 ≤ c.toNat && c.toNat ≤ 13)

/-- The white space that `strtol` skips at the start of a string. -/
def skip_space : List Char → List Char
  | [] => []
  | c :: rest => if isspace c then skip_space rest else c :: rest

/-- The run of decimal digits at the start of a string: the value they add to
`acc`, their number added to `n`, and the string behind them. -/
def strtol_digits : List Char → Nat → Nat → Nat × Nat × List Char
  | [], acc, n => (acc, n, [])
  | c :: rest, acc, n =>
    if 48 ≤ c.toNat ∧ c.toNat ≤ 57 then strtol_digits rest (acc * 10 + (c.toNat - 48)) (n + 1)
    else (acc, n, c :: rest)

def LONG_MAX : Int := 9223372036854775807

def LONG_MIN : Int := -9223372036854775808

/-- Model of the C library call `strtol(nptr, &endptr, 10)` with a 64-bit
`long`: the returned value and the string that `endptr` points to. A string
is the list of its characters before the terminating NUL. Without any digit
the value is 0 and `endptr` is `nptr`; a value out of range is clamped. -/
def strtol (nptr : List Char) : Int × List Char :=
  let s := skip_space nptr
  let sign : Bool × List Char :=
    match s with
    | [] => (false, [])
    | c :: rest =>
      if c.toNat = 45 then (true, rest) else if c.toNat = 43 then (false, rest) else (false, c :: rest)
  let d := strtol_digits sign.2 0 0
  if d.2.1 = 0 then (0, nptr)
  else
    let v : Int := if sign.1 then -(d.1 : Int) else (d.1 : Int)
    (if v > LONG_MAX then LONG_MAX else if v < LONG_MIN then LONG_MIN else v, d.2.2)

/-- Model of the C library call `strncmp(s1, s2, n)` on strings given by the
characters before their NUL: 0 when the first `n` characters agree. -/
def strncmp : List Char → List Char → Nat → Int
  | _, _, 0 => 0
  | [], [], _ + 1 => 0
  | [], c :: _, _ + 1 => -(c.toNat : Int)
  | c :: _, [], _ + 1 => (c.toNat : Int)
  | a :: s1, b :: s2, n + 1 =>
    if a.toNat = b.toNat then strncmp s1 s2 n else (a.toNat : Int) - (b.toNat : Int)

/-- The variables that the pointer arguments of `read_args` point to, each
`none` when the pointer argument itself is NULL. A `char *` value is the
string it points to, or `none` for NULL. -/
structure read_args_out where
  num_threads : Option Nat
  port : Option (Option (List Char))
  base_dir : Option (Option (List Char))
  deriving DecidableEq, Repr

/-- The function `read_args` of threadpoll.c; `optarg` is the value of the
global of getopt. Result: return value and the pointed-to variables after the
call. The codes of the option letters are d = 100, p = 112, n = 110, h = 104.
`port_check` is a `uint32_t`, so it is compared as a natural number; the test
`0 == num_threads` of case 'n' is a test of the pointer argument. Option 'h'
falls through to the default case. -/
def read_args (optarg : Option (List Char)) (opt : Int) (v : read_args_out) :
    Option (Int × read_args_out) :=
  if opt = 100 then
    match v.base_dir, optarg with
    | none, _ => none
    | some _, none => none
    | some _, some s =>
      let v1 : read_args_out := { v with base_dir := some (some s) }
      if 0 = strncmp s [Char.ofNat 47] 2 then some (-1, v1) else some (0, v1)
  else if opt = 112 then
    match v.port, optarg with
    | none, _ => none
    | some _, none => none
    | some _, some s =>
      let v1 : read_args_out := { v with port := some (some s) }
      let r := strtol s
      let port_check : Nat := to_uint32 r.1
      let p_opt_arg := r.2
      if p_opt_arg ≠ [] then some (-1, v1)
      else if 0 > port_check ∨ 65535 < port_check then some (-1, v1)
      else some (0, v1)
  else if opt = 110 then
    match v.num_threads, optarg with
    | none, _ => none
    | some _, none => none
    | some _, some s =>
      let r := strtol s
      let v1 : read_args_out := { v with num_threads := some (to_uint32 r.1) }
      let p_opt_arg := r.2
      if p_opt_arg ≠ [] then some (-1, v1)
      else if v1.num_threads = none then some (-1, v1)
      else some (0, v1)
  else some (-1, v)

/-! ## aqueues.c: aclear -/

/-- The loop `for (count = 0; count < numItems; count++)` of `create_aqueue`,
with `todo` iterations left: `true` when the loop reached `goto FAIL`. The
queue it enqueues to is the variable `ret`, not `new_queue`. -/
def create_aqueue_loop (ret : Option AQUEUE_t) (items : Ptr) :
    Nat → Nat → Mem → Option (Bool × Mem)
  | 0, _, m => some (false, m)
  | todo + 1, count, m =>
    match aenqueue m ret (items.index count) with
    | none => none
    | some (r, _, m1) =>
      if r = -1 then some (true, m1) else create_aqueue_loop ret items todo (count + 1) m1

/-- The function `create_aqueue` of aqueues.c; `check` is the result of
`pthread_mutex_init`. -/
def create_aqueue (m : Mem) (items : Ptr) (numItems : Int) (check : Int) :
    Option (Option AQUEUE_t × Mem) :=
  let ret : Option AQUEUE_t := none
  if 0 > numItems ∨ MAX_QUEUE_NODES < numItems then some (none, m)
  else
    let a := m.calloc_block
    if a.1 = false then some (none, a.2)
    else
      let new_queue : AQUEUE_t := { head := Ptr.null, tail := Ptr.null, num_nodes := 0 }
      if 0 ≠ check then some (ret, a.2)
      else
        match create_aqueue_loop ret items numItems.toNat 0 a.2 with
        | none => none
        | some (true, m1) => some (none, m1)
        | some (false, m1) => some (some new_queue, m1)

/-- The loop `while (list->head != NULL)` of `aclear`: each round frees the
node that `adequeue(list, 0)` returned. -/
def aclear_loop : Nat → Mem → AQUEUE_t → Option (AQUEUE_t × Mem)
  | 0, _, _ => none
  | fuel + 1, m, list =>
    if list.head ≠ Ptr.null then do
      let d ← adequeue m (some list) 0
      let m1 ← m.free d.1
      let l1 ← d.2
      aclear_loop fuel m1 l1
    else some (list, m)

/-- The function `aclear` of aqueues.c. -/
def aclear (fuel : Nat) (m : Mem) (list : Option AQUEUE_t) :
    Option (Int × Option AQUEUE_t × Mem) :=
  match list with
  | none => some (-1, none, m)
  | some l => do
    let r ← aclear_loop fuel m l
    let l1 := r.1
    let l2 : AQUEUE_t := if l1.head = Ptr.null then { l1 with tail := Ptr.null } else l1
    some (0, some l2, r.2)

/-- The predicate of an atomic queue in sequential use: `num_nodes` is the
number of nodes linked from the head (and fits an `int`), the list ends in
NULL and the tail is its last node. -/
def AQueueInv (m : Mem) (q : AQUEUE_t) : Prop :=
  ∃ cells, IsAQueue m q cells ∧ cells.length ≤ 2147483647

/-! ## sessions.c: reachable registries -/

/-- The sessions queues that calls of `add_session` and `dequeue_session`
reach from the queue of `create_sessions_queue`; `random()` returns a value
from 0 to 2^31 - 1. -/
inductive SessionsReachable : Mem → QUEUE_t → Prop where
  | create (m m1 : Mem) (q : QUEUE_t) :
      create_sessions_queue m = some (some q, m1) → SessionsReachable m1 q
  | add (m m1 : Mem) (q q1 : QUEUE_t) (fuel : Nat) (random_num : Int) (permissions : Nat)
      (username : Ptr) (username_len : Int) (id : Nat) :
      SessionsReachable m q → 0 ≤ random_num → random_num ≤ 2147483647 →
      add_session fuel m random_num permissions (some q) username username_len
        = some (id, some q1, m1) →
      SessionsReachable m1 q1
  | expire (m m1 : Mem) (q q1 : QUEUE_t) (r : Int) :
      SessionsReachable m q → dequeue_session m (some q) = some (r, some q1, m1) →
      SessionsReachable m1 q1

/-! ## threadpoll.c: arguments and teardown -/

/-- The function `args_check` of threadpoll.c; it does not read `port`. -/
def args_check (port : Option (List Char)) (base_dir : Option (List Char)) (num_threads : Int) :
    Int :=
  match port with
  | _ =>
    if base_dir = none then 1
    else if 0 ≥ num_threads then 1
    else 0

/-- The calls that `main_cleanup` makes. -/
inductive teardown_step where
  | shutdown_threadpool
  | destroy_threadpool
  | destroy_sessions
  | dump_table
  | empty_authtable
  | empty_storagetable
  | adestroy
  | close_root_dir_fd
  | close_server_sockfd
  | free_client_args
  | free_poll_args
  | free_main_args
  deriving DecidableEq, Repr

/-- Return values of the seven calls whose result `main_cleanup` tests. -/
structure teardown_results where
  shutdown_threadpool : Int
  destroy_threadpool : Int
  destroy_sessions : Int
  dump_table : Int
  empty_authtable : Int
  empty_storagetable : Int
  adestroy : Int
  deriving DecidableEq, Repr

/-- The function `main_cleanup` of threadpoll.c, over the return values of
the calls it makes: its return value and the calls made, in order. The Boolean
arguments say whether `main_args` and `poll_args` are NULL. -/
def main_cleanup (main_args_null : Bool) (poll_args_null : Bool) (r : teardown_results) :
    Int × List teardown_step :=
  if main_args_null then (-1, [teardown_step.free_main_args])
  else if r.shutdown_threadpool = -1 then
    (-1, [teardown_step.shutdown_threadpool, teardown_step.free_main_args])
  else if r.destroy_threadpool = -1 then
    (-1, [teardown_step.shutdown_threadpool, teardown_step.destroy_threadpool,
      teardown_step.free_main_args])
  else if r.destroy_sessions = -1 then
    (-1, [teardown_step.shutdown_threadpool, teardown_step.destroy_threadpool,
      teardown_step.destroy_sessions, teardown_step.free_main_args])
  else if r.dump_table = -1 then
    (-1, [teardown_step.shutdown_threadpool, teardown_step.destroy_threadpool,
      teardown_step.destroy_sessions, teardown_step.dump_table, teardown_step.free_main_args])
  else if r.empty_authtable = -1 then
    (-1, [teardown_step.shutdown_threadpool, teardown_step.destroy_threadpool,
      teardown_step.destroy_sessions, teardown_step.dump_table, teardown_step.empty_authtable,
      teardown_step.free_main_args])
  else if r.empty_storagetable = -1 then
    (-1, [teardown_step.shutdown_threadpool, teardown_step.destroy_threadpool,
      teardown_step.destroy_sessions, teardown_step.dump_table, teardown_step.empty_authtable,
      teardown_step.empty_storagetable, teardown_step.free_main_args])
  else if r.adestroy = -1 then
    (-1, [teardown_step.shutdown_threadpool, teardown_step.destroy_threadpool,
      teardown_step.destroy_sessions, teardown_step.dump_table, teardown_step.empty_authtable,
      teardown_step.empty_storagetable, teardown_step.adestroy, teardown_step.free_main_args])
  else
    (0, [teardown_step.shutdown_threadpool, teardown_step.destroy_threadpool,
      teardown_step.destroy_sessions, teardown_step.dump_table, teardown_step.empty_authtable,
      teardown_step.empty_storagetable, teardown_step.adestroy,
      teardown_step.close_root_dir_fd, teardown_step.close_server_sockfd]
      ++ (if poll_args_null then []
          else [teardown_step.free_client_args, teardown_step.free_poll_args])
      ++ [teardown_step.free_main_args])

/-! ## threadpoll.c: the acceptor and the workers -/

/-- What the acceptor and the workers share: the memory of the queue nodes,
the control block of `poll_fd_queue`, and the `client_sockfd` member of the
`queue_data_t` objects, by address (the first entry for an address counts). -/
structure shared_state where
  mem : Mem
  poll_fd_queue : Option AQUEUE_t
  queue_data : List (Ptr × Int)
  deriving DecidableEq, Repr

/-- One round of the loop `while (1 != server_shutdown)` of `main_loop`.
`ev.1` is the value that `poll` returned and `ev.2` the value that
`client_accept` returned; `p_queue_args` is the address of the local variable
of that name. The result `some ret` in the first place says that the round
left the loop through `goto END`, with `ret` to return. -/
def main_loop_body (p_queue_args : Ptr) (ev : Int × Int) (s : shared_state) :
    Option (Option Int × shared_state) :=
  let poll_ret := ev.1
  if poll_ret < 0 then some (some (-1), s)
  else if poll_ret = 0 then some (none, s)
  else
    let client_sockfd := ev.2
    let s1 : shared_state := { s with queue_data := (p_queue_args, client_sockfd) :: s.queue_data }
    match aenqueue s1.mem s1.poll_fd_queue p_queue_args with
    | none => none
    | some e =>
      let s2 : shared_state := { s1 with mem := e.2.2, poll_fd_queue := e.2.1 }
      if e.1 = -1 then some (some (-1), s2) else some (none, s2)

/-- The loop `while (1 != server_shutdown)` of `main_loop`, run on the list of
the values that `poll` and `client_accept` return. `server_shutdown` is the
parameter of `main_loop`, which the loop does not write. There is no result
when the list ends while the loop goes on. -/
def main_loop_while (p_queue_args : Ptr) (server_shutdown : Int) :
    List (Int × Int) → shared_state → Option (Int × shared_state)
  | [], s => if 1 ≠ server_shutdown then none else some (0, s)
  | ev :: rest, s =>
    if 1 ≠ server_shutdown then
      match main_loop_body p_queue_args ev s with
      | none => none
      | some (some ret, s1) => some (ret, s1)
      | some (none, s1) => main_loop_while p_queue_args server_shutdown rest s1
    else some (0, s)

/-- The function `main_loop` of threadpoll.c. The calls of `thread_task`,
which start the workers, are not modelled. -/
def main_loop (p_queue_args : Ptr) (server_shutdown : Int) (events : List (Int × Int))
    (s : shared_state) : Option (Int × shared_state) :=
  main_loop_while p_queue_args server_shutdown events s

/-- The loop `while (1 != server_shutdown)` of `main_loop` while other
threads run: each round comes with the values that `poll` and `client_accept`
return and with the shared state that the round finds, which the workers may
have changed since the round before. The result is the value returned. -/
def main_loop_among_workers (p_queue_args : Ptr) (server_shutdown : Int) :
    List ((Int × Int) × shared_state) → Option Int
  | [] => if 1 ≠ server_shutdown then none else some 0
  | round :: rest =>
    if 1 ≠ server_shutdown then
      match main_loop_body p_queue_args round.1 round.2 with
      | none => none
      | some (some ret, _) => some ret
      | some (none, _) => main_loop_among_workers p_queue_args server_shutdown rest
    else some 0

/-- The rounds of the loop of `main_loop` for the given values of `poll` and
`client_accept`, up to the first round that leaves the loop. -/
def main_loop_rounds (p_queue_args : Ptr) :
    List (Int × Int) → shared_state → Option (Option Int × shared_state)
  | [], s => some (none, s)
  | ev :: rest, s =>
    match main_loop_body p_queue_args ev s with
    | none => none
    | some (some ret, s1) => some (some ret, s1)
    | some (none, s1) => main_loop_rounds p_queue_args rest s1

/-- The calls of `close` and of `some_server` that a worker makes. -/
inductive worker_event where
  | close (fd : Int)
  | some_server (client_sockfd : Int)
  deriving DecidableEq, Repr

/-- What one worker reads and writes in `poll_func`. Its own are the
variables `poll_fds` (the `fd` member of each slot), `num_fds` and `nfds`, and
the calls it made so far. `client_sockfd` is the member of the `client_data_t`
object that `p_poll_args->client_args` points to: `main_loop` hands the same
`p_poll_args` to every worker, so this one object is shared by all workers.
The field holds the value of the shared member as this worker finds it; a
store of another worker to it is the step `client_sockfd_written`. -/
structure poll_state where
  poll_fds : List Int
  num_fds : Nat
  nfds : Nat
  client_sockfd : Int
  log : List worker_event
  deriving DecidableEq, Repr

/-- The state of a worker when it enters the loop of `poll_func`; the size
`MAX_FDS` of the poll-set is a constant of a header that is not at hand, and
`client_sockfd` is the value that the shared member has at that time. -/
def poll_func_init (MAX_FDS : Nat) (client_sockfd : Int) : poll_state :=
  { poll_fds := List.replicate MAX_FDS (-1), num_fds := 1, nfds := 1,
    client_sockfd := client_sockfd, log := [] }

/-- The loop `for (poll_index = 0; poll_index < num_fds; poll_index++)` of the
admission, with `todo` rounds left. -/
def admission_slot_loop (fd : Int) : Nat → Nat → List Int → Option (List Int)
  | 0, _, fds => some fds
  | todo + 1, poll_index, fds =>
    match fds[poll_index]? with
    | none => none
    | some x =>
      if x = -1 then some (fds.set poll_index fd)
      else admission_slot_loop fd todo (poll_index + 1) fds

/-- The admission of `poll_func` (the `if` at the head of its loop). The
Boolean of the result says that the round ended with `continue`. -/
def poll_func_admission (MAX_FDS : Nat) (s : shared_state) (w : poll_state) :
    Option (Bool × shared_state × poll_state) :=
  match s.poll_fd_queue with
  | none => none
  | some q =>
    if w.num_fds < MAX_FDS ∧ q.num_nodes > 0 then
      match adequeue s.mem (some q) 0 with
      | none => none
      | some d =>
        let temp := d.1
        let s1 : shared_state := { s with poll_fd_queue := d.2 }
        if temp = Ptr.null then some (true, s1, w)
        else do
          let n ← s.mem.node_at temp
          let p_queue_args := n.data
          let fd ← s.queue_data.lookup p_queue_args
          let fds ← admission_slot_loop fd w.num_fds 0 w.poll_fds
          let m1 ← s.mem.free temp
          some (false, { s1 with mem := m1 },
            { w with client_sockfd := fd, poll_fds := fds, num_fds := w.num_fds + 1,
                     nfds := w.num_fds + 1 })
    else some (false, s, w)

def POLLIN : Nat := 1

def POLLERR : Nat := 8

def POLLHUP : Nat := 16

def POLLRDHUP : Nat := 8192

/-- The body of the loop `for (size_t iter = 0; iter < num_fds; iter++)` of
`poll_func` for the slot `iter`, whose `revents` member is `revents`, when no
other worker stores to the shared `client_sockfd` between the store of this
worker and its call of `some_server`. -/
def dispatch_slot (revents : Nat) (iter : Nat) (w : poll_state) : Option poll_state :=
  match w.poll_fds[iter]? with
  | none => none
  | some fd =>
    if POLLERR = revents &&& POLLERR then
      some { w with poll_fds := w.poll_fds.set iter (-1) }
    else if POLLHUP = revents &&& POLLHUP ∨ POLLRDHUP = revents &&& POLLRDHUP then
      some { w with poll_fds := w.poll_fds.set iter (-1),
                    log := w.log ++ [worker_event.close fd] }
    else if POLLIN = revents &&& POLLIN then
      some { w with client_sockfd := fd, log := w.log ++ [worker_event.some_server fd] }
    else some w

/-- The loop `for (size_t iter = 0; iter < num_fds; iter++)` of `poll_func`,
with `todo` rounds left; `revents` lists the `revents` members of the slots. -/
def dispatch_loop (revents : List Nat) : Nat → Nat → poll_state → Option poll_state
  | 0, _, w => some w
  | todo + 1, iter, w => do
    let r ← revents[iter]?
    let w1 ← dispatch_slot r iter w
    dispatch_loop revents todo (iter + 1) w1

/-- A store of another worker to the shared `client_sockfd` (its admission,
`p_client_args->client_sockfd = p_queue_args->client_sockfd`, or its dispatch,
`p_client_args->client_sockfd = poll_fds[iter].fd`), as this worker sees it. -/
def client_sockfd_written (c : Int) (w : poll_state) : poll_state :=
  { w with client_sockfd := c }

/-- The body of the loop `for (size_t iter = 0; iter < num_fds; iter++)` of
`poll_func` for the slot `iter` while other workers run: `written` is the
value that another worker stored to the shared `client_sockfd` between the
store `p_client_args->client_sockfd = poll_fds[iter].fd` of this worker and its
call `some_server(p_client_args)`, and `none` when there was no such store.
The logged call of `some_server` carries the value that the shared member has
at the call. -/
def dispatch_slot_among_workers (revents : Nat) (iter : Nat) (written : Option Int)
    (w : poll_state) : Option poll_state :=
  match w.poll_fds[iter]? with
  | none => none
  | some fd =>
    if POLLERR = revents &&& POLLERR then
      some { w with poll_fds := w.poll_fds.set iter (-1) }
    else if POLLHUP = revents &&& POLLHUP ∨ POLLRDHUP = revents &&& POLLRDHUP then
      some { w with poll_fds := w.poll_fds.set iter (-1),
                    log := w.log ++ [worker_event.close fd] }
    else if POLLIN = revents &&& POLLIN then
      let w1 : poll_state := { w with client_sockfd := fd }
      let w2 : poll_state :=
        match written with
        | none => w1
        | some c => client_sockfd_written c w1
      some { w2 with log := w2.log ++ [worker_event.some_server w2.client_sockfd] }
    else some w

/-- The loop `for (size_t iter = 0; iter < num_fds; iter++)` of `poll_func`
while other workers run, with `todo` rounds left; `written` lists, by slot, the
stores of other workers between the store and the call of that round. -/
def dispatch_loop_among_workers (revents : List Nat) (written : List (Option Int)) :
    Nat → Nat → poll_state → Option poll_state
  | 0, _, w => some w
  | todo + 1, iter, w => do
    let r ← revents[iter]?
    let w1 ← dispatch_slot_among_workers r iter (written.getD iter none) w
    dispatch_loop_among_workers revents written todo (iter + 1) w1

/-- The worker states that admissions and dispatch loops reach from the
initial state, whatever the acceptor did to the shared state and whatever the
other workers stored to the shared `client_sockfd` in between. -/
inductive WorkerReachable (MAX_FDS : Nat) : poll_state → Prop where
  | init (client_sockfd : Int) : WorkerReachable MAX_FDS (poll_func_init MAX_FDS client_sockfd)
  | admission (s s1 : shared_state) (w w1 : poll_state) (b : Bool) :
      WorkerReachable MAX_FDS w → poll_func_admission MAX_FDS s w = some (b, s1, w1) →
      WorkerReachable MAX_FDS w1
  | dispatch (revents : List Nat) (w w1 : poll_state) :
      WorkerReachable MAX_FDS w → dispatch_loop revents w.num_fds 0 w = some w1 →
      WorkerReachable MAX_FDS w1
  | written (c : Int) (w : poll_state) :
      WorkerReachable MAX_FDS w → WorkerReachable MAX_FDS (client_sockfd_written c w)
  | dispatch_among_workers (revents : List Nat) (written : List (Option Int))
      (w w1 : poll_state) :
      WorkerReachable MAX_FDS w →
      dispatch_loop_among_workers revents written w.num_fds 0 w = some w1 →
      WorkerReachable MAX_FDS w1

/-- A number `k` of admissions of one worker; the list of the values of
`p_queue_args->client_sockfd` that it read comes first in the result. -/
def poll_func_admission_rounds (MAX_FDS : Nat) :
    Nat → shared_state → poll_state → Option (List Int × shared_state × poll_state)
  | 0, s, w => some ([], s, w)
  | k + 1, s, w => do
    let a ← poll_func_admission MAX_FDS s w
    let r ← poll_func_admission_rounds MAX_FDS k a.2.1 a.2.2
    some (a.2.2.client_sockfd :: r.1, r.2)

/-- The shape of the poll-set of a worker: `MAX_FDS` slots, `num_fds` from 1
to `MAX_FDS`, and every slot from index `num_fds - 1` on is free. -/
def WorkerInv (MAX_FDS : Nat) (w : poll_state) : Prop :=
  w.poll_fds.length = MAX_FDS ∧ 1 ≤ w.num_fds ∧ w.num_fds ≤ MAX_FDS ∧
    ∀ i, w.num_fds - 1 ≤ i → i < MAX_FDS → w.poll_fds[i]? = some (-1)

/-- What the dispatch is to leave in a slot that held `fd`, by the priority of
the events: -1 after an error or a hang-up, `fd` otherwise. -/
def slot_fd_after (revents : Nat) (fd : Int) : Int :=
  if POLLERR = revents &&& POLLERR then -1
  else if POLLHUP = revents &&& POLLHUP ∨ POLLRDHUP = revents &&& POLLRDHUP then -1
  else fd

/-- The call that the dispatch is to make for a slot that held `fd`, by the
priority of the events: none for an error, `close` for a hang-up, `some_server`
for a readable socket, none otherwise. -/
def slot_events (revents : Nat) (fd : Int) : List worker_event :=
  if POLLERR = revents &&& POLLERR then []
  else if POLLHUP = revents &&& POLLHUP ∨ POLLRDHUP = revents &&& POLLRDHUP then
    [worker_event.close fd]
  else if POLLIN = revents &&& POLLIN then [worker_event.some_server fd]
  else []

/-- The number of slots of the poll-set of a worker that hold a real fd,
that is, a value other than the mark -1 of a free slot. -/
def real_fds (w : poll_state) : Nat :=
  (w.poll_fds.filter (fun fd => decide (fd ≠ -1))).length

/-! ## Memory lemmas -/

theorem node_at_node (m : Mem) (i : Nat) (n : Q_NODE_t) (h : m.nodes[i]? = some (some n)) :
    m.node_at (Ptr.node i) = some n := by
  simp [Mem.node_at, h]

theorem set_node_node (m : Mem) (i : Nat) (n n0 : Q_NODE_t) (h : m.nodes[i]? = some (some n0)) :
    m.set_node (Ptr.node i) n = some { m with nodes := m.nodes.set i (some n) } := by
  simp [Mem.set_node, Mem.node_at, h]

theorem seg_congr (m m2 : Mem) :
    ∀ (cells : List (Nat × Ptr)) (p q : Ptr),
      (∀ c ∈ cells, m2.nodes[c.1]? = m.nodes[c.1]?) → Seg m p cells q → Seg m2 p cells q := by
  intro cells
  induction cells with
  | nil => intro p q _ h; exact h
  | cons c rest ih =>
    intro p q hag h
    obtain ⟨hp, nx, hc, hrest⟩ := h
    refine ⟨hp, nx, ?_, ih nx q (fun d hd => hag d (List.mem_cons_of_mem _ hd)) hrest⟩
    rw [hag c (List.mem_cons_self _ _)]
    exact hc

theorem seg_index_lt (m : Mem) :
    ∀ (cells : List (Nat × Ptr)) (p q : Ptr), Seg m p cells q →
      ∀ c ∈ cells, c.1 < m.nodes.length := by
  intro cells
  induction cells with
  | nil => intro p q _ c hc; cases hc
  | cons c rest ih =>
    intro p q h d hd
    obtain ⟨_, nx, hc, hrest⟩ := h
    rcases List.mem_cons.mp hd with rfl | hd
    · by_contra hlt
      rw [List.getElem?_eq_none (by omega)] at hc
      cases hc
    · exact ih nx q hrest d hd

theorem seg_snoc_intro (m : Mem) (t : Nat) (d q : Ptr)
    (ht : m.nodes[t]? = some (some ⟨d, q⟩)) :
    ∀ (cells : List (Nat × Ptr)) (p : Ptr), Seg m p cells (Ptr.node t) →
      Seg m p (cells ++ [(t, d)]) q := by
  intro cells
  induction cells with
  | nil => intro p h; exact ⟨h, q, ht, rfl⟩
  | cons c rest ih =>
    intro p h
    obtain ⟨hp, nx, hc, hrest⟩ := h
    exact ⟨hp, nx, hc, ih nx hrest⟩

theorem seg_snoc_elim (m : Mem) (t : Nat) (d q : Ptr) :
    ∀ (cells : List (Nat × Ptr)) (p : Ptr), Seg m p (cells ++ [(t, d)]) q →
      Seg m p cells (Ptr.node t) ∧ m.nodes[t]? = some (some ⟨d, q⟩) := by
  intro cells
  induction cells with
  | nil =>
    intro p h
    obtain ⟨hp, nx, hc, hrest⟩ := h
    have hq : nx = q := hrest
    subst hq
    exact ⟨hp, hc⟩
  | cons c rest ih =>
    intro p h
    obtain ⟨hp, nx, hc, hrest⟩ := h
    obtain ⟨h1, h2⟩ := ih nx hrest
    exact ⟨⟨hp, nx, hc, h1⟩, h2⟩

theorem seg_last_fresh (m : Mem) (t : Nat) (d : Ptr) :
    ∀ (cells : List (Nat × Ptr)) (p : Ptr), Seg m p (cells ++ [(t, d)]) Ptr.null →
      ∀ c ∈ cells, c.1 ≠ t := by
  intro cells
  induction cells with
  | nil => intro p _ c hc; cases hc
  | cons c rest ih =>
    intro p h e he
    have hlast := (seg_snoc_elim m t d Ptr.null (c :: rest) p h).2
    obtain ⟨_, nx, hc, hrest⟩ := h
    rcases List.mem_cons.mp he with rfl | he
    · intro hct
      rw [hct, hlast] at hc
      have hnx : nx = Ptr.null := by
        have := Option.some.inj (Option.some.inj hc)
        exact (congrArg Q_NODE_t.next this).symm
      subst hnx
      cases rest with
      | nil => exact absurd hrest.1 (by simp)
      | cons r rs => exact absurd hrest.1 (by simp)
    · exact ih nx hrest e he

theorem seg_head_ne_null (m : Mem) (c : Nat × Ptr) (rest : List (Nat × Ptr)) (p q : Ptr)
    (h : Seg m p (c :: rest) q) : p ≠ Ptr.null := by
  rw [h.1]; simp

theorem last_node_snoc (cells : List (Nat × Ptr)) (t : Nat) (d : Ptr) :
    last_node (cells ++ [(t, d)]) = Ptr.node t := by
  simp [last_node]

theorem calloc_node_ok (m : Mem) (hroom : m.room ≠ 0) :
    m.calloc_node = (Ptr.node m.nodes.length,
      { m with nodes := m.nodes ++ [some ⟨Ptr.null, Ptr.null⟩], room := m.room - 1 }) := by
  simp [Mem.calloc_node, hroom]

theorem calloc_node_fail (m : Mem) (hroom : m.room = 0) : m.calloc_node = (Ptr.null, m) := by
  simp [Mem.calloc_node, hroom]

/-- The memory after the fresh node `newnode` received `item` and was linked
behind the nodes `cells`. -/
theorem link_mem (m m1 : Mem) (p : Ptr) (cells : List (Nat × Ptr)) (item : Ptr)
    (hseg : Seg m p cells Ptr.null)
    (hm1 : m1 = { m with nodes := m.nodes ++ [some ⟨Ptr.null, Ptr.null⟩], room := m.room - 1 }) :
    ∃ m3 : Mem,
      (∀ (β : Type) (k : Mem → Option β),
        (do
          let n ← m1.node_at (Ptr.node m.nodes.length)
          let m2 ← m1.set_node (Ptr.node m.nodes.length) { n with data := item }
          let m3 ← (if last_node cells ≠ Ptr.null then do
              let t ← m2.node_at (last_node cells)
              m2.set_node (last_node cells) { t with next := Ptr.node m.nodes.length }
            else some m2)
          k m3) = k m3) ∧
      Seg m3 (if p = Ptr.null then Ptr.node m.nodes.length else p)
        (cells ++ [(m.nodes.length, item)]) Ptr.null ∧
      m3.sessions = m.sessions ∧ m3.room = m.room - 1 ∧
      m3.session_number = m.session_number ∧ m3.nodes.length = m.nodes.length + 1 := by
  subst hm1
  have hn : ({ m with nodes := m.nodes ++ [some ⟨Ptr.null, Ptr.null⟩], room := m.room - 1 } : Mem).nodes[m.nodes.length]? = some (some ⟨Ptr.null, Ptr.null⟩) := by
    simp
  simp only [node_at_node _ _ _ hn, Option.bind_eq_bind, Option.some_bind,
    set_node_node _ _ _ _ hn]
  rcases List.eq_nil_or_concat cells with rfl | ⟨pre, ⟨t, dt⟩, hcells⟩
  · have hp : p = Ptr.null := hseg
    subst hp
    refine ⟨{ m with nodes := (m.nodes ++ [some (Q_NODE_t.mk Ptr.null Ptr.null)]).set m.nodes.length (some (Q_NODE_t.mk item Ptr.null)), room := m.room - 1 }, ?_, ?_, rfl, rfl, rfl, by simp⟩
    · intro β k
      simp [last_node]
    · exact ⟨by simp, Ptr.null, by simp, rfl⟩
  · rw [List.concat_eq_append] at hcells
    subst hcells
    have hpre := seg_snoc_elim m t dt Ptr.null pre p hseg
    have htlt : t < m.nodes.length := seg_index_lt m _ p _ hseg (t, dt) (by simp)
    have hfresh := seg_last_fresh m t dt pre p hseg
    have hpne : p ≠ Ptr.null := by
      cases pre with
      | nil => exact seg_head_ne_null m _ _ p _ hseg
      | cons c rest => exact seg_head_ne_null m _ _ p _ hseg
    have ht2 : ({ m with nodes := (m.nodes ++ [some (Q_NODE_t.mk Ptr.null Ptr.null)]).set m.nodes.length (some (Q_NODE_t.mk item Ptr.null)), room := m.room - 1 } : Mem).nodes[t]? = some (some (Q_NODE_t.mk dt Ptr.null)) := by
      simp only [List.getElem?_set]
      rw [if_neg (by omega), List.getElem?_append_left htlt]
      exact hpre.2
    rw [last_node_snoc]
    simp only [ne_eq, reduceCtorEq, not_false_eq_true, if_true, node_at_node _ _ _ ht2,
      Option.some_bind, set_node_node _ _ _ _ ht2]
    refine ⟨_, fun β k => rfl, ?_, rfl, rfl, rfl, by simp⟩
    rw [if_neg hpne]
    apply seg_snoc_intro
    · simp only [List.getElem?_set]
      simp
      omega
    apply seg_snoc_intro
    · simp only [List.getElem?_set]
      simp [htlt]
      omega
    · apply seg_congr m _ pre p _ _ hpre.1
      intro c hc
      have h1 : c.1 ≠ t := hfresh c hc
      have h2 : c.1 < m.nodes.length := seg_index_lt m _ p _ hseg c (by simp [hc])
      simp only [List.getElem?_set]
      rw [if_neg (by omega), if_neg (by omega), List.getElem?_append_left h2]

theorem enqueue_ok (m : Mem) (q : QUEUE_t) (cells : List (Nat × Ptr)) (item : Ptr)
    (hq : IsQueue m q cells) (hroom : m.room ≠ 0) :
    ∃ q2 m3, enqueue m (some q) item = some (0, some q2, m3) ∧
      IsQueue m3 q2 (cells ++ [(m.nodes.length, item)]) ∧
      m3.sessions = m.sessions ∧ m3.room = m.room - 1 ∧
      m3.session_number = m.session_number ∧ m3.nodes.length = m.nodes.length + 1 := by
  obtain ⟨m3, hk, hseg, h1, h2, h3, h4⟩ := link_mem m _ q.head cells item hq.1 rfl
  refine ⟨if q.head = Ptr.null then { q with tail := Ptr.node m.nodes.length, head := Ptr.node m.nodes.length } else { q with tail := Ptr.node m.nodes.length }, m3, ?_, ⟨?_, ?_⟩, h1, h2, h3, h4⟩
  · simp only [enqueue, calloc_node_ok m hroom, reduceCtorEq, if_false, hq.2]
    exact hk _ _
  · by_cases hh : q.head = Ptr.null
    · simpa [hh] using hseg
    · simpa [hh] using hseg
  · by_cases hh : q.head = Ptr.null
    · simp [hh, last_node]
    · simp [hh, last_node]

theorem enqueue_no_room (m : Mem) (q : QUEUE_t) (item : Ptr) (hroom : m.room = 0) :
    enqueue m (some q) item = some (-1, some q, m) := by
  simp [enqueue, calloc_node_fail m hroom]

theorem last_node_cons_cons (a b : Nat × Ptr) (rest : List (Nat × Ptr)) :
    last_node (a :: b :: rest) = last_node (b :: rest) := by
  simp [last_node, List.getLast?_cons_cons]

theorem dequeue_ok (m : Mem) (q : QUEUE_t) (c : Nat × Ptr) (rest : List (Nat × Ptr))
    (ret_address : Int) (hq : IsQueue m q (c :: rest)) :
    ∃ q2, dequeue m (some q) ret_address
        = some (if ret_address = 1 then Ptr.node c.1 else c.2, some q2) ∧
      IsQueue m q2 rest ∧ (q2.tail = Ptr.null ↔ rest = []) := by
  obtain ⟨⟨hp, nx, hc, hrest⟩, htail⟩ := hq
  have hne : q.head ≠ Ptr.null := by rw [hp]; simp
  have hnode : m.node_at (Ptr.node c.1) = some ⟨c.2, nx⟩ := node_at_node _ _ _ hc
  cases rest with
  | nil =>
    have hnx : nx = Ptr.null := hrest
    subst hnx
    refine ⟨{ head := Ptr.null, tail := Ptr.null }, ?_, ⟨rfl, rfl⟩, by simp⟩
    simp [dequeue, hne, hnode, hp]
  | cons b rs =>
    have hnx : nx ≠ Ptr.null := seg_head_ne_null m _ _ nx _ hrest
    refine ⟨{ head := nx, tail := q.tail }, ?_, ⟨hrest, ?_⟩, ?_⟩
    · simp [dequeue, hne, hnode, hnx, hp]
    · rw [htail, last_node_cons_cons]
    · simp only [htail, last_node_cons_cons]
      rcases List.eq_nil_or_concat (b :: rs) with h | ⟨pre, ⟨t, dt⟩, h⟩
      · cases h
      · rw [List.concat_eq_append] at h
        rw [h, last_node_snoc]
        simp

theorem dequeue_calls_ok (m : Mem) :
    ∀ (cells : List (Nat × Ptr)) (q : QUEUE_t), IsQueue m q cells →
      ∃ q2, dequeue_calls m cells.length (some q) = some (payloads cells, some q2) ∧
        q2.head = Ptr.null ∧ q2.tail = Ptr.null := by
  intro cells
  induction cells with
  | nil =>
    intro q hq
    exact ⟨q, rfl, hq.1, hq.2⟩
  | cons c rest ih =>
    intro q hq
    obtain ⟨q1, hd, hq1, _⟩ := dequeue_ok m q c rest 0 hq
    obtain ⟨q2, hr, hh, ht⟩ := ih q1 hq1
    refine ⟨q2, ?_, hh, ht⟩
    simp [dequeue_calls, hd, hr, payloads]

theorem enqueue_calls_ok :
    ∀ (items : List Ptr) (m : Mem) (q : QUEUE_t) (cells : List (Nat × Ptr)),
      IsQueue m q cells → items.length ≤ m.room →
      ∃ q2 m2 added, enqueue_calls m (some q) items
          = some (List.replicate items.length 0, some q2, m2) ∧
        IsQueue m2 q2 (cells ++ added) ∧ payloads added = items ∧
        m2.sessions = m.sessions ∧ m2.room = m.room - items.length ∧
        m2.session_number = m.session_number := by
  intro items
  induction items with
  | nil =>
    intro m q cells hq _
    exact ⟨q, m, [], rfl, by simpa using hq, rfl, rfl, rfl, rfl⟩
  | cons x xs ih =>
    intro m q cells hq hroom
    simp only [List.length_cons] at hroom
    obtain ⟨q1, m1, he, hq1, hs1, hr1, hn1, _⟩ := enqueue_ok m q cells x hq (by omega)
    obtain ⟨q2, m2, added, hcalls, hq2, hpay, hs2, hr2, hn2⟩ := ih m1 q1 _ hq1 (by omega)
    refine ⟨q2, m2, (m.nodes.length, x) :: added, ?_, by simpa using hq2, by simp [payloads] at hpay ⊢; exact hpay, by rw [hs2, hs1], by rw [hr2, hr1]; simp only [List.length_cons]; omega, by rw [hn2, hn1]⟩
    simp [enqueue_calls, he, hcalls, List.replicate_succ]

theorem create_queue_empty (m : Mem) (hroom : m.room ≠ 0) :
    create_queue m Ptr.null 0
      = some (some { head := Ptr.null, tail := Ptr.null }, { m with room := m.room - 1 }) := by
  simp [create_queue, MAX_QUEUE_NODES, Mem.calloc_block, hroom, create_queue_loop]

theorem isQueue_empty (m : Mem) : IsQueue m { head := Ptr.null, tail := Ptr.null } [] :=
  ⟨rfl, rfl⟩

theorem wrap_int_small (x : Int) (h1 : -2147483648 ≤ x) (h2 : x ≤ 2147483647) :
    wrap_int x = x := by
  unfold wrap_int
  omega

theorem aenqueue_ok (m : Mem) (q : AQUEUE_t) (cells : List (Nat × Ptr)) (item : Ptr)
    (hq : IsAQueue m q cells) (hroom : m.room ≠ 0) (hitem : item ≠ Ptr.null)
    (hcap : cells.length ≤ 1000) :
    ∃ q2 m3, aenqueue m (some q) item = some (0, some q2, m3) ∧
      IsAQueue m3 q2 (cells ++ [(m.nodes.length, item)]) ∧
      m3.room = m.room - 1 := by
  obtain ⟨hseg0, htail, hnum⟩ := hq
  obtain ⟨m3, hk, hseg, _, h2, _, _⟩ := link_mem m _ q.head cells item hseg0 rfl
  have hle : ¬ q.num_nodes > MAX_QUEUE_NODES := by
    rw [hnum]; simp only [MAX_QUEUE_NODES]; omega
  have hw : wrap_int (q.num_nodes + 1) = q.num_nodes + 1 :=
    wrap_int_small _ (by omega) (by omega)
  refine ⟨if q.head = Ptr.null then { q with tail := Ptr.node m.nodes.length, head := Ptr.node m.nodes.length, num_nodes := q.num_nodes + 1 } else { q with tail := Ptr.node m.nodes.length, num_nodes := q.num_nodes + 1 }, m3, ?_, ⟨?_, ?_, ?_⟩, h2⟩
  · simp only [aenqueue, calloc_node_ok m hroom, reduceCtorEq, if_false, htail, hitem, hle,
      or_self]
    rw [hk]
    by_cases hh : q.head = Ptr.null
    · simp [hh, hw]
    · simp [hh, hw]
  · by_cases hh : q.head = Ptr.null
    · simpa [hh] using hseg
    · simpa [hh] using hseg
  · by_cases hh : q.head = Ptr.null
    · simp [hh, last_node]
    · simp [hh, last_node]
  · by_cases hh : q.head = Ptr.null
    · simp [hh, hnum]
    · simp [hh, hnum]

theorem adequeue_ok (m : Mem) (q : AQUEUE_t) (c : Nat × Ptr) (rest : List (Nat × Ptr))
    (hq : IsAQueue m q (c :: rest)) (hlen : rest.length < 2147483647) :
    ∃ q2, adequeue m (some q) 0 = some (Ptr.node c.1, some q2) ∧ IsAQueue m q2 rest := by
  obtain ⟨⟨hp, nx, hc, hrest⟩, htail, hnum⟩ := hq
  have hne : q.head ≠ Ptr.null := by rw [hp]; simp
  have hnode : m.node_at (Ptr.node c.1) = some ⟨c.2, nx⟩ := node_at_node _ _ _ hc
  simp only [List.length_cons, Nat.cast_add, Nat.cast_one] at hnum
  have hnz : q.num_nodes ≠ 0 := by omega
  have hw : wrap_int (q.num_nodes - 1) = (rest.length : Int) :=
    (wrap_int_small _ (by omega) (by omega)).trans (by omega)
  cases rest with
  | nil =>
    have hnx : nx = Ptr.null := hrest
    subst hnx
    refine ⟨{ head := Ptr.null, tail := Ptr.null, num_nodes := 0 }, ?_, ⟨rfl, rfl, rfl⟩⟩
    simp only [List.length_nil, Nat.cast_zero] at hw
    simp [adequeue, hnz, hnode, hp, hw]
  | cons b rs =>
    have hnx : nx ≠ Ptr.null := seg_head_ne_null m _ _ nx _ hrest
    refine ⟨{ head := nx, tail := q.tail, num_nodes := ((b :: rs).length : Int) }, ?_,
      ⟨hrest, ?_, rfl⟩⟩
    · simp [adequeue, hnz, hnode, hnx, hp]
      simpa using hw
    · rw [htail, last_node_cons_cons]

theorem seg_data (m : Mem) :
    ∀ (cells : List (Nat × Ptr)) (p q : Ptr), Seg m p cells q →
      cells.map (fun c => (m.node_at (Ptr.node c.1)).map Q_NODE_t.data)
        = (payloads cells).map some := by
  intro cells
  induction cells with
  | nil => intro p q _; rfl
  | cons c rest ih =>
    intro p q h
    obtain ⟨_, nx, hc, hrest⟩ := h
    simp [payloads, node_at_node _ _ _ hc]
    have := ih nx q hrest
    simpa [payloads] using this

theorem adequeue_calls_ok (m : Mem) :
    ∀ (cells : List (Nat × Ptr)) (q : AQUEUE_t), IsAQueue m q cells →
      cells.length ≤ 2147483647 →
      ∃ q2, adequeue_calls m cells.length (some q)
          = some (cells.map (fun c => Ptr.node c.1), some q2) ∧
        q2.head = Ptr.null ∧ q2.tail = Ptr.null ∧ q2.num_nodes = 0 := by
  intro cells
  induction cells with
  | nil =>
    intro q hq _
    exact ⟨q, rfl, hq.1, hq.2.1, by simpa using hq.2.2⟩
  | cons c rest ih =>
    intro q hq hlen
    simp only [List.length_cons] at hlen
    obtain ⟨q1, hd, hq1⟩ := adequeue_ok m q c rest hq (by omega)
    obtain ⟨q2, hr, hh, ht, hn⟩ := ih q1 hq1 (by omega)
    refine ⟨q2, ?_, hh, ht, hn⟩
    simp [adequeue_calls, hd, hr]

theorem aenqueue_calls_ok :
    ∀ (items : List Ptr) (m : Mem) (q : AQUEUE_t) (cells : List (Nat × Ptr)),
      IsAQueue m q cells → items.length ≤ m.room → (∀ x ∈ items, x ≠ Ptr.null) →
      cells.length + items.length ≤ 1001 →
      ∃ q2 m2 added, aenqueue_calls m (some q) items
          = some (List.replicate items.length 0, some q2, m2) ∧
        IsAQueue m2 q2 (cells ++ added) ∧ payloads added = items ∧
        m2.room = m.room - items.length := by
  intro items
  induction items with
  | nil =>
    intro m q cells hq _ _ _
    exact ⟨q, m, [], rfl, by simpa using hq, rfl, rfl⟩
  | cons x xs ih =>
    intro m q cells hq hroom hnn hcap
    simp only [List.length_cons] at hroom hcap
    obtain ⟨q1, m1, he, hq1, hr1⟩ :=
      aenqueue_ok m q cells x hq (by omega) (hnn x (List.mem_cons_self _ _)) (by omega)
    obtain ⟨q2, m2, added, hcalls, hq2, hpay, hr2⟩ :=
      ih m1 q1 _ hq1 (by omega) (fun y hy => hnn y (List.mem_cons_of_mem _ hy))
        (by simp only [List.length_append, List.length_singleton]; omega)
    refine ⟨q2, m2, (m.nodes.length, x) :: added, ?_, by simpa using hq2, by simp [payloads] at hpay ⊢; exact hpay, by rw [hr2, hr1]; simp only [List.length_cons]; omega⟩
    simp [aenqueue_calls, he, hcalls, List.replicate_succ]

theorem isAQueue_empty (m : Mem) :
    IsAQueue m { head := Ptr.null, tail := Ptr.null, num_nodes := 0 } [] :=
  ⟨rfl, rfl, rfl⟩

theorem aenqueue_reject (m : Mem) (q : AQUEUE_t) (item : Ptr) (hroom : m.room ≠ 0)
    (h : item = Ptr.null ∨ q.num_nodes > 1000) :
    ∃ m2, aenqueue m (some q) item = some (0, some q, m2) := by
  have hgt : item = Ptr.null ∨ q.num_nodes > MAX_QUEUE_NODES := h
  refine ⟨{ m with nodes := (m.nodes ++ [some (Q_NODE_t.mk Ptr.null Ptr.null)]).set m.nodes.length none, room := m.room - 1 }, ?_⟩
  simp [aenqueue, calloc_node_ok m hroom, hgt, Mem.free]

/-! ## The plain queue -/

/-- C1: starting from the empty queue of `create_queue(NULL, 0)`, one call of
`enqueue` per item followed by as many calls of `dequeue(queue, 0)` returns the
items (null or not) in the order they were enqueued, and head and tail are
NULL afterwards. The allocations of the queue and of its nodes succeed. -/
theorem queue_fifo_order (m : Mem) (items : List Ptr) (hroom : items.length + 1 ≤ m.room) :
    ∃ q0 m0 q1 m1 q2,
      create_queue m Ptr.null 0 = some (some q0, m0) ∧
      q0.head = Ptr.null ∧ q0.tail = Ptr.null ∧
      enqueue_calls m0 (some q0) items
        = some (List.replicate items.length 0, some q1, m1) ∧
      dequeue_calls m1 items.length (some q1) = some (items, some q2) ∧
      q2.head = Ptr.null ∧ q2.tail = Ptr.null := by
  have hcreate := create_queue_empty m (by omega)
  obtain ⟨q1, m1, added, hcalls, hq1, hpay, _, _, _⟩ :=
    enqueue_calls_ok items { m with room := m.room - 1 } _ [] (isQueue_empty _)
      (by simp only; omega)
  simp only [List.nil_append] at hq1
  obtain ⟨q2, hdeq, hh, ht⟩ := dequeue_calls_ok m1 added q1 hq1
  have hlen : added.length = items.length := by rw [← hpay]; simp [payloads]
  rw [hlen, hpay] at hdeq
  exact ⟨_, _, q1, m1, q2, hcreate, rfl, rfl, hcalls, hdeq, hh, ht⟩

theorem queue_fifo_order_witness :
    2 + 1 ≤ 3 ∧
    ∃ q0 m0 q1 m1 q2,
      create_queue ⟨[], [], 3, 1⟩ Ptr.null 0 = some (some q0, m0) ∧
      q0.head = Ptr.null ∧ q0.tail = Ptr.null ∧
      enqueue_calls m0 (some q0) [Ptr.obj 0 0, Ptr.obj 1 0] = some ([0, 0], some q1, m1) ∧
      dequeue_calls m1 2 (some q1) = some ([Ptr.obj 0 0, Ptr.obj 1 0], some q2) ∧
      q2.head = Ptr.null ∧ q2.tail = Ptr.null :=
  ⟨by decide, queue_fifo_order ⟨[], [], 3, 1⟩ [Ptr.obj 0 0, Ptr.obj 1 0] (by decide)⟩

/-- C8, as the code behaves: `enqueue` has no test of the item and no limit
on the number of items. On a well-formed non-null queue it returns 0 and the
item, null or not, becomes the last element whenever the node can be
allocated; it returns -1 and changes nothing when the allocation fails. -/
theorem enqueue_appends (m : Mem) (q : QUEUE_t) (cells : List (Nat × Ptr)) (item : Ptr)
    (hq : IsQueue m q cells) :
    (m.room ≠ 0 → ∃ q2 m2, enqueue m (some q) item = some (0, some q2, m2) ∧
      IsQueue m2 q2 (cells ++ [(m.nodes.length, item)]) ∧
      payloads (cells ++ [(m.nodes.length, item)]) = payloads cells ++ [item]) ∧
    (m.room = 0 → enqueue m (some q) item = some (-1, some q, m)) := by
  constructor
  · intro hroom
    obtain ⟨q2, m2, he, hq2, _⟩ := enqueue_ok m q cells item hq hroom
    exact ⟨q2, m2, he, hq2, by simp [payloads]⟩
  · intro hroom
    exact enqueue_no_room m q item hroom

theorem enqueue_appends_witness :
    IsQueue ⟨[some ⟨Ptr.obj 0 0, Ptr.null⟩], [], 1, 1⟩ ⟨Ptr.node 0, Ptr.node 0⟩ [(0, Ptr.obj 0 0)] ∧
    ∃ q2 m2, enqueue ⟨[some ⟨Ptr.obj 0 0, Ptr.null⟩], [], 1, 1⟩ (some ⟨Ptr.node 0, Ptr.node 0⟩)
        (Ptr.obj 1 0) = some (0, some q2, m2) ∧
      IsQueue m2 q2 [(0, Ptr.obj 0 0), (1, Ptr.obj 1 0)] ∧
      payloads [(0, Ptr.obj 0 0), (1, Ptr.obj 1 0)] = [Ptr.obj 0 0, Ptr.obj 1 0] :=
  have hq : IsQueue ⟨[some ⟨Ptr.obj 0 0, Ptr.null⟩], [], 1, 1⟩ ⟨Ptr.node 0, Ptr.node 0⟩
      [(0, Ptr.obj 0 0)] := by decide
  ⟨hq, (enqueue_appends _ _ _ (Ptr.obj 1 0) hq).1 (by decide)⟩

/-- C8 as stated fails: `enqueue` of a NULL item on an empty queue returns 0
and links a node, and `enqueue` on the queue that holds the 1000 items of 1000
earlier calls returns 0 and appends a further item. -/
theorem enqueue_no_guard_counterexample :
    (∃ q2 m2, enqueue ⟨[], [], 1, 1⟩ (some ⟨Ptr.null, Ptr.null⟩) Ptr.null
        = some (0, some q2, m2) ∧ q2.head = Ptr.node 0 ∧
        IsQueue m2 q2 [(0, Ptr.null)]) ∧
    (∃ q m cells q2 m2,
      enqueue_calls ⟨[], [], 1001, 1⟩ (some ⟨Ptr.null, Ptr.null⟩)
        (List.replicate 1000 (Ptr.obj 0 0)) = some (List.replicate 1000 0, some q, m) ∧
      IsQueue m q cells ∧ cells.length = 1000 ∧
      enqueue m (some q) (Ptr.obj 1 0) = some (0, some q2, m2) ∧
      IsQueue m2 q2 (cells ++ [(m.nodes.length, Ptr.obj 1 0)])) := by
  constructor
  · obtain ⟨q2, m2, he, hq2, _⟩ :=
      enqueue_ok ⟨[], [], 1, 1⟩ ⟨Ptr.null, Ptr.null⟩ [] Ptr.null (isQueue_empty _) (by decide)
    refine ⟨q2, m2, he, ?_, hq2⟩
    have h := hq2.1.1
    exact h
  · have key : ∀ items : List Ptr, items.length = 1000 →
        ∃ q m cells q2 m2,
          enqueue_calls ⟨[], [], 1001, 1⟩ (some ⟨Ptr.null, Ptr.null⟩) items
            = some (List.replicate 1000 0, some q, m) ∧
          IsQueue m q cells ∧ cells.length = 1000 ∧
          enqueue m (some q) (Ptr.obj 1 0) = some (0, some q2, m2) ∧
          IsQueue m2 q2 (cells ++ [(m.nodes.length, Ptr.obj 1 0)]) := by
      intro items hitems
      obtain ⟨q, m, added, hcalls, hq, hpay, _, hr, _⟩ :=
        enqueue_calls_ok items ⟨[], [], 1001, 1⟩ ⟨Ptr.null, Ptr.null⟩ [] (isQueue_empty _)
          (by rw [hitems]; decide)
      rw [hitems] at hcalls hr
      rw [List.nil_append] at hq
      have hlen : added.length = 1000 := by
        have := congrArg List.length hpay
        rw [hitems] at this
        simpa [payloads] using this
      have hroom : m.room ≠ 0 := by rw [hr]; decide
      obtain ⟨q2, m2, he, hq2, _⟩ := enqueue_ok m q added (Ptr.obj 1 0) hq hroom
      exact ⟨q, m, added, q2, m2, hcalls, hq, hlen, he, hq2⟩
    exact key _ (List.length_replicate _ _)

/-- C10: `dequeue(queue, 0)` returns NULL and leaves the control block as it
is for a NULL queue and for a queue whose head is NULL. On a well-formed
non-empty queue it returns the payload of the head node, the nodes that remain
are the previous ones without the first, in the same order, and the tail is
NULL afterwards exactly when no node remains. Memory is not written. -/
theorem dequeue_contract (m : Mem) (q : QUEUE_t) (cells : List (Nat × Ptr))
    (hq : IsQueue m q cells) :
    dequeue m none 0 = some (Ptr.null, none) ∧
    (q.head = Ptr.null → dequeue m (some q) 0 = some (Ptr.null, some q)) ∧
    (∀ c rest, cells = c :: rest →
      ∃ q2, dequeue m (some q) 0 = some (c.2, some q2) ∧ IsQueue m q2 rest ∧
        payloads rest = (payloads cells).tail ∧ (q2.tail = Ptr.null ↔ rest = [])) := by
  refine ⟨rfl, ?_, ?_⟩
  · intro hh
    simp [dequeue, hh]
  · intro c rest hcells
    subst hcells
    obtain ⟨q2, hd, hq2, ht⟩ := dequeue_ok m q c rest 0 hq
    exact ⟨q2, by simpa using hd, hq2, by simp [payloads], ht⟩

theorem dequeue_contract_witness :
    IsQueue ⟨[some ⟨Ptr.obj 0 0, Ptr.node 1⟩, some ⟨Ptr.obj 1 0, Ptr.null⟩], [], 0, 1⟩
      ⟨Ptr.node 0, Ptr.node 1⟩ [(0, Ptr.obj 0 0), (1, Ptr.obj 1 0)] ∧
    ∃ q2, dequeue ⟨[some ⟨Ptr.obj 0 0, Ptr.node 1⟩, some ⟨Ptr.obj 1 0, Ptr.null⟩], [], 0, 1⟩
        (some ⟨Ptr.node 0, Ptr.node 1⟩) 0 = some (Ptr.obj 0 0, some q2) ∧
      IsQueue ⟨[some ⟨Ptr.obj 0 0, Ptr.node 1⟩, some ⟨Ptr.obj 1 0, Ptr.null⟩], [], 0, 1⟩ q2
        [(1, Ptr.obj 1 0)] ∧
      payloads [(1, Ptr.obj 1 0)] = (payloads [(0, Ptr.obj 0 0), (1, Ptr.obj 1 0)]).tail ∧
      (q2.tail = Ptr.null ↔ [(1, Ptr.obj 1 0)] = ([] : List (Nat × Ptr))) :=
  have hq : IsQueue ⟨[some ⟨Ptr.obj 0 0, Ptr.node 1⟩, some ⟨Ptr.obj 1 0, Ptr.null⟩], [], 0, 1⟩
      ⟨Ptr.node 0, Ptr.node 1⟩ [(0, Ptr.obj 0 0), (1, Ptr.obj 1 0)] := by decide
  ⟨hq, (dequeue_contract _ _ _ hq).2.2 _ _ rfl⟩

/-! ## The atomic queue -/

/-- C6 fails on the code: the test of `aenqueue` is `num_nodes > MAX_QUEUE_NODES`.
After 1000 calls from the empty atomic queue `num_nodes` is 1000, and one more
call of `aenqueue` returns 0, links a further node and leaves `num_nodes`
at 1001. -/
theorem aenqueue_exceeds_max_queue_nodes :
    ∃ q m cells q2 m2,
      aenqueue_calls ⟨[], [], 1001, 1⟩ (some ⟨Ptr.null, Ptr.null, 0⟩)
        (List.replicate 1000 (Ptr.obj 0 0)) = some (List.replicate 1000 0, some q, m) ∧
      IsAQueue m q cells ∧ q.num_nodes = 1000 ∧
      aenqueue m (some q) (Ptr.obj 1 0) = some (0, some q2, m2) ∧
      IsAQueue m2 q2 (cells ++ [(m.nodes.length, Ptr.obj 1 0)]) ∧
      q2.num_nodes = 1001 := by
  have key : ∀ items : List Ptr, items.length = 1000 → (∀ x ∈ items, x ≠ Ptr.null) →
      ∃ q m cells q2 m2,
        aenqueue_calls ⟨[], [], 1001, 1⟩ (some ⟨Ptr.null, Ptr.null, 0⟩) items
          = some (List.replicate 1000 0, some q, m) ∧
        IsAQueue m q cells ∧ q.num_nodes = 1000 ∧
        aenqueue m (some q) (Ptr.obj 1 0) = some (0, some q2, m2) ∧
        IsAQueue m2 q2 (cells ++ [(m.nodes.length, Ptr.obj 1 0)]) ∧
        q2.num_nodes = 1001 := by
    intro items hitems hnn
    obtain ⟨q, m, added, hcalls, hq, hpay, hr⟩ :=
      aenqueue_calls_ok items ⟨[], [], 1001, 1⟩ ⟨Ptr.null, Ptr.null, 0⟩ [] (isAQueue_empty _)
        (by rw [hitems]; decide) hnn (by rw [hitems]; decide)
    rw [hitems] at hcalls hr
    rw [List.nil_append] at hq
    have hlen : added.length = 1000 := by
      have := congrArg List.length hpay
      rw [hitems] at this
      simpa [payloads] using this
    have hroom : m.room ≠ 0 := by rw [hr]; decide
    obtain ⟨q2, m2, he, hq2, _⟩ :=
      aenqueue_ok m q added (Ptr.obj 1 0) hq hroom (by simp) (by omega)
    refine ⟨q, m, added, q2, m2, hcalls, hq, ?_, he, hq2, ?_⟩
    · rw [hq.2.2, hlen]; rfl
    · rw [hq2.2.2, List.length_append, hlen]; rfl
  exact key _ (List.length_replicate _ _) (fun x hx => by
    rw [List.eq_of_mem_replicate hx]; simp)

/-- C7 fails on the code: `ret = 0` follows the rejecting branch as well.
`aenqueue` with a NULL item on an empty atomic queue returns 0 and leaves the
queue as it was (the node it allocated is freed again); and on the queue that
1001 earlier calls filled up to `num_nodes` 1001, `aenqueue` of a non-null item
returns 0 and leaves the control block as it was. -/
theorem aenqueue_returns_zero_without_append :
    aenqueue ⟨[], [], 1, 1⟩ (some ⟨Ptr.null, Ptr.null, 0⟩) Ptr.null
      = some (0, some ⟨Ptr.null, Ptr.null, 0⟩, ⟨[none], [], 0, 1⟩) ∧
    ∃ q m m2,
      aenqueue_calls ⟨[], [], 1002, 1⟩ (some ⟨Ptr.null, Ptr.null, 0⟩)
        (List.replicate 1001 (Ptr.obj 0 0)) = some (List.replicate 1001 0, some q, m) ∧
      q.num_nodes = 1001 ∧
      aenqueue m (some q) (Ptr.obj 1 0) = some (0, some q, m2) := by
  constructor
  · decide
  · have key : ∀ items : List Ptr, items.length = 1001 → (∀ x ∈ items, x ≠ Ptr.null) →
        ∃ q m m2,
          aenqueue_calls ⟨[], [], 1002, 1⟩ (some ⟨Ptr.null, Ptr.null, 0⟩) items
            = some (List.replicate 1001 0, some q, m) ∧
          q.num_nodes = 1001 ∧
          aenqueue m (some q) (Ptr.obj 1 0) = some (0, some q, m2) := by
      intro items hitems hnn
      obtain ⟨q, m, added, hcalls, hq, hpay, hr⟩ :=
        aenqueue_calls_ok items ⟨[], [], 1002, 1⟩ ⟨Ptr.null, Ptr.null, 0⟩ [] (isAQueue_empty _)
          (by rw [hitems]; decide) hnn (by rw [hitems]; decide)
      rw [hitems] at hcalls hr
      rw [List.nil_append] at hq
      have hlen : added.length = 1001 := by
        have := congrArg List.length hpay
        rw [hitems] at this
        simpa [payloads] using this
      have hroom : m.room ≠ 0 := by rw [hr]; decide
      have hnum : q.num_nodes = 1001 := by rw [hq.2.2, hlen]; rfl
      obtain ⟨m2, he⟩ := aenqueue_reject m q (Ptr.obj 1 0) hroom (Or.inr (by rw [hnum]; decide))
      exact ⟨q, m, m2, hcalls, hnum, he⟩
    exact key _ (List.length_replicate _ _) (fun x hx => by
      rw [List.eq_of_mem_replicate hx]; simp)

/-- C9: in a sequential run from the empty atomic queue, one call of
`aenqueue` per item (at most 1000 items, none of them NULL) followed by as many
calls of `adequeue(aqueue, 0)` returns 0 from every `aenqueue`, then the nodes
whose `data` members are the items in the order they were enqueued, and
`num_nodes` is 0 afterwards, with head and tail NULL. The allocations of the
nodes succeed. -/
theorem aqueue_fifo_order (m : Mem) (items : List Ptr) (hlen : items.length ≤ 1000)
    (hnn : ∀ x ∈ items, x ≠ Ptr.null) (hroom : items.length ≤ m.room) :
    ∃ q1 m1 rets q2,
      aenqueue_calls m (some ⟨Ptr.null, Ptr.null, 0⟩) items
        = some (List.replicate items.length 0, some q1, m1) ∧
      adequeue_calls m1 items.length (some q1) = some (rets, some q2) ∧
      rets.map (fun p => (m1.node_at p).map Q_NODE_t.data) = items.map some ∧
      q2.num_nodes = 0 ∧ q2.head = Ptr.null ∧ q2.tail = Ptr.null := by
  obtain ⟨q1, m1, added, hcalls, hq1, hpay, _⟩ :=
    aenqueue_calls_ok items m ⟨Ptr.null, Ptr.null, 0⟩ [] (isAQueue_empty _) hroom hnn
      (by simp only [List.length_nil]; omega)
  rw [List.nil_append] at hq1
  have hl : added.length = items.length := by rw [← hpay]; simp [payloads]
  obtain ⟨q2, hdeq, hh, ht, hn⟩ := adequeue_calls_ok m1 added q1 hq1 (by omega)
  rw [hl] at hdeq
  refine ⟨q1, m1, _, q2, hcalls, hdeq, ?_, hn, hh, ht⟩
  have hd := seg_data m1 added _ _ hq1.1
  rw [hpay] at hd
  rw [← hd, List.map_map]
  rfl

theorem aqueue_fifo_order_witness :
    2 ≤ 1000 ∧ (∀ x ∈ [Ptr.obj 0 0, Ptr.obj 1 0], x ≠ Ptr.null) ∧ 2 ≤ 2 ∧
    ∃ q1 m1 rets q2,
      aenqueue_calls ⟨[], [], 2, 1⟩ (some ⟨Ptr.null, Ptr.null, 0⟩) [Ptr.obj 0 0, Ptr.obj 1 0]
        = some ([0, 0], some q1, m1) ∧
      adequeue_calls m1 2 (some q1) = some (rets, some q2) ∧
      rets.map (fun p => (m1.node_at p).map Q_NODE_t.data)
        = [some (Ptr.obj 0 0), some (Ptr.obj 1 0)] ∧
      q2.num_nodes = 0 ∧ q2.head = Ptr.null ∧ q2.tail = Ptr.null :=
  ⟨by decide, by decide, by decide,
    aqueue_fifo_order ⟨[], [], 2, 1⟩ [Ptr.obj 0 0, Ptr.obj 1 0] (by decide) (by decide)
      (by decide)⟩

/-! ## The session registry -/

theorem isQueue_of_nodes_eq (m m2 : Mem) (q : QUEUE_t) (cells : List (Nat × Ptr))
    (h : m2.nodes = m.nodes) (hq : IsQueue m q cells) : IsQueue m2 q cells :=
  ⟨seg_congr m m2 cells _ _ (fun _ _ => by rw [h]) hq.1, hq.2⟩

theorem session_at_grow (m m2 : Mem) (x : Option session_t) (p : Ptr) (r : session_t)
    (h : m2.sessions = m.sessions ++ [x]) (hp : m.session_at p = some r) :
    m2.session_at p = some r := by
  cases p with
  | session i =>
    simp only [Mem.session_at] at hp ⊢
    have hlt : i < m.sessions.length := by
      by_contra hge
      rw [List.getElem?_eq_none (by omega)] at hp
      cases hp
    rw [h, List.getElem?_append_left hlt]
    exact hp
  | _ => cases hp

theorem holdsSessions_grow (m m2 : Mem) (x : Option session_t) (cells : List (Nat × Ptr))
    (recs : List session_t) (h : m2.sessions = m.sessions ++ [x])
    (hs : HoldsSessions m cells recs) : HoldsSessions m2 cells recs :=
  List.Forall₂.imp (fun c r hp => session_at_grow m m2 x c.2 r h hp) hs

theorem holdsSessions_of_sessions_eq (m m2 : Mem) (cells : List (Nat × Ptr))
    (recs : List session_t) (h : m2.sessions = m.sessions)
    (hs : HoldsSessions m cells recs) : HoldsSessions m2 cells recs :=
  List.Forall₂.imp (fun c r hp => by
    cases hc : c.2 with
    | session i => rw [hc] at hp; simpa [Mem.session_at, h] using hp
    | _ => rw [hc] at hp; cases hp) hs

theorem holdsSessions_snoc (m : Mem) (cells : List (Nat × Ptr)) (recs : List session_t)
    (c : Nat × Ptr) (r : session_t) (hs : HoldsSessions m cells recs)
    (hc : m.session_at c.2 = some r) : HoldsSessions m (cells ++ [c]) (recs ++ [r]) := by
  unfold HoldsSessions at hs ⊢
  induction hs with
  | nil => exact List.Forall₂.cons hc List.Forall₂.nil
  | cons h _ ih => exact List.Forall₂.cons h ih

theorem holdsSessions_payload (m : Mem) (cells : List (Nat × Ptr)) (recs : List session_t)
    (hs : HoldsSessions m cells recs) :
    ∀ c ∈ cells, c.2 ≠ Ptr.session_number := by
  unfold HoldsSessions at hs
  induction hs with
  | nil => intro c hc; cases hc
  | cons h _ ih =>
    intro c hc
    rcases List.mem_cons.mp hc with rfl | hc
    · intro he
      rw [he] at h
      cases h
    · exact ih c hc

theorem isQueue_tail_node (m : Mem) (q : QUEUE_t) (c : Nat × Ptr) (rest : List (Nat × Ptr))
    (hq : IsQueue m q (c :: rest)) : ∃ dt, m.node_at q.tail = some ⟨dt, Ptr.null⟩ := by
  rcases List.eq_nil_or_concat (c :: rest) with h | ⟨pre, ⟨t, dt⟩, h⟩
  · cases h
  · rw [List.concat_eq_append] at h
    obtain ⟨hseg, htail⟩ := hq
    rw [h] at hseg htail
    rw [htail, last_node_snoc]
    exact ⟨dt, node_at_node _ _ _ (seg_snoc_elim m t dt Ptr.null pre _ hseg).2⟩

theorem check_queue_loop_absent (m : Mem) (q : QUEUE_t) (data dt : Ptr)
    (ht : m.node_at q.tail = some ⟨dt, Ptr.null⟩) :
    ∀ (cells : List (Nat × Ptr)) (p : Ptr) (fuel : Nat), Seg m p cells Ptr.null →
      (∀ c ∈ cells, c.2 ≠ data) → cells.length < fuel →
      check_queue_loop m q data fuel p = some (-1) := by
  intro cells
  induction cells with
  | nil =>
    intro p fuel hseg _ hfuel
    have hp : p = Ptr.null := hseg
    cases fuel with
    | zero => omega
    | succ k => simp [check_queue_loop, ht, hp]
  | cons c rest ih =>
    intro p fuel hseg hne hfuel
    obtain ⟨hp, nx, hc, hrest⟩ := hseg
    cases fuel with
    | zero => omega
    | succ k =>
      simp only [List.length_cons] at hfuel
      have h1 : c.2 ≠ data := hne c (List.mem_cons_self _ _)
      simp only [check_queue_loop, ht, hp, Option.bind_eq_bind, Option.some_bind,
        reduceCtorEq, if_false, node_at_node _ _ _ hc, h1]
      exact ih nx k hrest (fun d hd => hne d (List.mem_cons_of_mem _ hd)) (by omega)

theorem check_queue_absent (m : Mem) (q : QUEUE_t) (cells : List (Nat × Ptr)) (data : Ptr)
    (fuel : Nat) (hq : IsQueue m q cells) (hne : ∀ c ∈ cells, c.2 ≠ data)
    (hfuel : cells.length < fuel) : check_queue fuel m (some q) data = some (-1) := by
  cases cells with
  | nil =>
    have hh : q.head = Ptr.null := hq.1
    simp [check_queue, hh]
  | cons c rest =>
    obtain ⟨dt, ht⟩ := isQueue_tail_node m q c rest hq
    have hh : q.head ≠ Ptr.null := seg_head_ne_null m _ _ _ _ hq.1
    simp only [check_queue, hh, if_false]
    exact check_queue_loop_absent m q data dt ht _ _ fuel hq.1 hne hfuel

theorem check_session_loop_ok (m : Mem) (q : QUEUE_t) (session_id : Nat) (dt : Ptr)
    (ht : m.node_at q.tail = some ⟨dt, Ptr.null⟩) :
    ∀ (cells : List (Nat × Ptr)) (recs : List session_t) (p : Ptr) (fuel : Nat),
      Seg m p cells Ptr.null → HoldsSessions m cells recs → cells.length < fuel →
      check_session_loop m q session_id fuel p = some (first_permissions session_id recs) := by
  intro cells
  induction cells with
  | nil =>
    intro recs p fuel hseg hs hfuel
    have hp : p = Ptr.null := hseg
    cases hs
    cases fuel with
    | zero => omega
    | succ k => simp [check_session_loop, ht, hp, first_permissions]
  | cons c rest ih =>
    intro recs p fuel hseg hs hfuel
    obtain ⟨hp, nx, hc, hrest⟩ := hseg
    cases hs with
    | cons hr hrs =>
      rename_i r rs
      cases fuel with
      | zero => omega
      | succ k =>
        simp only [List.length_cons] at hfuel
        simp only [check_session_loop, ht, hp, Option.bind_eq_bind, Option.some_bind,
          reduceCtorEq, if_false, node_at_node _ _ _ hc, hr, first_permissions]
        by_cases hid : r.session_id = session_id
        · simp [hid]
        · simp only [hid, if_false]
          exact ih rs nx k hrest hrs (by omega)

theorem check_session_ok (m : Mem) (q : QUEUE_t) (cells : List (Nat × Ptr))
    (recs : List session_t) (session_id fuel : Nat) (hq : IsQueue m q cells)
    (hs : HoldsSessions m cells recs) (hfuel : cells.length < fuel) :
    check_session fuel m session_id (some q) = some (first_permissions session_id recs) := by
  cases cells with
  | nil =>
    have hh : q.head = Ptr.null := hq.1
    cases hs
    simp [check_session, hh, first_permissions]
  | cons c rest =>
    obtain ⟨dt, ht⟩ := isQueue_tail_node m q c rest hq
    have hh : q.head ≠ Ptr.null := seg_head_ne_null m _ _ _ _ hq.1
    simp only [check_session, hh, if_false]
    exact check_session_loop_ok m q session_id dt ht _ recs _ fuel hq.1 hs hfuel

theorem first_permissions_absent (session_id : Nat) (recs : List session_t)
    (h : ∀ r ∈ recs, r.session_id ≠ session_id) : first_permissions session_id recs = 0 := by
  induction recs with
  | nil => rfl
  | cons r rest ih =>
    simp only [first_permissions, h r (List.mem_cons_self _ _), if_false]
    exact ih (fun x hx => h x (List.mem_cons_of_mem _ hx))

theorem first_permissions_first (session_id : Nat) (pre : List session_t) (r : session_t)
    (post : List session_t) (h : ∀ x ∈ pre, x.session_id ≠ session_id)
    (hr : r.session_id = session_id) :
    first_permissions session_id (pre ++ r :: post) = r.permissions := by
  induction pre with
  | nil => simp [first_permissions, hr]
  | cons x rest ih =>
    simp only [List.cons_append, first_permissions, h x (List.mem_cons_self _ _), if_false]
    exact ih (fun y hy => h y (List.mem_cons_of_mem _ hy))

/-- C3: on a well-formed sessions queue `check_session` returns 0 when no
record has the given id, and otherwise the permissions of the record with that
id (of the oldest such record, should several have it); it returns 0 for the
NULL queue, and hence for the empty queue. -/
theorem check_session_contract (m : Mem) (q : QUEUE_t) (cells : List (Nat × Ptr))
    (recs : List session_t) (session_id fuel : Nat) (hq : IsQueue m q cells)
    (hs : HoldsSessions m cells recs) (hfuel : cells.length < fuel) :
    check_session fuel m session_id none = some 0 ∧
    ((∀ r ∈ recs, r.session_id ≠ session_id) →
      check_session fuel m session_id (some q) = some 0) ∧
    (∀ pre r post, recs = pre ++ r :: post → (∀ x ∈ pre, x.session_id ≠ session_id) →
      r.session_id = session_id →
      check_session fuel m session_id (some q) = some r.permissions) := by
  have h := check_session_ok m q cells recs session_id fuel hq hs hfuel
  refine ⟨rfl, ?_, ?_⟩
  · intro hab
    rw [h, first_permissions_absent session_id recs hab]
  · intro pre r post hrecs hpre hr
    rw [h, hrecs, first_permissions_first session_id pre r post hpre hr]

theorem check_session_contract_witness :
    IsQueue ⟨[some ⟨Ptr.session 0, Ptr.node 1⟩, some ⟨Ptr.session 1, Ptr.null⟩],
        [some ⟨5, 7, Ptr.obj 0 0, 5⟩, some ⟨9, 3, Ptr.obj 1 0, 3⟩], 0, 6⟩
      ⟨Ptr.node 0, Ptr.node 1⟩ [(0, Ptr.session 0), (1, Ptr.session 1)] ∧
    HoldsSessions ⟨[some ⟨Ptr.session 0, Ptr.node 1⟩, some ⟨Ptr.session 1, Ptr.null⟩],
        [some ⟨5, 7, Ptr.obj 0 0, 5⟩, some ⟨9, 3, Ptr.obj 1 0, 3⟩], 0, 6⟩
      [(0, Ptr.session 0), (1, Ptr.session 1)]
      [⟨5, 7, Ptr.obj 0 0, 5⟩, ⟨9, 3, Ptr.obj 1 0, 3⟩] ∧
    2 < 3 ∧
    check_session 3 ⟨[some ⟨Ptr.session 0, Ptr.node 1⟩, some ⟨Ptr.session 1, Ptr.null⟩],
        [some ⟨5, 7, Ptr.obj 0 0, 5⟩, some ⟨9, 3, Ptr.obj 1 0, 3⟩], 0, 6⟩ 9
      (some ⟨Ptr.node 0, Ptr.node 1⟩) = some 3 :=
  have hq : IsQueue ⟨[some ⟨Ptr.session 0, Ptr.node 1⟩, some ⟨Ptr.session 1, Ptr.null⟩],
        [some ⟨5, 7, Ptr.obj 0 0, 5⟩, some ⟨9, 3, Ptr.obj 1 0, 3⟩], 0, 6⟩
      ⟨Ptr.node 0, Ptr.node 1⟩ [(0, Ptr.session 0), (1, Ptr.session 1)] := by decide
  have hs : HoldsSessions ⟨[some ⟨Ptr.session 0, Ptr.node 1⟩, some ⟨Ptr.session 1, Ptr.null⟩],
        [some ⟨5, 7, Ptr.obj 0 0, 5⟩, some ⟨9, 3, Ptr.obj 1 0, 3⟩], 0, 6⟩
      [(0, Ptr.session 0), (1, Ptr.session 1)]
      [⟨5, 7, Ptr.obj 0 0, 5⟩, ⟨9, 3, Ptr.obj 1 0, 3⟩] := by decide
  ⟨hq, hs, by decide,
    (check_session_contract _ _ _ _ 9 3 hq hs (by decide)).2.2 [⟨5, 7, Ptr.obj 0 0, 5⟩]
      ⟨9, 3, Ptr.obj 1 0, 3⟩ [] rfl (by decide) rfl⟩

theorem add_session_loop_skip (m : Mem) (q : QUEUE_t) (cells : List (Nat × Ptr))
    (recs : List session_t) (fuel : Nat) (hq : IsQueue m q cells)
    (hs : HoldsSessions m cells recs) (hfuel : cells.length < fuel) :
    add_session_loop fuel (some q) fuel m = some m := by
  have hc := check_queue_absent m q cells Ptr.session_number fuel hq
    (holdsSessions_payload m cells recs hs) hfuel
  cases fuel with
  | zero => omega
  | succ k => simp [add_session_loop, hc]

theorem add_session_ok (m : Mem) (q : QUEUE_t) (cells : List (Nat × Ptr))
    (recs : List session_t) (fuel : Nat) (random_num : Int) (permissions : Nat)
    (username : Ptr) (username_len : Int) (hq : IsQueue m q cells)
    (hs : HoldsSessions m cells recs) (hfuel : cells.length < fuel) (hroom : 2 ≤ m.room) :
    ∃ q2 m2,
      add_session fuel m random_num permissions (some q) username username_len
        = some (to_uint32 (Int.tmod random_num MAX_SESSIONS), some q2, m2) ∧
      IsQueue m2 q2 (cells ++ [(m.nodes.length, Ptr.session m.sessions.length)]) ∧
      HoldsSessions m2 (cells ++ [(m.nodes.length, Ptr.session m.sessions.length)])
        (recs ++ [⟨to_uint32 (Int.tmod random_num MAX_SESSIONS), permissions % 256,
          username, username_len⟩]) ∧
      m2.room = m.room - 2 := by
  have hq0 : IsQueue { m with session_number := Int.tmod random_num MAX_SESSIONS } q cells :=
    isQueue_of_nodes_eq m _ q cells rfl hq
  have hs0 : HoldsSessions { m with session_number := Int.tmod random_num MAX_SESSIONS }
      cells recs := holdsSessions_of_sessions_eq m _ cells recs rfl hs
  have hloop := add_session_loop_skip _ q cells recs fuel hq0 hs0 hfuel
  have hroom0 : m.room ≠ 0 := by omega
  have hq3 : IsQueue { m with session_number := Int.tmod random_num MAX_SESSIONS, sessions := m.sessions ++ [some (session_t.mk (to_uint32 (Int.tmod random_num MAX_SESSIONS)) (permissions % 256) username username_len)], room := m.room - 1 } q cells :=
    isQueue_of_nodes_eq m _ q cells rfl hq
  obtain ⟨q2, m4, he, hq4, hs4, hr4, hn4, hl4⟩ :=
    enqueue_ok _ q cells (Ptr.session m.sessions.length) hq3 (by simp only; omega)
  refine ⟨q2, { m4 with session_number := Int.tmod (m4.session_number + 1) MAX_SESSIONS },
    ?_, isQueue_of_nodes_eq m4 _ q2 _ rfl hq4, ?_, by simp only [hr4]; omega⟩
  · simp only [add_session, hloop, Option.bind_eq_bind, Option.some_bind, Mem.calloc_session,
      hroom0, if_false, reduceCtorEq, Mem.set_session, Mem.session_at]
    simp only [List.getElem?_concat_length, Option.join, Option.some_bind, id_eq,
      List.set_append_right _ _ (Nat.le_refl m.sessions.length),
      Nat.sub_self, List.set_cons_zero, he]
    simp [hn4]
  · apply holdsSessions_of_sessions_eq m4 _ _ _ rfl
    apply holdsSessions_snoc
    · exact holdsSessions_of_sessions_eq _ m4 cells recs hs4
        (holdsSessions_grow m _ _ cells recs rfl hs)
    · simp [Mem.session_at, hs4]

/-- C2 fails on the code: the loop of `add_session` asks `check_queue` for the
address of `session_number`, which is the payload of no node, so it never
moves on to another id. From the empty queue of `create_sessions_queue`, two
calls of `add_session` for which `random()` returned 5 and 100005 both return
the id 5, and the two live records both carry `session_id` 5. -/
theorem add_session_repeats_id :
    ∃ q0 m0 q1 m1 q2 m2,
      create_sessions_queue ⟨[], [], 5, 1⟩ = some (some q0, m0) ∧
      add_session 1 m0 5 7 (some q0) (Ptr.obj 0 0) 5 = some (5, some q1, m1) ∧
      add_session 2 m1 100005 3 (some q1) (Ptr.obj 1 0) 3 = some (5, some q2, m2) ∧
      live_session_ids m2 3 q2.head = some [5, 5] := by
  refine ⟨⟨Ptr.null, Ptr.null⟩, ⟨[], [], 4, 1⟩, ⟨Ptr.node 0, Ptr.node 0⟩,
    ⟨[some ⟨Ptr.session 0, Ptr.null⟩], [some ⟨5, 7, Ptr.obj 0 0, 5⟩], 2, 6⟩,
    ⟨Ptr.node 0, Ptr.node 1⟩,
    ⟨[some ⟨Ptr.session 0, Ptr.node 1⟩, some ⟨Ptr.session 1, Ptr.null⟩],
      [some ⟨5, 7, Ptr.obj 0 0, 5⟩, some ⟨5, 3, Ptr.obj 1 0, 3⟩], 0, 6⟩, ?_, ?_, ?_, ?_⟩
  · decide
  · decide
  · decide
  · decide

/-- C4 fails on the code, by the defect of C2: on the queue that holds the
record of `add_session(7, "alice")` with id 5, a call `add_session(3, "bob")`
for which `random()` returned 5 again returns the same id 5, and
`check_session(5)` called right afterwards returns 7, the permissions of the
older record, not 3. -/
theorem check_session_after_add_session_mismatch :
    ∃ q0 m0 q1 m1 q2 m2,
      create_sessions_queue ⟨[], [], 5, 1⟩ = some (some q0, m0) ∧
      add_session 1 m0 5 7 (some q0) (Ptr.obj 0 0) 5 = some (5, some q1, m1) ∧
      add_session 2 m1 5 3 (some q1) (Ptr.obj 1 0) 3 = some (5, some q2, m2) ∧
      check_session 3 m2 5 (some q2) = some 7 := by
  refine ⟨⟨Ptr.null, Ptr.null⟩, ⟨[], [], 4, 1⟩, ⟨Ptr.node 0, Ptr.node 0⟩,
    ⟨[some ⟨Ptr.session 0, Ptr.null⟩], [some ⟨5, 7, Ptr.obj 0 0, 5⟩], 2, 6⟩,
    ⟨Ptr.node 0, Ptr.node 1⟩,
    ⟨[some ⟨Ptr.session 0, Ptr.node 1⟩, some ⟨Ptr.session 1, Ptr.null⟩],
      [some ⟨5, 7, Ptr.obj 0 0, 5⟩, some ⟨5, 3, Ptr.obj 1 0, 3⟩], 0, 6⟩, ?_, ?_, ?_, ?_⟩
  · decide
  · decide
  · decide
  · decide

theorem add_session_calls_ok (fuel : Nat) :
    ∀ (args : List (Int × Nat × Ptr × Int)) (m : Mem) (q : QUEUE_t)
      (cells : List (Nat × Ptr)) (recs : List session_t),
      IsQueue m q cells → HoldsSessions m cells recs →
      cells.length + args.length ≤ fuel → 2 * args.length ≤ m.room →
      ∃ q2 m2 added newrecs,
        add_session_calls fuel m (some q) args
          = some (args.map (fun a => to_uint32 (Int.tmod a.1 MAX_SESSIONS)), some q2, m2) ∧
        IsQueue m2 q2 (cells ++ added) ∧ HoldsSessions m2 (cells ++ added) (recs ++ newrecs) ∧
        newrecs.map session_t.session_id
          = args.map (fun a => to_uint32 (Int.tmod a.1 MAX_SESSIONS)) ∧
        m2.room = m.room - 2 * args.length := by
  intro args
  induction args with
  | nil =>
    intro m q cells recs hq hs _ _
    exact ⟨q, m, [], [], rfl, by simpa using hq, by simpa using hs, rfl, rfl⟩
  | cons a rest ih =>
    intro m q cells recs hq hs hfuel hroom
    simp only [List.length_cons] at hfuel hroom
    obtain ⟨q1, m1, he, hq1, hs1, hr1⟩ :=
      add_session_ok m q cells recs fuel a.1 a.2.1 a.2.2.1 a.2.2.2 hq hs (by omega) (by omega)
    obtain ⟨q2, m2, added, newrecs, hcalls, hq2, hs2, hids, hr2⟩ :=
      ih m1 q1 _ _ hq1 hs1 (by simp only [List.length_append, List.length_singleton]; omega)
        (by omega)
    refine ⟨q2, m2, _ :: added, _ :: newrecs, ?_, by simpa using hq2, by simpa using hs2, ?_,
      by rw [hr2, hr1]; simp only [List.length_cons]; omega⟩
    · simp [add_session_calls, he, hcalls]
    · simp [hids]

theorem holdsSessions_length (m : Mem) (cells : List (Nat × Ptr)) (recs : List session_t)
    (hs : HoldsSessions m cells recs) : cells.length = recs.length :=
  List.Forall₂.length_eq hs

theorem add_session_no_room (m : Mem) (q : QUEUE_t) (cells : List (Nat × Ptr))
    (recs : List session_t) (fuel : Nat) (random_num : Int) (permissions : Nat)
    (username : Ptr) (username_len : Int) (hq : IsQueue m q cells)
    (hs : HoldsSessions m cells recs) (hfuel : cells.length < fuel) (hroom : m.room < 2) :
    ∃ m2, add_session fuel m random_num permissions (some q) username username_len
        = some (0, some q, m2) ∧
      IsQueue m2 q cells ∧ HoldsSessions m2 cells recs := by
  have hq0 : IsQueue { m with session_number := Int.tmod random_num MAX_SESSIONS } q cells :=
    isQueue_of_nodes_eq m _ q cells rfl hq
  have hs0 : HoldsSessions { m with session_number := Int.tmod random_num MAX_SESSIONS }
      cells recs := holdsSessions_of_sessions_eq m _ cells recs rfl hs
  have hloop := add_session_loop_skip _ q cells recs fuel hq0 hs0 hfuel
  by_cases h0 : m.room = 0
  · refine ⟨_, ?_, hq0, hs0⟩
    simp only [add_session, hloop, Option.bind_eq_bind, Option.some_bind]
    simp [Mem.calloc_session, h0]
  · have h1 : m.room - 1 = 0 := by omega
    refine ⟨{ m with session_number := Int.tmod random_num MAX_SESSIONS, sessions := m.sessions ++ [some (session_t.mk (to_uint32 (Int.tmod random_num MAX_SESSIONS)) (permissions % 256) username username_len)], room := m.room - 1 }, ?_, isQueue_of_nodes_eq m _ q cells rfl hq, holdsSessions_grow m _ _ cells recs rfl hs⟩
    simp only [add_session, hloop, Option.bind_eq_bind, Option.some_bind, Mem.calloc_session,
      h0, if_false, reduceCtorEq, Mem.set_session, Mem.session_at]
    simp only [List.getElem?_concat_length, Option.join, Option.some_bind, id_eq,
      List.set_append_right _ _ (Nat.le_refl m.sessions.length),
      Nat.sub_self, List.set_cons_zero]
    rw [enqueue_no_room _ q _ h1]
    simp

theorem to_uint32_tmod_range (n : Nat) (h : n ≤ 100000) :
    (List.range n).map (fun i => to_uint32 (Int.tmod (Int.ofNat i) MAX_SESSIONS)) = List.range n := by
  have : ∀ i ∈ List.range n, to_uint32 (Int.tmod (Int.ofNat i) MAX_SESSIONS) = i := by
    intro i hi
    have hlt : i < n := List.mem_range.mp hi
    have hcast : Int.ofNat i = (i : Int) := rfl
    unfold to_uint32 MAX_SESSIONS
    rw [hcast, Int.tmod_eq_emod (by omega) (by omega)]
    omega
  calc (List.range n).map (fun i => to_uint32 (Int.tmod (Int.ofNat i) MAX_SESSIONS))
      = (List.range n).map id := List.map_congr_left this
    _ = List.range n := List.map_id _

/-- C5 fails on the code: after 100000 calls of `add_session` on the empty
queue of `create_sessions_queue`, for which `random()` returned 0, 1, ...,
99999, the queue holds MAX_SESSIONS records with the ids 0 to 99999, so every
id is taken. The next call of `add_session` (with `random()` returning 5)
returns the id 5, not the failure value 0, and enqueues a record with the id
5, which a live record already carries; the queue then holds
MAX_SESSIONS + 1 records. -/
theorem add_session_beyond_max_sessions :
    ∃ q0 m0 q m cells recs q2 m2 c r,
      create_sessions_queue ⟨[], [], 200003, 1⟩ = some (some q0, m0) ∧
      add_session_calls 100001 m0 (some q0)
        ((List.range 100000).map (fun i => (Int.ofNat i, 1, Ptr.obj 0 0, 1)))
        = some (List.range 100000, some q, m) ∧
      IsQueue m q cells ∧ HoldsSessions m cells recs ∧
      recs.map session_t.session_id = List.range 100000 ∧
      recs.length = 100000 ∧
      add_session 100001 m 5 1 (some q) (Ptr.obj 1 0) 1 = some (5, some q2, m2) ∧
      IsQueue m2 q2 (cells ++ [c]) ∧ HoldsSessions m2 (cells ++ [c]) (recs ++ [r]) ∧
      (recs ++ [r]).length = 100001 ∧
      r.session_id = 5 ∧ (5 : Nat) ∈ recs.map session_t.session_id := by
  have key : ∀ n : Nat, n = 100000 →
      ∃ q0 m0 q m cells recs q2 m2 c r,
        create_sessions_queue ⟨[], [], 200003, 1⟩ = some (some q0, m0) ∧
        add_session_calls 100001 m0 (some q0)
          ((List.range n).map (fun i => (Int.ofNat i, 1, Ptr.obj 0 0, 1)))
          = some (List.range n, some q, m) ∧
        IsQueue m q cells ∧ HoldsSessions m cells recs ∧
        recs.map session_t.session_id = List.range n ∧
        recs.length = n ∧
        add_session 100001 m 5 1 (some q) (Ptr.obj 1 0) 1 = some (5, some q2, m2) ∧
        IsQueue m2 q2 (cells ++ [c]) ∧ HoldsSessions m2 (cells ++ [c]) (recs ++ [r]) ∧
        (recs ++ [r]).length = n + 1 ∧
        r.session_id = 5 ∧ (5 : Nat) ∈ recs.map session_t.session_id := by
    intro n hn
    have hc : create_sessions_queue ⟨[], [], 200003, 1⟩
        = some (some ⟨Ptr.null, Ptr.null⟩, ⟨[], [], 200002, 1⟩) := by decide
    obtain ⟨q, m, added, newrecs, hcalls, hq, hs, hids, hr⟩ :=
      add_session_calls_ok 100001 ((List.range n).map (fun i => (Int.ofNat i, 1, Ptr.obj 0 0, 1)))
        ⟨[], [], 200002, 1⟩ ⟨Ptr.null, Ptr.null⟩ [] [] (isQueue_empty _) List.Forall₂.nil
        (by simp only [List.length_nil, List.length_map, List.length_range]; omega)
        (by simp only [List.length_map, List.length_range]; omega)
    simp only [List.map_map, List.nil_append, List.length_map, List.length_range] at hcalls hq hs hids hr
    have hmap : (List.range n).map ((fun a : Int × Nat × Ptr × Int =>
        to_uint32 (Int.tmod a.1 MAX_SESSIONS)) ∘ fun i : Nat => (Int.ofNat i, 1, Ptr.obj 0 0, 1))
        = List.range n := to_uint32_tmod_range n (by omega)
    rw [hmap] at hcalls hids
    have hlen : newrecs.length = n := by
      have := congrArg List.length hids
      simpa using this
    have hclen : added.length = n := by rw [holdsSessions_length m added newrecs hs, hlen]
    obtain ⟨q2, m2, he, hq2, hs2, _⟩ :=
      add_session_ok m q added newrecs 100001 5 1 (Ptr.obj 1 0) 1 hq hs (by omega) (by omega)
    have hid : to_uint32 (Int.tmod 5 MAX_SESSIONS) = 5 := by decide
    rw [hid] at he hs2
    exact ⟨_, _, q, m, added, newrecs, q2, m2, _, _, hc, hcalls, hq, hs, hids, hlen, he, hq2,
      hs2, by simp [hlen], rfl, by rw [hids]; exact List.mem_range.mpr (by omega)⟩
  exact key 100000 rfl

/-! ## Search, clearing and expiry -/

theorem seg_split (m : Mem) :
    ∀ (xs ys : List (Nat × Ptr)) (p q : Ptr), Seg m p (xs ++ ys) q →
      ∃ r, Seg m p xs r ∧ Seg m r ys q := by
  intro xs
  induction xs with
  | nil => intro ys p q h; exact ⟨p, rfl, h⟩
  | cons c rest ih =>
    intro ys p q h
    obtain ⟨hp, nx, hc, hrest⟩ := h
    obtain ⟨r, h1, h2⟩ := ih ys nx q hrest
    exact ⟨r, ⟨hp, nx, hc, h1⟩, h2⟩

theorem seg_unique (m : Mem) :
    ∀ (xs ys : List (Nat × Ptr)) (p : Ptr), Seg m p xs Ptr.null → Seg m p ys Ptr.null →
      xs = ys := by
  intro xs
  induction xs with
  | nil =>
    intro ys p hx hy
    have hp : p = Ptr.null := hx
    cases ys with
    | nil => rfl
    | cons d ys => exact absurd hp (seg_head_ne_null m _ _ p _ hy)
  | cons c rest ih =>
    intro ys p hx hy
    cases ys with
    | nil =>
      have hp : p = Ptr.null := hy
      exact absurd hp (seg_head_ne_null m _ _ p _ hx)
    | cons d ys =>
      obtain ⟨hp, nx, hc, hrest⟩ := hx
      obtain ⟨hp2, nx2, hd, hrest2⟩ := hy
      have hidx : c.1 = d.1 := by
        rw [hp] at hp2
        exact Ptr.node.inj hp2
      rw [hidx, hd] at hc
      have hnode := Option.some.inj (Option.some.inj hc)
      have hdata : d.2 = c.2 := congrArg Q_NODE_t.data hnode
      have hnx : nx2 = nx := congrArg Q_NODE_t.next hnode
      subst hnx
      have hcd : c = d := Prod.ext hidx hdata.symm
      rw [hcd, ih ys nx2 hrest hrest2]

theorem seg_head_fresh (m : Mem) (c : Nat × Ptr) (rest : List (Nat × Ptr)) (p : Ptr)
    (h : Seg m p (c :: rest) Ptr.null) : ∀ d ∈ rest, d.1 ≠ c.1 := by
  intro d hd hdc
  obtain ⟨a, b, hrest⟩ := List.append_of_mem hd
  have h2 := h
  obtain ⟨hp, nx, _, hnx⟩ := h2
  rw [hrest] at hnx
  obtain ⟨r, _, hr⟩ := seg_split m a (d :: b) nx Ptr.null hnx
  have hrp : r = p := by rw [hp, hr.1, hdc]
  rw [hrp] at hr
  have heq := seg_unique m _ _ p h hr
  have hlen := congrArg List.length heq
  rw [hrest] at hlen
  simp only [List.length_cons, List.length_append] at hlen
  omega

theorem free_node_frame (m : Mem) (q : QUEUE_t) (c : Nat × Ptr) (rest : List (Nat × Ptr))
    (hq : IsQueue m q (c :: rest)) (q2 : QUEUE_t) (hq2 : IsQueue m q2 rest) :
    m.free (Ptr.node c.1) = some { m with nodes := m.nodes.set c.1 none } ∧
      IsQueue { m with nodes := m.nodes.set c.1 none } q2 rest := by
  have hfresh := seg_head_fresh m c rest _ hq.1
  obtain ⟨⟨_, nx, hc, _⟩, _⟩ := hq
  refine ⟨by simp [Mem.free, hc], seg_congr m _ rest _ _ ?_ hq2.1, hq2.2⟩
  intro d hd
  simp only [List.getElem?_set]
  rw [if_neg (fun h => hfresh d hd h.symm)]

theorem free_keeps_freed (m m1 : Mem) (p : Ptr) (i : Nat) (hf : m.free p = some m1)
    (hi : m.node_at (Ptr.node i) = none) : m1.node_at (Ptr.node i) = none := by
  cases p with
  | null =>
    simp only [Mem.free, Option.some.injEq] at hf
    rw [← hf]; exact hi
  | node j =>
    simp only [Mem.free] at hf
    split at hf
    · simp only [Option.some.injEq] at hf
      rw [← hf]
      simp only [Mem.node_at, List.getElem?_set] at hi ⊢
      by_cases hji : j = i
      · simp only [hji, if_true]
        split <;> rfl
      · simp only [hji, if_false]
        exact hi
    · cases hf
  | session j =>
    simp only [Mem.free] at hf
    split at hf
    · simp only [Option.some.injEq] at hf
      rw [← hf]
      exact hi
    · cases hf
  | session_number => simp [Mem.free] at hf
  | frame_temp => simp [Mem.free] at hf
  | obj b off => simp [Mem.free] at hf

theorem clear_loop_keeps_freed :
    ∀ (m : Mem) (q : QUEUE_t) (fuel : Nat) (m2 : Mem) (i : Nat),
      clear_loop fuel m q = some (⟨Ptr.null, Ptr.null⟩, m2) →
      m.node_at (Ptr.node i) = none → m2.node_at (Ptr.node i) = none := by
  intro m q fuel
  induction fuel generalizing m q with
  | zero => intro m2 i h; simp [clear_loop] at h
  | succ k ih =>
    intro m2 i h hi
    by_cases hh : q.head = Ptr.null
    · simp only [clear_loop, hh, ne_eq, not_true_eq_false, if_false, Option.some.injEq,
        Prod.mk.injEq] at h
      rw [← h.2]
      exact hi
    · simp only [clear_loop, hh, ne_eq, not_false_eq_true, if_true, Option.bind_eq_bind] at h
      cases hd : dequeue m (some q) 1 with
      | none => simp [hd] at h
      | some d =>
        simp only [hd, Option.some_bind] at h
        cases hf : m.free d.1 with
        | none => simp [hf] at h
        | some m1 =>
          simp only [hf, Option.some_bind] at h
          cases hl : d.2 with
          | none => simp [hl] at h
          | some l1 =>
            simp only [hl, Option.some_bind] at h
            refine ih m1 l1 m2 i h ?_
            exact free_keeps_freed m m1 d.1 i hf hi

theorem clear_loop_ok :
    ∀ (cells : List (Nat × Ptr)) (m : Mem) (q : QUEUE_t) (fuel : Nat),
      IsQueue m q cells → cells.length < fuel →
      ∃ m2, clear_loop fuel m q = some (⟨Ptr.null, Ptr.null⟩, m2) ∧
        m2.sessions = m.sessions ∧ m2.room = m.room ∧
        ∀ c ∈ cells, m2.node_at (Ptr.node c.1) = none := by
  intro cells
  induction cells with
  | nil =>
    intro m q fuel hq hfuel
    have hh : q.head = Ptr.null := hq.1
    have ht : q.tail = Ptr.null := hq.2
    cases fuel with
    | zero => omega
    | succ k =>
      refine ⟨m, ?_, rfl, rfl, fun c hc => by cases hc⟩
      cases q
      simp only at hh ht
      subst hh ht
      simp [clear_loop]
  | cons c rest ih =>
    intro m q fuel hq hfuel
    cases fuel with
    | zero => omega
    | succ k =>
      simp only [List.length_cons] at hfuel
      have hh : q.head ≠ Ptr.null := seg_head_ne_null m _ _ _ _ hq.1
      obtain ⟨q2, hd, hq2, _⟩ := dequeue_ok m q c rest 1 hq
      obtain ⟨hfree, hq2f⟩ := free_node_frame m q c rest hq q2 hq2
      obtain ⟨m2, hloop, hs, hr, hfreed⟩ := ih _ q2 k hq2f (by omega)
      have hlt : c.1 < m.nodes.length := seg_index_lt m _ _ _ hq.1 c (List.mem_cons_self _ _)
      refine ⟨m2, ?_, hs, hr, ?_⟩
      · simp only [clear_loop, hh, ne_eq, not_false_eq_true, if_true, hd, Option.bind_eq_bind,
          Option.some_bind, hfree]
        exact hloop
      · intro d hdm
        rcases List.mem_cons.mp hdm with rfl | hdr
        · exact clear_loop_keeps_freed _ q2 k m2 d.1 hloop (by simp [Mem.node_at, hlt])
        · exact hfreed d hdr

theorem check_queue_loop_ok (m : Mem) (q : QUEUE_t) (data dt : Ptr)
    (ht : m.node_at q.tail = some ⟨dt, Ptr.null⟩) :
    ∀ (cells : List (Nat × Ptr)) (p : Ptr) (fuel : Nat), Seg m p cells Ptr.null →
      cells.length < fuel →
      check_queue_loop m q data fuel p = some (if data ∈ payloads cells then 1 else -1) := by
  intro cells
  induction cells with
  | nil =>
    intro p fuel hseg hfuel
    have hp : p = Ptr.null := hseg
    cases fuel with
    | zero => omega
    | succ k => simp [check_queue_loop, ht, hp, payloads]
  | cons c rest ih =>
    intro p fuel hseg hfuel
    obtain ⟨hp, nx, hc, hrest⟩ := hseg
    cases fuel with
    | zero => omega
    | succ k =>
      simp only [List.length_cons] at hfuel
      simp only [check_queue_loop, ht, hp, Option.bind_eq_bind, Option.some_bind,
        reduceCtorEq, if_false, node_at_node _ _ _ hc]
      by_cases h1 : c.2 = data
      · simp [h1, payloads]
      · rw [if_neg h1, ih nx k hrest (by omega)]
        have hne : ¬ data = c.2 := fun h => h1 h.symm
        simp only [payloads, List.map_cons, List.mem_cons, hne, false_or]

theorem check_queue_ok (m : Mem) (q : QUEUE_t) (cells : List (Nat × Ptr)) (data : Ptr)
    (fuel : Nat) (hq : IsQueue m q cells) (hfuel : cells.length < fuel) :
    check_queue fuel m (some q) data = some (if data ∈ payloads cells then 1 else -1) := by
  cases cells with
  | nil =>
    have hh : q.head = Ptr.null := hq.1
    simp [check_queue, hh, payloads]
  | cons c rest =>
    obtain ⟨dt, ht⟩ := isQueue_tail_node m q c rest hq
    have hh : q.head ≠ Ptr.null := seg_head_ne_null m _ _ _ _ hq.1
    simp only [check_queue, hh, if_false]
    exact check_queue_loop_ok m q data dt ht _ _ fuel hq.1 hfuel

/-- C11: on a well-formed queue (its nodes lead from the head to the tail,
whose `next` link is NULL) `check_queue` returns 1 exactly when some node holds
a payload pointer equal to `data`, and -1 otherwise; it returns -1 for the NULL
queue, and hence for the empty queue. -/
theorem check_queue_contract (m : Mem) (q : QUEUE_t) (cells : List (Nat × Ptr)) (data : Ptr)
    (fuel : Nat) (hq : IsQueue m q cells) (hfuel : cells.length < fuel) :
    check_queue fuel m none data = some (-1) ∧
    (check_queue fuel m (some q) data = some 1 ↔ ∃ c ∈ cells, c.2 = data) ∧
    (check_queue fuel m (some q) data = some (-1) ↔ ¬ ∃ c ∈ cells, c.2 = data) := by
  have h := check_queue_ok m q cells data fuel hq hfuel
  have hmem : data ∈ payloads cells ↔ ∃ c ∈ cells, c.2 = data := by
    simp [payloads]
  refine ⟨rfl, ?_, ?_⟩
  · rw [h, ← hmem]
    by_cases hd : data ∈ payloads cells
    · simp [hd]
    · simp [hd]
  · rw [h, ← hmem]
    by_cases hd : data ∈ payloads cells
    · simp [hd]
    · simp [hd]

theorem check_queue_contract_witness :
    IsQueue ⟨[some ⟨Ptr.obj 0 0, Ptr.node 1⟩, some ⟨Ptr.obj 1 0, Ptr.null⟩], [], 0, 1⟩
      ⟨Ptr.node 0, Ptr.node 1⟩ [(0, Ptr.obj 0 0), (1, Ptr.obj 1 0)] ∧
    2 < 3 ∧
    check_queue 3 ⟨[some ⟨Ptr.obj 0 0, Ptr.node 1⟩, some ⟨Ptr.obj 1 0, Ptr.null⟩], [], 0, 1⟩
      (some ⟨Ptr.node 0, Ptr.node 1⟩) (Ptr.obj 1 0) = some 1 ∧
    check_queue 3 ⟨[some ⟨Ptr.obj 0 0, Ptr.node 1⟩, some ⟨Ptr.obj 1 0, Ptr.null⟩], [], 0, 1⟩
      (some ⟨Ptr.node 0, Ptr.node 1⟩) (Ptr.obj 2 0) = some (-1) :=
  have hq : IsQueue ⟨[some ⟨Ptr.obj 0 0, Ptr.node 1⟩, some ⟨Ptr.obj 1 0, Ptr.null⟩], [], 0, 1⟩
      ⟨Ptr.node 0, Ptr.node 1⟩ [(0, Ptr.obj 0 0), (1, Ptr.obj 1 0)] := by decide
  ⟨hq, by decide,
    (check_queue_contract _ _ _ (Ptr.obj 1 0) 3 hq (by decide)).2.1.mpr
      ⟨(1, Ptr.obj 1 0), by decide, rfl⟩,
    (check_queue_contract _ _ _ (Ptr.obj 2 0) 3 hq (by decide)).2.2.mpr (by decide)⟩

/-- C12: `clear` returns -1 for the NULL queue. For a well-formed queue of
any finite length the loop ends (fuel above the length is enough), `clear`
returns 0 and leaves head and tail NULL; every node of the queue is freed,
the payloads are not touched. -/
theorem clear_contract (m : Mem) (q : QUEUE_t) (cells : List (Nat × Ptr)) (fuel : Nat)
    (hq : IsQueue m q cells) (hfuel : cells.length < fuel) :
    clear fuel m none = some (-1, none, m) ∧
    ∃ m2, clear fuel m (some q) = some (0, some ⟨Ptr.null, Ptr.null⟩, m2) ∧
      (∀ c ∈ cells, m2.node_at (Ptr.node c.1) = none) ∧
      m2.sessions = m.sessions := by
  obtain ⟨m2, hloop, hs, _, hfreed⟩ := clear_loop_ok cells m q fuel hq hfuel
  refine ⟨rfl, m2, ?_, hfreed, hs⟩
  simp [clear, hloop]

theorem clear_contract_witness :
    IsQueue ⟨[some ⟨Ptr.obj 0 0, Ptr.node 1⟩, some ⟨Ptr.obj 1 0, Ptr.null⟩], [], 0, 1⟩
      ⟨Ptr.node 0, Ptr.node 1⟩ [(0, Ptr.obj 0 0), (1, Ptr.obj 1 0)] ∧
    2 < 3 ∧
    ∃ m2, clear 3 ⟨[some ⟨Ptr.obj 0 0, Ptr.node 1⟩, some ⟨Ptr.obj 1 0, Ptr.null⟩], [], 0, 1⟩
        (some ⟨Ptr.node 0, Ptr.node 1⟩) = some (0, some ⟨Ptr.null, Ptr.null⟩, m2) ∧
      (∀ c ∈ [(0, Ptr.obj 0 0), (1, Ptr.obj 1 0)], m2.node_at (Ptr.node c.1) = none) ∧
      m2.sessions = [] :=
  have hq : IsQueue ⟨[some ⟨Ptr.obj 0 0, Ptr.node 1⟩, some ⟨Ptr.obj 1 0, Ptr.null⟩], [], 0, 1⟩
      ⟨Ptr.node 0, Ptr.node 1⟩ [(0, Ptr.obj 0 0), (1, Ptr.obj 1 0)] := by decide
  ⟨hq, by decide, (clear_contract _ _ _ 3 hq (by decide)).2⟩

theorem create_queue_items_null (m : Mem) (items : Ptr) (numItems : Int)
    (h1 : 1 ≤ numItems) (h2 : numItems ≤ 1000) (hroom : m.room ≠ 0) :
    create_queue m items numItems = some (none, { m with room := m.room - 1 }) := by
  obtain ⟨k, hk⟩ : ∃ k, numItems.toNat = k + 1 := ⟨numItems.toNat - 1, by omega⟩
  have hr : ¬ (0 > numItems ∨ MAX_QUEUE_NODES < numItems) := by
    simp only [MAX_QUEUE_NODES]; omega
  simp [create_queue, hr, Mem.calloc_block, hroom, hk, create_queue_loop, enqueue]

/-- C13 fails on the code: the loop of `create_queue` enqueues into `ret`,
which is still NULL, instead of `new_queue`, so the first `enqueue` returns -1
and `create_queue` frees the queue and returns NULL. With one item, and with
1000 items, the result is NULL although the allocation of the queue
succeeded. -/
theorem create_queue_with_items_returns_null :
    create_queue ⟨[], [], 5, 1⟩ (Ptr.obj 0 0) 1 = some (none, ⟨[], [], 4, 1⟩) ∧
    create_queue ⟨[], [], 5, 1⟩ (Ptr.obj 0 0) 1000 = some (none, ⟨[], [], 4, 1⟩) :=
  ⟨create_queue_items_null _ _ 1 (by decide) (by decide) (by decide),
    create_queue_items_null _ _ 1000 (by decide) (by decide) (by decide)⟩

/-- C14: `dequeue_session` returns -1 and changes nothing for the NULL queue
and for a queue whose head is NULL. On a well-formed non-empty sessions queue
it returns 0, the head node is unlinked and freed, and the records that remain
are the previous ones without the oldest, in the same order. The session
record of the removed node stays allocated. -/
theorem dequeue_session_contract (m : Mem) (q : QUEUE_t) (cells : List (Nat × Ptr))
    (recs : List session_t) (hq : IsQueue m q cells) (hs : HoldsSessions m cells recs) :
    dequeue_session m none = some (-1, none, m) ∧
    (q.head = Ptr.null → dequeue_session m (some q) = some (-1, some q, m)) ∧
    (∀ c rest r rs, cells = c :: rest → recs = r :: rs →
      ∃ q2 m2, dequeue_session m (some q) = some (0, some q2, m2) ∧
        IsQueue m2 q2 rest ∧ HoldsSessions m2 rest rs ∧
        m2.node_at (Ptr.node c.1) = none ∧ m2.sessions = m.sessions) := by
  refine ⟨rfl, ?_, ?_⟩
  · intro hh
    simp [dequeue_session, dequeue, hh]
  · intro c rest r rs hcells hrecs
    subst hcells hrecs
    obtain ⟨q2, hd, hq2, _⟩ := dequeue_ok m q c rest 1 hq
    obtain ⟨hfree, hq2f⟩ := free_node_frame m q c rest hq q2 hq2
    have hlt : c.1 < m.nodes.length := seg_index_lt m _ _ _ hq.1 c (List.mem_cons_self _ _)
    have hrs : HoldsSessions m rest rs := by
      cases hs with
      | cons _ h => exact h
    refine ⟨q2, _, ?_, hq2f, holdsSessions_of_sessions_eq m _ rest rs rfl hrs, ?_, rfl⟩
    · simp [dequeue_session, hd, hfree]
    · simp [Mem.node_at, hlt]

theorem dequeue_session_contract_witness :
    IsQueue ⟨[some ⟨Ptr.session 0, Ptr.node 1⟩, some ⟨Ptr.session 1, Ptr.null⟩],
        [some ⟨5, 7, Ptr.obj 0 0, 5⟩, some ⟨9, 3, Ptr.obj 1 0, 3⟩], 0, 6⟩
      ⟨Ptr.node 0, Ptr.node 1⟩ [(0, Ptr.session 0), (1, Ptr.session 1)] ∧
    HoldsSessions ⟨[some ⟨Ptr.session 0, Ptr.node 1⟩, some ⟨Ptr.session 1, Ptr.null⟩],
        [some ⟨5, 7, Ptr.obj 0 0, 5⟩, some ⟨9, 3, Ptr.obj 1 0, 3⟩], 0, 6⟩
      [(0, Ptr.session 0), (1, Ptr.session 1)]
      [⟨5, 7, Ptr.obj 0 0, 5⟩, ⟨9, 3, Ptr.obj 1 0, 3⟩] ∧
    ∃ q2 m2,
      dequeue_session ⟨[some ⟨Ptr.session 0, Ptr.node 1⟩, some ⟨Ptr.session 1, Ptr.null⟩],
          [some ⟨5, 7, Ptr.obj 0 0, 5⟩, some ⟨9, 3, Ptr.obj 1 0, 3⟩], 0, 6⟩
        (some ⟨Ptr.node 0, Ptr.node 1⟩) = some (0, some q2, m2) ∧
      IsQueue m2 q2 [(1, Ptr.session 1)] ∧
      HoldsSessions m2 [(1, Ptr.session 1)] [⟨9, 3, Ptr.obj 1 0, 3⟩] ∧
      m2.node_at (Ptr.node 0) = none ∧
      m2.sessions = [some ⟨5, 7, Ptr.obj 0 0, 5⟩, some ⟨9, 3, Ptr.obj 1 0, 3⟩] :=
  have hq : IsQueue ⟨[some ⟨Ptr.session 0, Ptr.node 1⟩, some ⟨Ptr.session 1, Ptr.null⟩],
        [some ⟨5, 7, Ptr.obj 0 0, 5⟩, some ⟨9, 3, Ptr.obj 1 0, 3⟩], 0, 6⟩
      ⟨Ptr.node 0, Ptr.node 1⟩ [(0, Ptr.session 0), (1, Ptr.session 1)] := by decide
  have hs : HoldsSessions ⟨[some ⟨Ptr.session 0, Ptr.node 1⟩, some ⟨Ptr.session 1, Ptr.null⟩],
        [some ⟨5, 7, Ptr.obj 0 0, 5⟩, some ⟨9, 3, Ptr.obj 1 0, 3⟩], 0, 6⟩
      [(0, Ptr.session 0), (1, Ptr.session 1)]
      [⟨5, 7, Ptr.obj 0 0, 5⟩, ⟨9, 3, Ptr.obj 1 0, 3⟩] := by decide
  ⟨hq, hs, (dequeue_session_contract _ _ _ _ hq hs).2.2 _ _ _ _ rfl rfl⟩

/-- C15 fails on the code: the id is `random() % MAX_SESSIONS`, which can be
0, the value that `add_session` returns on failure. On the empty queue of
`create_sessions_queue`, a call for which `random()` returned 100000 enqueues a
record with `session_id` 0 and returns 0. -/
theorem add_session_returns_zero_on_success :
    ∃ q0 m0 q1 m1,
      create_sessions_queue ⟨[], [], 5, 1⟩ = some (some q0, m0) ∧
      add_session 1 m0 100000 7 (some q0) (Ptr.obj 0 0) 5 = some (0, some q1, m1) ∧
      live_session_ids m1 2 q1.head = some [0] ∧
      IsQueue m1 q1 [(0, Ptr.session 0)] ∧
      HoldsSessions m1 [(0, Ptr.session 0)] [⟨0, 7, Ptr.obj 0 0, 5⟩] := by
  refine ⟨⟨Ptr.null, Ptr.null⟩, ⟨[], [], 4, 1⟩, ⟨Ptr.node 0, Ptr.node 0⟩,
    ⟨[some ⟨Ptr.session 0, Ptr.null⟩], [some ⟨0, 7, Ptr.obj 0 0, 5⟩], 2, 1⟩, ?_, ?_, ?_, ?_, ?_⟩
  · decide
  · decide
  · decide
  · decide
  · decide

theorem find_session_loop_ok (m : Mem) (q : QUEUE_t) (session_id : Nat) (dt : Ptr)
    (ht : m.node_at q.tail = some ⟨dt, Ptr.null⟩) :
    ∀ (cells : List (Nat × Ptr)) (recs : List session_t) (p : Ptr) (fuel : Nat),
      Seg m p cells Ptr.null → HoldsSessions m cells recs → cells.length < fuel →
      find_session_loop m q session_id fuel p = some (first_session session_id cells recs) := by
  intro cells
  induction cells with
  | nil =>
    intro recs p fuel hseg hs hfuel
    have hp : p = Ptr.null := hseg
    cases hs
    cases fuel with
    | zero => omega
    | succ k => simp [find_session_loop, ht, hp, first_session]
  | cons c rest ih =>
    intro recs p fuel hseg hs hfuel
    obtain ⟨hp, nx, hc, hrest⟩ := hseg
    cases hs with
    | cons hr hrs =>
      rename_i r rs
      cases fuel with
      | zero => omega
      | succ k =>
        simp only [List.length_cons] at hfuel
        simp only [find_session_loop, ht, hp, Option.bind_eq_bind, Option.some_bind,
          reduceCtorEq, if_false, node_at_node _ _ _ hc, hr, first_session]
        by_cases hid : r.session_id = session_id
        · simp [hid]
        · simp only [hid, if_false]
          exact ih rs nx k hrest hrs (by omega)

theorem find_session_ok (m : Mem) (q : QUEUE_t) (cells : List (Nat × Ptr))
    (recs : List session_t) (session_id fuel : Nat) (hq : IsQueue m q cells)
    (hs : HoldsSessions m cells recs) (hfuel : cells.length < fuel) :
    find_session fuel m session_id (some q) = some (first_session session_id cells recs) := by
  cases cells with
  | nil =>
    have hh : q.head = Ptr.null := hq.1
    cases hs
    simp [find_session, hh, first_session]
  | cons c rest =>
    obtain ⟨dt, ht⟩ := isQueue_tail_node m q c rest hq
    have hh : q.head ≠ Ptr.null := seg_head_ne_null m _ _ _ _ hq.1
    simp only [find_session, hh, if_false]
    exact find_session_loop_ok m q session_id dt ht _ recs _ fuel hq.1 hs hfuel

theorem first_session_snoc (m : Mem) (session_id : Nat) (c : Nat × Ptr) (r : session_t)
    (hr : r.session_id = session_id) :
    ∀ (cells : List (Nat × Ptr)) (recs : List session_t), HoldsSessions m cells recs →
      (∀ x ∈ recs, x.session_id ≠ session_id) →
      first_session session_id (cells ++ [c]) (recs ++ [r]) = c.2 := by
  intro cells recs hs
  unfold HoldsSessions at hs
  induction hs with
  | nil => intro _; simp [first_session, hr]
  | cons h _ ih =>
    intro hfree
    simp only [List.cons_append, first_session, hfree _ (List.mem_cons_self _ _), if_false]
    exact ih (fun x hx => hfree x (List.mem_cons_of_mem _ hx))

theorem holdsSessions_last (m : Mem) (c : Nat × Ptr) (r : session_t) :
    ∀ (cells : List (Nat × Ptr)) (recs : List session_t),
      cells.length = recs.length → HoldsSessions m (cells ++ [c]) (recs ++ [r]) →
      m.session_at c.2 = some r := by
  intro cells
  induction cells with
  | nil =>
    intro recs hlen hs
    cases recs with
    | nil =>
      cases hs with
      | cons h _ => exact h
    | cons x xs => simp at hlen
  | cons d rest ih =>
    intro recs hlen hs
    cases recs with
    | nil => simp at hlen
    | cons x xs =>
      cases hs with
      | cons _ h => exact ih xs (by simpa using hlen) h

/-- C16, as the code behaves: `add_session` does not examine `username` or
`username_len`. On a well-formed sessions queue in which no record carries the
candidate id, a call whose two allocations succeed adds a record that holds
`username` and `username_len` exactly as they were passed, whatever they are
(NULL, 0, negative, large), and `find_session` of the returned id finds that
record; when an allocation fails the call returns 0 and adds nothing. -/
theorem add_session_stores_username (m : Mem) (q : QUEUE_t) (cells : List (Nat × Ptr))
    (recs : List session_t) (fuel : Nat) (random_num : Int) (permissions : Nat)
    (username : Ptr) (username_len : Int) (hq : IsQueue m q cells)
    (hs : HoldsSessions m cells recs) (hfuel : cells.length < fuel)
    (hfree : ∀ x ∈ recs, x.session_id ≠ to_uint32 (Int.tmod random_num MAX_SESSIONS)) :
    (2 ≤ m.room → ∃ id q2 m2 c r,
      add_session fuel m random_num permissions (some q) username username_len
        = some (id, some q2, m2) ∧
      IsQueue m2 q2 (cells ++ [c]) ∧ HoldsSessions m2 (cells ++ [c]) (recs ++ [r]) ∧
      r.username = username ∧ r.username_len = username_len ∧
      find_session (fuel + 1) m2 id (some q2) = some c.2 ∧ m2.session_at c.2 = some r) ∧
    (m.room < 2 → ∃ m2,
      add_session fuel m random_num permissions (some q) username username_len
        = some (0, some q, m2) ∧
      IsQueue m2 q cells ∧ HoldsSessions m2 cells recs) := by
  constructor
  · intro hroom
    obtain ⟨q2, m2, he, hq2, hs2, _⟩ :=
      add_session_ok m q cells recs fuel random_num permissions username username_len hq hs
        hfuel hroom
    have hlen := holdsSessions_length m cells recs hs
    have hlast := holdsSessions_last m2 _ _ cells recs hlen hs2
    have hpre : HoldsSessions m2 cells recs := by
      unfold HoldsSessions at hs2 ⊢
      have := List.forall₂_take cells.length hs2
      rw [hlen] at this
      simpa [hlen] using this
    refine ⟨_, q2, m2, _, _, he, hq2, hs2, rfl, rfl, ?_, hlast⟩
    rw [find_session_ok m2 q2 _ _ _ (fuel + 1) hq2 hs2
      (by simp only [List.length_append, List.length_singleton]; omega)]
    exact congrArg some (first_session_snoc m2 (to_uint32 (Int.tmod random_num MAX_SESSIONS))
      (m.nodes.length, Ptr.session m.sessions.length)
      (session_t.mk (to_uint32 (Int.tmod random_num MAX_SESSIONS)) (permissions % 256) username
        username_len) rfl cells recs hpre hfree)
  · intro hroom
    exact add_session_no_room m q cells recs fuel random_num permissions username username_len
      hq hs hfuel hroom

theorem add_session_stores_username_witness :
    IsQueue ⟨[some ⟨Ptr.session 0, Ptr.null⟩], [some ⟨5, 7, Ptr.obj 0 0, 5⟩], 2, 6⟩
      ⟨Ptr.node 0, Ptr.node 0⟩ [(0, Ptr.session 0)] ∧
    HoldsSessions ⟨[some ⟨Ptr.session 0, Ptr.null⟩], [some ⟨5, 7, Ptr.obj 0 0, 5⟩], 2, 6⟩
      [(0, Ptr.session 0)] [⟨5, 7, Ptr.obj 0 0, 5⟩] ∧
    1 < 2 ∧
    (∀ x ∈ [(⟨5, 7, Ptr.obj 0 0, 5⟩ : session_t)], x.session_id ≠ 8) ∧
    ∃ id q2 m2 c r,
      add_session 2 ⟨[some ⟨Ptr.session 0, Ptr.null⟩], [some ⟨5, 7, Ptr.obj 0 0, 5⟩], 2, 6⟩ 8 3
        (some ⟨Ptr.node 0, Ptr.node 0⟩) Ptr.null 0 = some (id, some q2, m2) ∧
      IsQueue m2 q2 ([(0, Ptr.session 0)] ++ [c]) ∧
      HoldsSessions m2 ([(0, Ptr.session 0)] ++ [c]) ([⟨5, 7, Ptr.obj 0 0, 5⟩] ++ [r]) ∧
      r.username = Ptr.null ∧ r.username_len = 0 ∧
      find_session (2 + 1) m2 id (some q2) = some c.2 ∧ m2.session_at c.2 = some r :=
  have hq : IsQueue ⟨[some ⟨Ptr.session 0, Ptr.null⟩], [some ⟨5, 7, Ptr.obj 0 0, 5⟩], 2, 6⟩
      ⟨Ptr.node 0, Ptr.node 0⟩ [(0, Ptr.session 0)] := by decide
  have hs : HoldsSessions ⟨[some ⟨Ptr.session 0, Ptr.null⟩], [some ⟨5, 7, Ptr.obj 0 0, 5⟩], 2, 6⟩
      [(0, Ptr.session 0)] [⟨5, 7, Ptr.obj 0 0, 5⟩] := by decide
  have hfree : ∀ x ∈ [(⟨5, 7, Ptr.obj 0 0, 5⟩ : session_t)], x.session_id ≠ 8 := by decide
  ⟨hq, hs, by decide, hfree,
    (add_session_stores_username _ _ _ _ 2 8 3 Ptr.null 0 hq hs (by decide) hfree).1
      (by decide)⟩

/-- C16 as stated fails: on the empty queue of `create_sessions_queue`,
`add_session` with a NULL username and `username_len` 0 returns the id 5 and
enqueues a record; so do a call with `username_len` -3 and a call with
`username_len` 2147483647. -/
theorem add_session_accepts_any_username :
    ∃ q0 m0 q1 m1 q2 m2 q3 m3,
      create_sessions_queue ⟨[], [], 7, 1⟩ = some (some q0, m0) ∧
      add_session 1 m0 5 7 (some q0) Ptr.null 0 = some (5, some q1, m1) ∧
      live_session_ids m1 2 q1.head = some [5] ∧
      add_session 2 m1 6 7 (some q1) (Ptr.obj 0 0) (-3) = some (6, some q2, m2) ∧
      live_session_ids m2 3 q2.head = some [5, 6] ∧
      add_session 3 m2 7 7 (some q2) (Ptr.obj 0 0) 2147483647 = some (7, some q3, m3) ∧
      live_session_ids m3 4 q3.head = some [5, 6, 7] := by
  refine ⟨⟨Ptr.null, Ptr.null⟩, ⟨[], [], 6, 1⟩, ⟨Ptr.node 0, Ptr.node 0⟩,
    ⟨[some ⟨Ptr.session 0, Ptr.null⟩], [some ⟨5, 7, Ptr.null, 0⟩], 4, 6⟩,
    ⟨Ptr.node 0, Ptr.node 1⟩,
    ⟨[some ⟨Ptr.session 0, Ptr.node 1⟩, some ⟨Ptr.session 1, Ptr.null⟩],
      [some ⟨5, 7, Ptr.null, 0⟩, some ⟨6, 7, Ptr.obj 0 0, -3⟩], 2, 7⟩,
    ⟨Ptr.node 0, Ptr.node 2⟩,
    ⟨[some ⟨Ptr.session 0, Ptr.node 1⟩, some ⟨Ptr.session 1, Ptr.node 2⟩,
        some ⟨Ptr.session 2, Ptr.null⟩],
      [some ⟨5, 7, Ptr.null, 0⟩, some ⟨6, 7, Ptr.obj 0 0, -3⟩,
        some ⟨7, 7, Ptr.obj 0 0, 2147483647⟩], 0, 8⟩, ?_, ?_, ?_, ?_, ?_, ?_, ?_⟩
  · decide
  · decide
  · decide
  · decide
  · decide
  · decide
  · decide

theorem first_permissions_zero_iff (session_id : Nat) (recs : List session_t)
    (hnz : ∀ r ∈ recs, r.permissions ≠ 0) :
    first_permissions session_id recs = 0 ↔ ∀ r ∈ recs, r.session_id ≠ session_id := by
  induction recs with
  | nil => simp [first_permissions]
  | cons r rest ih =>
    have ih2 := ih (fun x hx => hnz x (List.mem_cons_of_mem _ hx))
    have hr : r.permissions ≠ 0 := hnz r (List.mem_cons_self _ _)
    by_cases hid : r.session_id = session_id
    · simp [first_permissions, hid, hr]
    · simp [first_permissions, hid, ih2]

/-- C17, as the code behaves: `add_session` stores the permissions it is
given, 0 included, so a record with permissions 0 can be live. For a
well-formed sessions queue all of whose records have permissions other than 0,
`check_session` returns 0 if and only if no record carries the id. -/
theorem check_session_zero_iff_absent (m : Mem) (q : QUEUE_t) (cells : List (Nat × Ptr))
    (recs : List session_t) (session_id fuel : Nat) (hq : IsQueue m q cells)
    (hs : HoldsSessions m cells recs) (hfuel : cells.length < fuel)
    (hnz : ∀ r ∈ recs, r.permissions ≠ 0) :
    check_session fuel m session_id (some q) = some 0 ↔
      ∀ r ∈ recs, r.session_id ≠ session_id := by
  rw [check_session_ok m q cells recs session_id fuel hq hs hfuel, Option.some.injEq]
  exact first_permissions_zero_iff session_id recs hnz

theorem check_session_zero_iff_absent_witness :
    IsQueue ⟨[some ⟨Ptr.session 0, Ptr.null⟩], [some ⟨5, 7, Ptr.obj 0 0, 5⟩], 2, 6⟩
      ⟨Ptr.node 0, Ptr.node 0⟩ [(0, Ptr.session 0)] ∧
    HoldsSessions ⟨[some ⟨Ptr.session 0, Ptr.null⟩], [some ⟨5, 7, Ptr.obj 0 0, 5⟩], 2, 6⟩
      [(0, Ptr.session 0)] [⟨5, 7, Ptr.obj 0 0, 5⟩] ∧
    1 < 2 ∧
    (∀ r ∈ [(⟨5, 7, Ptr.obj 0 0, 5⟩ : session_t)], r.permissions ≠ 0) ∧
    (check_session 2 ⟨[some ⟨Ptr.session 0, Ptr.null⟩], [some ⟨5, 7, Ptr.obj 0 0, 5⟩], 2, 6⟩ 9
        (some ⟨Ptr.node 0, Ptr.node 0⟩) = some 0 ↔
      ∀ r ∈ [(⟨5, 7, Ptr.obj 0 0, 5⟩ : session_t)], r.session_id ≠ 9) :=
  have hq : IsQueue ⟨[some ⟨Ptr.session 0, Ptr.null⟩], [some ⟨5, 7, Ptr.obj 0 0, 5⟩], 2, 6⟩
      ⟨Ptr.node 0, Ptr.node 0⟩ [(0, Ptr.session 0)] := by decide
  have hs : HoldsSessions ⟨[some ⟨Ptr.session 0, Ptr.null⟩], [some ⟨5, 7, Ptr.obj 0 0, 5⟩], 2, 6⟩
      [(0, Ptr.session 0)] [⟨5, 7, Ptr.obj 0 0, 5⟩] := by decide
  have hnz : ∀ r ∈ [(⟨5, 7, Ptr.obj 0 0, 5⟩ : session_t)], r.permissions ≠ 0 := by decide
  ⟨hq, hs, by decide, hnz, check_session_zero_iff_absent _ _ _ _ 9 2 hq hs (by decide) hnz⟩

/-- C17 as stated fails: on the empty queue of `create_sessions_queue`,
`add_session` with permissions 0 returns the id 5 and enqueues a record with
permissions 0; the record is live, and `check_session(5)` returns 0. -/
theorem check_session_zero_for_live_session :
    ∃ q0 m0 q1 m1,
      create_sessions_queue ⟨[], [], 5, 1⟩ = some (some q0, m0) ∧
      add_session 1 m0 5 0 (some q0) (Ptr.obj 0 0) 5 = some (5, some q1, m1) ∧
      IsQueue m1 q1 [(0, Ptr.session 0)] ∧
      HoldsSessions m1 [(0, Ptr.session 0)] [⟨5, 0, Ptr.obj 0 0, 5⟩] ∧
      check_session 2 m1 5 (some q1) = some 0 := by
  refine ⟨⟨Ptr.null, Ptr.null⟩, ⟨[], [], 4, 1⟩, ⟨Ptr.node 0, Ptr.node 0⟩,
    ⟨[some ⟨Ptr.session 0, Ptr.null⟩], [some ⟨5, 0, Ptr.obj 0 0, 5⟩], 2, 6⟩, ?_, ?_, ?_, ?_, ?_⟩
  · decide
  · decide
  · decide
  · decide
  · decide

theorem to_uint32_tmod_nonneg (random_num : Int) (h : 0 ≤ random_num) :
    to_uint32 (Int.tmod random_num MAX_SESSIONS) < 100000 ∧
    (to_uint32 (Int.tmod random_num MAX_SESSIONS) : Int) = random_num % 100000 := by
  unfold to_uint32 MAX_SESSIONS
  rw [Int.tmod_eq_emod h (by omega)]
  omega

/-- C18: when `random()` returned a non-negative value, a call of
`add_session` that succeeds (both allocations served, on a well-formed
sessions queue) returns the `session_id` stored in the record it enqueued, and
this id is `random() % MAX_SESSIONS`, hence below MAX_SESSIONS. -/
theorem add_session_id_range (m : Mem) (q : QUEUE_t) (cells : List (Nat × Ptr))
    (recs : List session_t) (fuel : Nat) (random_num : Int) (permissions : Nat)
    (username : Ptr) (username_len : Int) (hq : IsQueue m q cells)
    (hs : HoldsSessions m cells recs) (hfuel : cells.length < fuel)
    (hrand : 0 ≤ random_num) (hroom : 2 ≤ m.room) :
    ∃ id q2 m2 c r,
      add_session fuel m random_num permissions (some q) username username_len
        = some (id, some q2, m2) ∧
      IsQueue m2 q2 (cells ++ [c]) ∧ HoldsSessions m2 (cells ++ [c]) (recs ++ [r]) ∧
      r.session_id = id ∧ id < 100000 ∧ (id : Int) = random_num % 100000 := by
  obtain ⟨q2, m2, he, hq2, hs2, _⟩ :=
    add_session_ok m q cells recs fuel random_num permissions username username_len hq hs
      hfuel hroom
  have hr := to_uint32_tmod_nonneg random_num hrand
  exact ⟨_, q2, m2, _, _, he, hq2, hs2, rfl, hr.1, hr.2⟩

theorem add_session_id_range_witness :
    IsQueue ⟨[some ⟨Ptr.session 0, Ptr.null⟩], [some ⟨5, 7, Ptr.obj 0 0, 5⟩], 2, 6⟩
      ⟨Ptr.node 0, Ptr.node 0⟩ [(0, Ptr.session 0)] ∧
    HoldsSessions ⟨[some ⟨Ptr.session 0, Ptr.null⟩], [some ⟨5, 7, Ptr.obj 0 0, 5⟩], 2, 6⟩
      [(0, Ptr.session 0)] [⟨5, 7, Ptr.obj 0 0, 5⟩] ∧
    1 < 2 ∧ (0 : Int) ≤ 2147483647 ∧ 2 ≤ 2 ∧
    ∃ id q2 m2 c r,
      add_session 2 ⟨[some ⟨Ptr.session 0, Ptr.null⟩], [some ⟨5, 7, Ptr.obj 0 0, 5⟩], 2, 6⟩
        2147483647 3 (some ⟨Ptr.node 0, Ptr.node 0⟩) (Ptr.obj 1 0) 3 = some (id, some q2, m2) ∧
      IsQueue m2 q2 ([(0, Ptr.session 0)] ++ [c]) ∧
      HoldsSessions m2 ([(0, Ptr.session 0)] ++ [c]) ([⟨5, 7, Ptr.obj 0 0, 5⟩] ++ [r]) ∧
      r.session_id = id ∧ id < 100000 ∧ (id : Int) = 2147483647 % 100000 :=
  have hq : IsQueue ⟨[some ⟨Ptr.session 0, Ptr.null⟩], [some ⟨5, 7, Ptr.obj 0 0, 5⟩], 2, 6⟩
      ⟨Ptr.node 0, Ptr.node 0⟩ [(0, Ptr.session 0)] := by decide
  have hs : HoldsSessions ⟨[some ⟨Ptr.session 0, Ptr.null⟩], [some ⟨5, 7, Ptr.obj 0 0, 5⟩], 2, 6⟩
      [(0, Ptr.session 0)] [⟨5, 7, Ptr.obj 0 0, 5⟩] := by decide
  ⟨hq, hs, by decide, by decide, by decide,
    add_session_id_range _ _ _ _ 2 2147483647 3 (Ptr.obj 1 0) 3 hq hs (by decide) (by decide)
      (by decide)⟩

/-! ## The command line -/

/-- C19 fails on the code: `port_check` is a `uint32_t`, so the test
`0 > port_check` never holds and the value of `strtol` is reduced modulo 2^32
before it is compared with 65535; and the test of `*p_opt_arg` passes when no
character was converted. With option 'p', `read_args` returns 0 for the
arguments "4294967296" and "-4294967295", whose values are outside 0..65535,
and for the empty string, which is not a number. -/
theorem read_args_port_accepts_out_of_range :
    read_args (some ['4', '2', '9', '4', '9', '6', '7', '2', '9', '6']) 112
        ⟨some 4, some none, some none⟩
      = some (0, ⟨some 4, some (some ['4', '2', '9', '4', '9', '6', '7', '2', '9', '6']),
          some none⟩) ∧
    strtol ['4', '2', '9', '4', '9', '6', '7', '2', '9', '6'] = (4294967296, []) ∧
    read_args (some ['-', '4', '2', '9', '4', '9', '6', '7', '2', '9', '5']) 112
        ⟨some 4, some none, some none⟩
      = some (0, ⟨some 4, some (some ['-', '4', '2', '9', '4', '9', '6', '7', '2', '9', '5']),
          some none⟩) ∧
    read_args (some []) 112 ⟨some 4, some none, some none⟩
      = some (0, ⟨some 4, some (some []), some none⟩) := by
  refine ⟨?_, ?_, ?_, ?_⟩
  · decide
  · decide
  · decide
  · decide

/-- C20 fails on the code: the test `0 == num_threads` of case 'n' compares
the pointer, not the converted value `*num_threads`, so it never holds. With
option 'n', `read_args` returns 0 for the argument "0" and for the empty
string, and the thread count it stored is 0. -/
theorem read_args_accepts_zero_threads :
    read_args (some ['0']) 110 ⟨some 4, some none, some none⟩
      = some (0, ⟨some 0, some none, some none⟩) ∧
    read_args (some []) 110 ⟨some 4, some none, some none⟩
      = some (0, ⟨some 0, some none, some none⟩) := by
  refine ⟨?_, ?_⟩
  · decide
  · decide

theorem strncmp_slash (s : List Char) (hs : ∀ c ∈ s, c.toNat ≠ 0) :
    0 = strncmp s [Char.ofNat 47] 2 ↔ s = [Char.ofNat 47] := by
  have h47 : (Char.ofNat 47).toNat = 47 := by decide
  cases s with
  | nil => simp [strncmp]
  | cons a rest =>
    by_cases ha : a.toNat = 47
    · have haeq : a = Char.ofNat 47 := by
        rw [← ha]; exact (Char.ofNat_toNat a).symm
      cases rest with
      | nil => simp [strncmp, h47, haeq]
      | cons b rest2 =>
        have hb : b.toNat ≠ 0 := hs b (by simp)
        simp only [strncmp, h47, ha, if_true]
        constructor
        · intro h
          exact absurd (by exact_mod_cast h.symm) hb
        · intro h
          simp at h
    · simp only [strncmp, h47, ha, if_false]
      constructor
      · intro h
        exact absurd (by omega) ha
      · intro h
        have : a = Char.ofNat 47 := (List.cons.inj h).1
        rw [this] at ha
        exact absurd h47 ha

/-- C21: with option 'd', for every argument string `read_args` stores the
argument in `*base_dir`; it returns -1 if the argument is exactly "/" and 0
for every other string. -/
theorem read_args_base_dir (s : List Char) (v : read_args_out) (d : Option (List Char))
    (hv : v.base_dir = some d) (hs : ∀ c ∈ s, c.toNat ≠ 0) :
    ∃ ret, read_args (some s) 100 v = some (ret, { v with base_dir := some (some s) }) ∧
      (ret = -1 ↔ s = ['/']) ∧ (ret = 0 ↔ s ≠ ['/']) := by
  have hsl : (['/'] : List Char) = [Char.ofNat 47] := by decide
  have hk := strncmp_slash s hs
  by_cases h : s = [Char.ofNat 47]
  · refine ⟨-1, ?_, by simp [hsl, h], by simp [hsl, h]⟩
    have h0 : 0 = strncmp s [Char.ofNat 47] 2 := hk.mpr h
    simp only [read_args, hv, if_true]
    rw [if_pos h0]
  · refine ⟨0, ?_, by simp [hsl, h], by simp [hsl, h]⟩
    have h0 : ¬ 0 = strncmp s [Char.ofNat 47] 2 := fun hh => h (hk.mp hh)
    simp only [read_args, hv, if_true]
    rw [if_neg h0]

theorem read_args_base_dir_witness :
    (⟨some 4, some none, some none⟩ : read_args_out).base_dir = some none ∧
    (∀ c ∈ ['/', 't', 'm', 'p'], c.toNat ≠ 0) ∧
    ∃ ret, read_args (some ['/', 't', 'm', 'p']) 100 ⟨some 4, some none, some none⟩
        = some (ret, { (⟨some 4, some none, some none⟩ : read_args_out) with
            base_dir := some (some ['/', 't', 'm', 'p']) }) ∧
      (ret = -1 ↔ ['/', 't', 'm', 'p'] = ['/']) ∧ (ret = 0 ↔ ['/', 't', 'm', 'p'] ≠ ['/']) :=
  ⟨rfl, by decide,
    read_args_base_dir ['/', 't', 'm', 'p'] ⟨some 4, some none, some none⟩ none rfl (by decide)⟩

/-- C22: `args_check` returns 0 if and only if `base_dir` is not NULL and
`num_threads` is above 0, and 1 otherwise; its result does not depend on
`port`. -/
theorem args_check_contract (port port2 base_dir : Option (List Char)) (num_threads : Int) :
    (args_check port base_dir num_threads = 0 ↔ base_dir ≠ none ∧ 0 < num_threads) ∧
    (args_check port base_dir num_threads = 1 ↔ ¬ (base_dir ≠ none ∧ 0 < num_threads)) ∧
    args_check port2 base_dir num_threads = args_check port base_dir num_threads := by
  by_cases hb : base_dir = none
  · simp [args_check, hb]
  · by_cases hn : 0 ≥ num_threads
    · have hn2 : ¬ 0 < num_threads := by omega
      simp [args_check, hb, hn, hn2]
    · have hn2 : 0 < num_threads := by omega
      simp [args_check, hb, hn, hn2]

/-- C23, as the code behaves: `main_cleanup` makes its seven tested calls
in order and stops at the first one that returns -1: the later calls are not
made, the two fds are not closed and `poll_args` is not released; only
`main_args` is freed and -1 is returned. When none of the seven returns -1,
all calls are made and 0 is returned. With `main_args` NULL nothing is done. -/
theorem main_cleanup_stops_at_first_failure (poll_args_null : Bool) (r : teardown_results) :
    main_cleanup true poll_args_null r = (-1, [teardown_step.free_main_args]) ∧
    main_cleanup false poll_args_null r =
      (if ([r.shutdown_threadpool, r.destroy_threadpool, r.destroy_sessions, r.dump_table,
            r.empty_authtable, r.empty_storagetable, r.adestroy].takeWhile
              (fun x => x ≠ -1)).length = 7
       then (0, [teardown_step.shutdown_threadpool, teardown_step.destroy_threadpool,
          teardown_step.destroy_sessions, teardown_step.dump_table,
          teardown_step.empty_authtable, teardown_step.empty_storagetable,
          teardown_step.adestroy, teardown_step.close_root_dir_fd,
          teardown_step.close_server_sockfd]
          ++ (if poll_args_null then []
              else [teardown_step.free_client_args, teardown_step.free_poll_args])
          ++ [teardown_step.free_main_args])
       else (-1, [teardown_step.shutdown_threadpool, teardown_step.destroy_threadpool,
          teardown_step.destroy_sessions, teardown_step.dump_table,
          teardown_step.empty_authtable, teardown_step.empty_storagetable,
          teardown_step.adestroy].take
            (([r.shutdown_threadpool, r.destroy_threadpool, r.destroy_sessions, r.dump_table,
              r.empty_authtable, r.empty_storagetable, r.adestroy].takeWhile
                (fun x => x ≠ -1)).length + 1)
          ++ [teardown_step.free_main_args])) := by
  refine ⟨by simp [main_cleanup], ?_⟩
  by_cases h1 : r.shutdown_threadpool = -1
  · simp [main_cleanup, h1, List.takeWhile]
  by_cases h2 : r.destroy_threadpool = -1
  · simp [main_cleanup, h1, h2, List.takeWhile]
  by_cases h3 : r.destroy_sessions = -1
  · simp [main_cleanup, h1, h2, h3, List.takeWhile]
  by_cases h4 : r.dump_table = -1
  · simp [main_cleanup, h1, h2, h3, h4, List.takeWhile]
  by_cases h5 : r.empty_authtable = -1
  · simp [main_cleanup, h1, h2, h3, h4, h5, List.takeWhile]
  by_cases h6 : r.empty_storagetable = -1
  · simp [main_cleanup, h1, h2, h3, h4, h5, h6, List.takeWhile]
  by_cases h7 : r.adestroy = -1
  · simp [main_cleanup, h1, h2, h3, h4, h5, h6, h7, List.takeWhile]
  · simp [main_cleanup, h1, h2, h3, h4, h5, h6, h7, List.takeWhile]

/-- C23 as stated fails: when `shutdown_threadpool` returns -1, `main_cleanup`
makes no further teardown call but `free(main_args)`; when `dump_table` returns
-1, the two tables are not emptied, the queue is not destroyed and the fds are
not closed. -/
theorem main_cleanup_skips_later_steps :
    main_cleanup false false ⟨-1, 0, 0, 0, 0, 0, 0⟩
      = (-1, [teardown_step.shutdown_threadpool, teardown_step.free_main_args]) ∧
    main_cleanup false false ⟨0, 0, 0, -1, 0, 0, 0⟩
      = (-1, [teardown_step.shutdown_threadpool, teardown_step.destroy_threadpool,
          teardown_step.destroy_sessions, teardown_step.dump_table,
          teardown_step.free_main_args]) := by
  constructor
  · decide
  · decide

/-! ## The acceptor and the workers -/

/-- C24 fails on the code: `main_loop` has one `queue_data_t` object, its
local variable `p_queue_args`, and enqueues the address of this object for
every accepted socket. After the sockets 7 and 9 were accepted and pushed, the
two elements that a worker pops both carry `client_sockfd` 9, and the worker
puts 9 into two slots of its poll-set; socket 7 reaches no worker. -/
theorem handoff_elements_share_one_object :
    (do
      let r ← main_loop_rounds (Ptr.obj 0 0) [(1, 7), (1, 9)]
        ⟨⟨[], [], 5, 1⟩, some ⟨Ptr.null, Ptr.null, 0⟩, []⟩
      let a ← poll_func_admission_rounds 4 2 r.2 (poll_func_init 4 0)
      some (r.1, a.1, a.2.2.poll_fds)) = some (none, [9, 9], [9, 9, -1, -1]) := by
  decide

theorem poll_func_admission_full (MAX_FDS : Nat) (s : shared_state) (w : poll_state)
    (q : AQUEUE_t) (hq : s.poll_fd_queue = some q) (hfull : w.num_fds = MAX_FDS) :
    poll_func_admission MAX_FDS s w = some (false, s, w) := by
  simp [poll_func_admission, hq, hfull]

/-- C25 fails on the code: `num_fds` is never decremented and starts at 1.
With a poll-set of 3 slots: after two sockets were admitted `num_fds` is 3;
both then hang up, so that all three slots are free; a further socket is
pushed, so that `num_nodes` is 1; the admission that follows pops nothing and
leaves the worker as it was. -/
theorem admission_stops_with_free_slots :
    (do
      let r1 ← main_loop_rounds (Ptr.obj 0 0) [(1, 7)]
        ⟨⟨[], [], 5, 1⟩, some ⟨Ptr.null, Ptr.null, 0⟩, []⟩
      let a1 ← poll_func_admission 3 r1.2 (poll_func_init 3 0)
      let r2 ← main_loop_rounds (Ptr.obj 0 0) [(1, 8)] a1.2.1
      let a2 ← poll_func_admission 3 r2.2 a1.2.2
      let w3 ← dispatch_loop [16, 16, 0] a2.2.2.num_fds 0 a2.2.2
      let r3 ← main_loop_rounds (Ptr.obj 0 0) [(1, 9)] a2.2.1
      let a3 ← poll_func_admission 3 r3.2 w3
      some (a2.2.2.poll_fds, w3.poll_fds, w3.num_fds,
        r3.2.poll_fd_queue.map AQUEUE_t.num_nodes,
        decide (a3 = (false, r3.2, w3))))
      = some ([7, 8, -1], [-1, -1, -1], 3, some 1, true) := by
  decide

theorem admission_slot_loop_spec (fd : Int) :
    ∀ (todo i : Nat) (fds : List Int),
      (∃ j, i ≤ j ∧ j < i + todo ∧ fds[j]? = some (-1)) →
      ∃ k, i ≤ k ∧ k < i + todo ∧ fds[k]? = some (-1) ∧
        (∀ j, i ≤ j → j < k → fds[j]? ≠ some (-1)) ∧
        admission_slot_loop fd todo i fds = some (fds.set k fd) := by
  intro todo
  induction todo with
  | zero =>
    intro i fds h
    obtain ⟨j, h1, h2, _⟩ := h
    omega
  | succ t ih =>
    intro i fds h
    obtain ⟨j, h1, h2, h3⟩ := h
    have hjlt : j < fds.length := by
      by_contra hge
      rw [List.getElem?_eq_none (by omega)] at h3
      cases h3
    have hilt : i < fds.length := by omega
    have hi : fds[i]? = some fds[i] := List.getElem?_eq_getElem hilt
    by_cases hx : fds[i] = -1
    · refine ⟨i, Nat.le_refl i, by omega, by rw [hi, hx], fun j' ha hb => by omega, ?_⟩
      simp [admission_slot_loop, hi, hx]
    · have hji : j ≠ i := by
        intro hji
        rw [hji, hi] at h3
        exact hx (Option.some.inj h3)
      obtain ⟨k, k1, k2, k3, k4, k5⟩ := ih (i + 1) fds ⟨j, by omega, by omega, h3⟩
      refine ⟨k, by omega, by omega, k3, ?_, ?_⟩
      · intro j' ha hb
        by_cases hj' : j' = i
        · rw [hj', hi]
          intro hcontra
          exact hx (Option.some.inj hcontra)
        · exact k4 j' (by omega) hb
      · simp only [admission_slot_loop, hi, hx, if_false]
        exact k5

theorem poll_func_admission_result (MAX_FDS : Nat) (s s1 : shared_state) (w w1 : poll_state)
    (b : Bool) (hinv : WorkerInv MAX_FDS w)
    (h : poll_func_admission MAX_FDS s w = some (b, s1, w1)) :
    w1 = w ∨ (b = false ∧ w.num_fds < MAX_FDS ∧ ∃ k fd, k < w.num_fds ∧
      w.poll_fds[k]? = some (-1) ∧ (∀ j, j < k → w.poll_fds[j]? ≠ some (-1)) ∧
      w1 = { w with client_sockfd := fd, poll_fds := w.poll_fds.set k fd,
                    num_fds := w.num_fds + 1, nfds := w.num_fds + 1 }) := by
  obtain ⟨hlen, h1, h2, hfree⟩ := hinv
  cases hq : s.poll_fd_queue with
  | none => simp [poll_func_admission, hq] at h
  | some q =>
    by_cases hc : w.num_fds < MAX_FDS ∧ q.num_nodes > 0
    · simp only [poll_func_admission, hq, hc, and_self, if_true] at h
      cases hd : adequeue s.mem (some q) 0 with
      | none => simp [hd] at h
      | some d =>
        simp only [hd] at h
        by_cases ht : d.1 = Ptr.null
        · simp only [ht, if_true, Option.some.injEq, Prod.mk.injEq] at h
          exact Or.inl h.2.2.symm
        · simp only [ht, if_false, Option.bind_eq_bind] at h
          cases hn : s.mem.node_at d.1 with
          | none => simp [hn] at h
          | some n =>
            simp only [hn, Option.some_bind] at h
            cases hl : List.lookup n.data s.queue_data with
            | none => simp [hl] at h
            | some fd =>
              simp only [hl, Option.some_bind] at h
              obtain ⟨k, _, k2, k3, k4, k5⟩ := admission_slot_loop_spec fd w.num_fds 0 w.poll_fds
                ⟨w.num_fds - 1, by omega, by omega, hfree _ (Nat.le_refl _) (by omega)⟩
              simp only [k5, Option.some_bind] at h
              cases hf : s.mem.free d.1 with
              | none => simp [hf] at h
              | some m1 =>
                simp only [hf, Option.some_bind, Option.some.injEq, Prod.mk.injEq] at h
                refine Or.inr ⟨h.1.symm, hc.1, k, fd, by omega, k3,
                  fun j hj => k4 j (Nat.zero_le j) hj, h.2.2.symm⟩
    · simp only [poll_func_admission, hq, hc, if_false, Option.some.injEq, Prod.mk.injEq] at h
      exact Or.inl h.2.2.symm

theorem workerInv_admission (MAX_FDS : Nat) (s s1 : shared_state) (w w1 : poll_state) (b : Bool)
    (hinv : WorkerInv MAX_FDS w) (h : poll_func_admission MAX_FDS s w = some (b, s1, w1)) :
    WorkerInv MAX_FDS w1 := by
  rcases poll_func_admission_result MAX_FDS s s1 w w1 b hinv h with hw | ⟨_, hlt, k, fd, hk, _, _, hw⟩
  · rw [hw]; exact hinv
  · obtain ⟨hlen, h1, h2, hfree⟩ := hinv
    rw [hw]
    refine ⟨by simp [hlen], by simp, by simp only; omega, ?_⟩
    intro i hi hi2
    simp only [Nat.add_sub_cancel] at hi
    simp only [List.getElem?_set]
    rw [if_neg (by omega)]
    exact hfree i (by omega) hi2

theorem workerInv_dispatch_slot (MAX_FDS : Nat) (revents iter : Nat) (w w1 : poll_state)
    (hinv : WorkerInv MAX_FDS w) (h : dispatch_slot revents iter w = some w1) :
    WorkerInv MAX_FDS w1 ∧ w1.num_fds = w.num_fds := by
  obtain ⟨hlen, h1, h2, hfree⟩ := hinv
  have hset : WorkerInv MAX_FDS { w with poll_fds := w.poll_fds.set iter (-1) } := by
    refine ⟨by simp [hlen], h1, h2, ?_⟩
    intro i hi hi2
    simp only [List.getElem?_set]
    by_cases hii : iter = i
    · simp [hii, hlen, hi2]
    · rw [if_neg hii]; exact hfree i hi hi2
  cases hfd : w.poll_fds[iter]? with
  | none => simp [dispatch_slot, hfd] at h
  | some fd =>
    simp only [dispatch_slot, hfd] at h
    split at h
    · simp only [Option.some.injEq] at h
      rw [← h]; exact ⟨hset, rfl⟩
    · split at h
      · simp only [Option.some.injEq] at h
        rw [← h]
        exact ⟨⟨hset.1, hset.2.1, hset.2.2.1, hset.2.2.2⟩, rfl⟩
      · split at h
        · simp only [Option.some.injEq] at h
          rw [← h]; exact ⟨⟨hlen, h1, h2, hfree⟩, rfl⟩
        · simp only [Option.some.injEq] at h
          rw [← h]; exact ⟨⟨hlen, h1, h2, hfree⟩, rfl⟩

theorem workerInv_dispatch_loop (MAX_FDS : Nat) (revents : List Nat) :
    ∀ (todo iter : Nat) (w w1 : poll_state), WorkerInv MAX_FDS w →
      dispatch_loop revents todo iter w = some w1 →
      WorkerInv MAX_FDS w1 ∧ w1.num_fds = w.num_fds := by
  intro todo
  induction todo with
  | zero =>
    intro iter w w1 hinv h
    simp only [dispatch_loop, Option.some.injEq] at h
    rw [← h]; exact ⟨hinv, rfl⟩
  | succ t ih =>
    intro iter w w1 hinv h
    simp only [dispatch_loop, Option.bind_eq_bind] at h
    cases hr : revents[iter]? with
    | none => simp [hr] at h
    | some r =>
      simp only [hr, Option.some_bind] at h
      cases hs : dispatch_slot r iter w with
      | none => simp [hs] at h
      | some w2 =>
        simp only [hs, Option.some_bind] at h
        obtain ⟨hinv2, hn2⟩ := workerInv_dispatch_slot MAX_FDS r iter w w2 hinv hs
        obtain ⟨hinv1, hn1⟩ := ih (iter + 1) w2 w1 hinv2 h
        exact ⟨hinv1, by rw [hn1, hn2]⟩

theorem workerInv_dispatch_slot_among_workers (MAX_FDS : Nat) (revents iter : Nat)
    (written : Option Int) (w w1 : poll_state) (hinv : WorkerInv MAX_FDS w)
    (h : dispatch_slot_among_workers revents iter written w = some w1) :
    WorkerInv MAX_FDS w1 ∧ w1.num_fds = w.num_fds := by
  obtain ⟨hlen, h1, h2, hfree⟩ := hinv
  have hset : WorkerInv MAX_FDS { w with poll_fds := w.poll_fds.set iter (-1) } := by
    refine ⟨by simp [hlen], h1, h2, ?_⟩
    intro i hi hi2
    simp only [List.getElem?_set]
    by_cases hii : iter = i
    · simp [hii, hlen, hi2]
    · rw [if_neg hii]; exact hfree i hi hi2
  cases hfd : w.poll_fds[iter]? with
  | none => simp [dispatch_slot_among_workers, hfd] at h
  | some fd =>
    simp only [dispatch_slot_among_workers, hfd] at h
    split at h
    · simp only [Option.some.injEq] at h
      rw [← h]; exact ⟨hset, rfl⟩
    · split at h
      · simp only [Option.some.injEq] at h
        rw [← h]
        exact ⟨⟨hset.1, hset.2.1, hset.2.2.1, hset.2.2.2⟩, rfl⟩
      · split at h
        · simp only [Option.some.injEq] at h
          rw [← h]
          cases written with
          | none => exact ⟨⟨hlen, h1, h2, hfree⟩, rfl⟩
          | some c => exact ⟨⟨hlen, h1, h2, hfree⟩, rfl⟩
        · simp only [Option.some.injEq] at h
          rw [← h]; exact ⟨⟨hlen, h1, h2, hfree⟩, rfl⟩

theorem workerInv_dispatch_loop_among_workers (MAX_FDS : Nat) (revents : List Nat)
    (written : List (Option Int)) :
    ∀ (todo iter : Nat) (w w1 : poll_state), WorkerInv MAX_FDS w →
      dispatch_loop_among_workers revents written todo iter w = some w1 →
      WorkerInv MAX_FDS w1 ∧ w1.num_fds = w.num_fds := by
  intro todo
  induction todo with
  | zero =>
    intro iter w w1 hinv h
    simp only [dispatch_loop_among_workers, Option.some.injEq] at h
    rw [← h]; exact ⟨hinv, rfl⟩
  | succ t ih =>
    intro iter w w1 hinv h
    simp only [dispatch_loop_among_workers, Option.bind_eq_bind] at h
    cases hr : revents[iter]? with
    | none => simp [hr] at h
    | some r =>
      simp only [hr, Option.some_bind] at h
      generalize written.getD iter none = wr at h
      cases hs : dispatch_slot_among_workers r iter wr w with
      | none => simp [hs] at h
      | some w2 =>
        simp only [hs, Option.some_bind] at h
        obtain ⟨hinv2, hn2⟩ :=
          workerInv_dispatch_slot_among_workers MAX_FDS r iter _ w w2 hinv hs
        obtain ⟨hinv1, hn1⟩ := ih (iter + 1) w2 w1 hinv2 h
        exact ⟨hinv1, by rw [hn1, hn2]⟩

theorem dispatch_slot_among_workers_none (revents iter : Nat) (w : poll_state) :
    dispatch_slot_among_workers revents iter none w = dispatch_slot revents iter w := by
  unfold dispatch_slot_among_workers dispatch_slot
  rfl

theorem workerInv_init (MAX_FDS : Nat) (client_sockfd : Int) (hpos : 1 ≤ MAX_FDS) :
    WorkerInv MAX_FDS (poll_func_init MAX_FDS client_sockfd) := by
  refine ⟨by simp [poll_func_init], by simp [poll_func_init], by simpa [poll_func_init] using hpos,
    ?_⟩
  intro i _ hi
  simp [poll_func_init, List.getElem?_replicate, hi]

theorem workerInv_reachable (MAX_FDS : Nat) (hpos : 1 ≤ MAX_FDS) (w : poll_state)
    (h : WorkerReachable MAX_FDS w) : WorkerInv MAX_FDS w := by
  induction h with
  | init c => exact workerInv_init MAX_FDS c hpos
  | admission s s1 w w1 b _ hstep ih => exact workerInv_admission MAX_FDS s s1 w w1 b ih hstep
  | dispatch revents w w1 _ hstep ih =>
    exact (workerInv_dispatch_loop MAX_FDS revents _ 0 w w1 ih hstep).1
  | written c w _ ih => exact ih
  | dispatch_among_workers revents written w w1 _ hstep ih =>
    exact (workerInv_dispatch_loop_among_workers MAX_FDS revents written _ 0 w w1 ih hstep).1

theorem free_node_seg (m : Mem) (p : Ptr) (c : Nat × Ptr) (rest : List (Nat × Ptr))
    (h : Seg m p (c :: rest) Ptr.null) :
    m.free (Ptr.node c.1) = some { m with nodes := m.nodes.set c.1 none } ∧
      ∀ p2, Seg m p2 rest Ptr.null →
        Seg { m with nodes := m.nodes.set c.1 none } p2 rest Ptr.null := by
  have hfresh := seg_head_fresh m c rest p h
  obtain ⟨_, nx, hc, _⟩ := h
  refine ⟨by simp [Mem.free, hc], fun p2 h2 => seg_congr m _ rest _ _ ?_ h2⟩
  intro d hd
  simp only [List.getElem?_set]
  rw [if_neg (fun h => hfresh d hd h.symm)]

theorem poll_func_admission_ok (MAX_FDS : Nat) (s : shared_state) (w : poll_state) (q : AQUEUE_t)
    (c : Nat × Ptr) (rest : List (Nat × Ptr)) (fd : Int) (hinv : WorkerInv MAX_FDS w)
    (hsq : s.poll_fd_queue = some q) (hq : IsAQueue s.mem q (c :: rest))
    (hlen : rest.length < 2147483647) (hfd : s.queue_data.lookup c.2 = some fd)
    (hlt : w.num_fds < MAX_FDS) :
    ∃ s1 k q1, poll_func_admission MAX_FDS s w = some (false, s1,
        { w with client_sockfd := fd, poll_fds := w.poll_fds.set k fd,
                 num_fds := w.num_fds + 1, nfds := w.num_fds + 1 }) ∧
      k < w.num_fds ∧ w.poll_fds[k]? = some (-1) ∧
      (∀ j, j < k → w.poll_fds[j]? ≠ some (-1)) ∧
      s1.poll_fd_queue = some q1 ∧ IsAQueue s1.mem q1 rest ∧
      s1.queue_data = s.queue_data := by
  obtain ⟨hl, h1, h2, hfree⟩ := hinv
  obtain ⟨q1, hd, hq1⟩ := adequeue_ok s.mem q c rest hq hlen
  obtain ⟨hfr, hframe⟩ := free_node_seg s.mem q.head c rest hq.1
  obtain ⟨k, _, k2, k3, k4, k5⟩ := admission_slot_loop_spec fd w.num_fds 0 w.poll_fds
    ⟨w.num_fds - 1, by omega, by omega, hfree _ (Nat.le_refl _) (by omega)⟩
  have hnum : q.num_nodes > 0 := by
    rw [hq.2.2]; simp only [List.length_cons]; omega
  obtain ⟨_, nx, hc, _⟩ := hq.1
  have hnode := node_at_node s.mem c.1 _ hc
  refine ⟨{ s with poll_fd_queue := some q1, mem := { s.mem with nodes := s.mem.nodes.set c.1 none } }, k, q1, ?_, by omega, k3, fun j hj => k4 j (Nat.zero_le j) hj, rfl,
    ⟨hframe _ hq1.1, hq1.2.1, hq1.2.2⟩, rfl⟩
  simp [poll_func_admission, hsq, hlt, hnum, hd, hnode, hfd, k5, hfr]

/-- C26: in every worker state reachable from the initial state (with a
poll-set of at least one slot) a free slot exists among the first `num_fds`
slots. Every admission either leaves the worker as it was or stores the fd of
the popped element in the lowest-indexed free slot of the poll-set, leaves all
other slots as they were and increments `num_fds` by one; and it does the
latter whenever `num_fds` is below `MAX_FDS` and the well-formed handoff queue
holds an element. -/
theorem admission_uses_lowest_free_slot (MAX_FDS : Nat) (w : poll_state)
    (hpos : 1 ≤ MAX_FDS) (hr : WorkerReachable MAX_FDS w) :
    (∃ k, k < w.num_fds ∧ w.poll_fds[k]? = some (-1)) ∧
    (∀ s s1 w1 b, poll_func_admission MAX_FDS s w = some (b, s1, w1) →
      w1 = w ∨ ∃ k fd, k < w.num_fds ∧ w.poll_fds[k]? = some (-1) ∧
        (∀ j, j < k → w.poll_fds[j]? ≠ some (-1)) ∧
        w1.poll_fds = w.poll_fds.set k fd ∧ w1.num_fds = w.num_fds + 1) ∧
    (∀ s q c rest fd, s.poll_fd_queue = some q → IsAQueue s.mem q (c :: rest) →
      rest.length < 2147483647 → s.queue_data.lookup c.2 = some fd → w.num_fds < MAX_FDS →
      ∃ s1 w1 k, poll_func_admission MAX_FDS s w = some (false, s1, w1) ∧
        k < w.num_fds ∧ w.poll_fds[k]? = some (-1) ∧
        (∀ j, j < k → w.poll_fds[j]? ≠ some (-1)) ∧
        w1.poll_fds = w.poll_fds.set k fd ∧ w1.num_fds = w.num_fds + 1) := by
  have hinv := workerInv_reachable MAX_FDS hpos w hr
  refine ⟨?_, ?_, ?_⟩
  · obtain ⟨_, h1, h2, hfree⟩ := hinv
    exact ⟨w.num_fds - 1, by omega, hfree _ (Nat.le_refl _) (by omega)⟩
  · intro s s1 w1 b h
    rcases poll_func_admission_result MAX_FDS s s1 w w1 b hinv h with hw | ⟨_, _, k, fd, a, b2, c, d⟩
    · exact Or.inl hw
    · exact Or.inr ⟨k, fd, a, b2, c, by rw [d], by rw [d]⟩
  · intro s q c rest fd hsq hq hlen hfd hlt
    obtain ⟨s1, k, _, h, a, b2, c2, _⟩ :=
      poll_func_admission_ok MAX_FDS s w q c rest fd hinv hsq hq hlen hfd hlt
    exact ⟨s1, _, k, h, a, b2, c2, rfl, rfl⟩

theorem admission_uses_lowest_free_slot_witness :
    1 ≤ 4 ∧ WorkerReachable 4 (poll_func_init 4 0) ∧
    (∃ k, k < (poll_func_init 4 0).num_fds ∧ (poll_func_init 4 0).poll_fds[k]? = some (-1)) ∧
    ∃ k fd, k < (poll_func_init 4 0).num_fds ∧
      (poll_func_init 4 0).poll_fds[k]? = some (-1) ∧
      (∀ j, j < k → (poll_func_init 4 0).poll_fds[j]? ≠ some (-1)) ∧
      (⟨[7, -1, -1, -1], 2, 2, 7, []⟩ : poll_state).poll_fds
        = (poll_func_init 4 0).poll_fds.set k fd ∧
      (⟨[7, -1, -1, -1], 2, 2, 7, []⟩ : poll_state).num_fds
        = (poll_func_init 4 0).num_fds + 1 :=
  have h := admission_uses_lowest_free_slot 4 (poll_func_init 4 0) (by decide)
    (WorkerReachable.init 0)
  have hstep : poll_func_admission 4
      ⟨⟨[some ⟨Ptr.obj 0 0, Ptr.null⟩], [], 4, 1⟩, some ⟨Ptr.node 0, Ptr.node 0, 1⟩,
        [(Ptr.obj 0 0, 7)]⟩ (poll_func_init 4 0)
      = some (false, ⟨⟨[none], [], 4, 1⟩, some ⟨Ptr.null, Ptr.null, 0⟩, [(Ptr.obj 0 0, 7)]⟩,
          ⟨[7, -1, -1, -1], 2, 2, 7, []⟩) := by decide
  ⟨by decide, WorkerReachable.init 0, h.1,
    (h.2.1 _ _ _ _ hstep).resolve_left (by decide)⟩

theorem dispatch_slot_unfold (w : poll_state) (iter revents : Nat) (fd : Int)
    (hfd : w.poll_fds[iter]? = some fd) :
    dispatch_slot revents iter w =
      if POLLERR = revents &&& POLLERR then
        some { w with poll_fds := w.poll_fds.set iter (-1) }
      else if POLLHUP = revents &&& POLLHUP ∨ POLLRDHUP = revents &&& POLLRDHUP then
        some { w with poll_fds := w.poll_fds.set iter (-1),
                      log := w.log ++ [worker_event.close fd] }
      else if POLLIN = revents &&& POLLIN then
        some { w with client_sockfd := fd, log := w.log ++ [worker_event.some_server fd] }
      else some w := by
  unfold dispatch_slot
  rw [hfd]

theorem dispatch_slot_spec (w : poll_state) (iter revents : Nat) (fd : Int)
    (hfd : w.poll_fds[iter]? = some fd) :
    ∃ w2, dispatch_slot revents iter w = some w2 ∧ w2.num_fds = w.num_fds ∧
      w2.poll_fds.length = w.poll_fds.length ∧
      (∀ i, w2.poll_fds[i]? = if i = iter then some (slot_fd_after revents fd)
        else w.poll_fds[i]?) ∧
      w2.log = w.log ++ slot_events revents fd := by
  have hlt : iter < w.poll_fds.length := by
    by_contra hge
    rw [List.getElem?_eq_none (by omega)] at hfd
    cases hfd
  have hsetm : ∀ i, (w.poll_fds.set iter (-1))[i]? = if i = iter then some (-1)
      else w.poll_fds[i]? := by
    intro i
    rw [List.getElem?_set]
    by_cases hi : iter = i
    · rw [if_pos hi, if_pos hlt, if_pos hi.symm]
    · rw [if_neg hi, if_neg (fun h => hi h.symm)]
  have hsame : ∀ i, w.poll_fds[i]? = if i = iter then some fd else w.poll_fds[i]? := by
    intro i
    by_cases hi : i = iter
    · rw [if_pos hi, hi, hfd]
    · rw [if_neg hi]
  rw [dispatch_slot_unfold w iter revents fd hfd]
  unfold slot_fd_after slot_events
  by_cases h1 : POLLERR = revents &&& POLLERR
  · rw [if_pos h1, if_pos h1, if_pos h1]
    exact ⟨_, rfl, rfl, List.length_set _ _ _, hsetm, (List.append_nil _).symm⟩
  rw [if_neg h1, if_neg h1, if_neg h1]
  by_cases h2 : POLLHUP = revents &&& POLLHUP ∨ POLLRDHUP = revents &&& POLLRDHUP
  · rw [if_pos h2, if_pos h2, if_pos h2]
    exact ⟨_, rfl, rfl, List.length_set _ _ _, hsetm, rfl⟩
  rw [if_neg h2, if_neg h2, if_neg h2]
  by_cases h3 : POLLIN = revents &&& POLLIN
  · rw [if_pos h3, if_pos h3]
    exact ⟨_, rfl, rfl, rfl, hsame, rfl⟩
  · rw [if_neg h3, if_neg h3]
    exact ⟨_, rfl, rfl, rfl, hsame, (List.append_nil _).symm⟩

theorem dispatch_loop_spec (revents : List Nat) :
    ∀ (todo iter : Nat) (w : poll_state), iter + todo ≤ w.poll_fds.length →
      iter + todo ≤ revents.length →
      ∃ w1, dispatch_loop revents todo iter w = some w1 ∧ w1.num_fds = w.num_fds ∧
        w1.poll_fds.length = w.poll_fds.length ∧
        (∀ i, w1.poll_fds[i]? = if iter ≤ i ∧ i < iter + todo
          then (w.poll_fds[i]?).map (slot_fd_after (revents.getD i 0)) else w.poll_fds[i]?) ∧
        w1.log = w.log ++ (List.range' iter todo).flatMap
          (fun i => slot_events (revents.getD i 0) (w.poll_fds.getD i 0)) := by
  intro todo
  induction todo with
  | zero =>
    intro iter w _ _
    refine ⟨w, rfl, rfl, rfl, ?_, by simp⟩
    intro i
    rw [if_neg (by omega)]
  | succ t ih =>
    intro iter w hl hr
    have hfd : w.poll_fds[iter]? = some w.poll_fds[iter] := List.getElem?_eq_getElem (by omega)
    have hrv : revents[iter]? = some revents[iter] := List.getElem?_eq_getElem (by omega)
    obtain ⟨w2, hs, hn2, hl2, hp2, hlog2⟩ := dispatch_slot_spec w iter revents[iter] _ hfd
    obtain ⟨w1, hloop, hn1, hl1, hp1, hlog1⟩ := ih (iter + 1) w2 (by omega) (by omega)
    have hrd : revents.getD iter 0 = revents[iter] := by
      rw [List.getD_eq_getElem?_getD, hrv]; rfl
    have hfdd : w.poll_fds.getD iter 0 = w.poll_fds[iter] := by
      rw [List.getD_eq_getElem?_getD, hfd]; rfl
    refine ⟨w1, ?_, by rw [hn1, hn2], by rw [hl1, hl2], ?_, ?_⟩
    · simp only [dispatch_loop, hrv, Option.bind_eq_bind, Option.some_bind, hs]
      exact hloop
    · intro i
      rw [hp1 i, hp2 i]
      by_cases hi : i = iter
      · rw [if_neg (by omega), if_pos hi, if_pos (by omega), hi, hfd, hrd]
        rfl
      · rw [if_neg hi]
        by_cases hin : iter + 1 ≤ i ∧ i < iter + 1 + t
        · rw [if_pos hin, if_pos (by omega)]
        · rw [if_neg hin, if_neg (by omega)]
    · rw [hlog1, hlog2, List.range'_succ, List.flatMap_cons, hrd, hfdd, List.append_assoc]
      congr 1
      congr 1
      apply List.flatMap_congr
      intro i hi
      have hgt : iter + 1 ≤ i := (List.mem_range'_1.mp hi).1
      have hne : ¬ i = iter := by omega
      rw [List.getD_eq_getElem?_getD, List.getD_eq_getElem?_getD,
        List.getD_eq_getElem?_getD, hp2 i, if_neg hne]

/-- The dispatch of a worker when no other worker stores to the shared
`client_sockfd` between a store of this worker and the call that follows it:
for every slot below `num_fds` it takes one action, by priority. With POLLERR
the fd of the slot becomes -1 and nothing is closed; otherwise with POLLHUP or
POLLRDHUP the fd is closed and the fd of the slot becomes -1; otherwise with
POLLIN `some_server` is called with `client_sockfd` equal to the fd of the
slot, which stays as it is; otherwise nothing changes. The dispatch loop does
this for the slots 0 to `num_fds - 1` in order and touches no other slot. -/
theorem dispatch_priority (w : poll_state) (revents : List Nat)
    (hlen : w.num_fds ≤ w.poll_fds.length) (hrev : w.num_fds ≤ revents.length) :
    (∀ iter r, iter < w.num_fds → ∃ fd, w.poll_fds[iter]? = some fd ∧
      (POLLERR = r &&& POLLERR → dispatch_slot r iter w
        = some { w with poll_fds := w.poll_fds.set iter (-1) }) ∧
      (POLLERR ≠ r &&& POLLERR → (POLLHUP = r &&& POLLHUP ∨ POLLRDHUP = r &&& POLLRDHUP) →
        dispatch_slot r iter w
          = some { w with poll_fds := w.poll_fds.set iter (-1),
                          log := w.log ++ [worker_event.close fd] }) ∧
      (POLLERR ≠ r &&& POLLERR → ¬ (POLLHUP = r &&& POLLHUP ∨ POLLRDHUP = r &&& POLLRDHUP) →
        POLLIN = r &&& POLLIN →
        dispatch_slot r iter w
          = some { w with client_sockfd := fd,
                          log := w.log ++ [worker_event.some_server fd] }) ∧
      (POLLERR ≠ r &&& POLLERR → ¬ (POLLHUP = r &&& POLLHUP ∨ POLLRDHUP = r &&& POLLRDHUP) →
        POLLIN ≠ r &&& POLLIN → dispatch_slot r iter w = some w)) ∧
    ∃ w1, dispatch_loop revents w.num_fds 0 w = some w1 ∧ w1.num_fds = w.num_fds ∧
      (∀ i, w1.poll_fds[i]? = if i < w.num_fds
        then (w.poll_fds[i]?).map (slot_fd_after (revents.getD i 0)) else w.poll_fds[i]?) ∧
      w1.log = w.log ++ (List.range w.num_fds).flatMap
        (fun i => slot_events (revents.getD i 0) (w.poll_fds.getD i 0)) := by
  constructor
  · intro iter r hiter
    have hfd : w.poll_fds[iter]? = some w.poll_fds[iter] := List.getElem?_eq_getElem (by omega)
    refine ⟨_, hfd, ?_, ?_, ?_, ?_⟩
    · intro h1
      rw [dispatch_slot_unfold w iter r _ hfd, if_pos h1]
    · intro h1 h2
      rw [dispatch_slot_unfold w iter r _ hfd, if_neg h1, if_pos h2]
    · intro h1 h2 h3
      rw [dispatch_slot_unfold w iter r _ hfd, if_neg h1, if_neg h2, if_pos h3]
    · intro h1 h2 h3
      rw [dispatch_slot_unfold w iter r _ hfd, if_neg h1, if_neg h2, if_neg h3]
  · obtain ⟨w1, hloop, hn, _, hp, hlog⟩ :=
      dispatch_loop_spec revents w.num_fds 0 w (by omega) (by omega)
    refine ⟨w1, hloop, hn, ?_, ?_⟩
    · intro i
      rw [hp i]
      simp
    · rw [hlog, List.range_eq_range']

/-- C27 fails on the code: `main_loop` hands the same `p_poll_args` to every
worker, so all workers store to one `client_data_t`. Worker A admits socket 5
and worker B socket 6, each into slot 0 of its own poll-set, and both slots
report POLLIN. A stores 5 to the shared `client_sockfd`, B stores 6 and calls
`some_server`, then A calls `some_server`: the call of A, made for its slot
with fd 5, finds `client_sockfd` 6. Socket 6 is served by both workers, socket
5 by none. -/
theorem some_server_sees_fd_of_another_worker :
    (do
      let r1 ← main_loop_rounds (Ptr.obj 0 0) [(1, 5)]
        ⟨⟨[], [], 5, 1⟩, some ⟨Ptr.null, Ptr.null, 0⟩, []⟩
      let a ← poll_func_admission 4 r1.2 (poll_func_init 4 0)
      let r2 ← main_loop_rounds (Ptr.obj 0 0) [(1, 6)] a.2.1
      let b ← poll_func_admission 4 r2.2
        (client_sockfd_written a.2.2.client_sockfd (poll_func_init 4 0))
      let wa := client_sockfd_written b.2.2.client_sockfd a.2.2
      let wb1 ← dispatch_slot POLLIN 0 b.2.2
      let wa1 ← dispatch_slot_among_workers POLLIN 0 (some wb1.client_sockfd) wa
      some (wa.poll_fds, b.2.2.poll_fds, wa1.poll_fds, wa1.log, wb1.log))
      = some ([5, -1, -1, -1], [6, -1, -1, -1], [5, -1, -1, -1],
          [worker_event.some_server 6], [worker_event.some_server 6]) := by
  decide

theorem adequeue_snd (m : Mem) (aq : Option AQUEUE_t) (r : Int) :
    (adequeue m aq r).map Prod.snd = (adequeue m aq 0).map Prod.snd := by
  cases aq with
  | none => rfl
  | some q =>
    simp only [adequeue]
    split_ifs <;> try rfl
    all_goals (cases m.node_at q.head <;> rfl)

theorem adequeue_any (m : Mem) (q : AQUEUE_t) (cells : List (Nat × Ptr))
    (hq : IsAQueue m q cells) (hlen : cells.length ≤ 2147483647) (r : Int) :
    ∃ p q1, adequeue m (some q) r = some (p, some q1) ∧ IsAQueue m q1 cells.tail := by
  have h0 : ∃ p q1, adequeue m (some q) 0 = some (p, some q1) ∧ IsAQueue m q1 cells.tail := by
    cases cells with
    | nil =>
      have hn : q.num_nodes = 0 := hq.2.2
      exact ⟨Ptr.null, q, by simp [adequeue, hn], hq⟩
    | cons c rest =>
      obtain ⟨q2, h2, hq2⟩ := adequeue_ok m q c rest hq
        (by simp only [List.length_cons] at hlen; omega)
      exact ⟨_, q2, h2, hq2⟩
  obtain ⟨p, q1, h1, hq1⟩ := h0
  have hs := adequeue_snd m (some q) r
  rw [h1] at hs
  cases hr : adequeue m (some q) r with
  | none => rw [hr] at hs; cases hs
  | some x =>
    rw [hr] at hs
    simp only [Option.map_some'] at hs
    have hx : x.2 = some q1 := Option.some.inj hs
    refine ⟨x.1, q1, ?_, hq1⟩
    rw [← hx]

theorem aenqueue_keeps (m : Mem) (q : AQUEUE_t) (cells : List (Nat × Ptr)) (item : Ptr)
    (hq : IsAQueue m q cells) (hlen : cells.length ≤ 2147483647) :
    ∃ r q1 m1 cells1, aenqueue m (some q) item = some (r, some q1, m1) ∧
      IsAQueue m1 q1 cells1 ∧ cells1.length ≤ 2147483647 := by
  by_cases hroom : m.room = 0
  · exact ⟨-1, q, m, cells, by simp [aenqueue, calloc_node_fail m hroom], hq, hlen⟩
  by_cases hrej : item = Ptr.null ∨ q.num_nodes > 1000
  · have hgt : item = Ptr.null ∨ q.num_nodes > MAX_QUEUE_NODES := hrej
    refine ⟨0, q, { m with nodes := (m.nodes ++ [some (Q_NODE_t.mk Ptr.null Ptr.null)]).set m.nodes.length none, room := m.room - 1 }, cells, ?_, ⟨?_, hq.2⟩, hlen⟩
    · simp [aenqueue, calloc_node_ok m hroom, hgt, Mem.free]
    · refine seg_congr m _ cells _ _ ?_ hq.1
      intro c hc
      have hlt := seg_index_lt m cells _ _ hq.1 c hc
      simp only [List.getElem?_set]
      rw [if_neg (by omega), List.getElem?_append_left hlt]
  · have hitem : item ≠ Ptr.null := fun h => hrej (Or.inl h)
    have hcap : cells.length ≤ 1000 := by
      have hn : q.num_nodes = cells.length := hq.2.2
      have : ¬ q.num_nodes > 1000 := fun h => hrej (Or.inr h)
      omega
    obtain ⟨q2, m3, h, hq2, _⟩ := aenqueue_ok m q cells item hq hroom hitem hcap
    refine ⟨0, q2, m3, _, h, hq2, ?_⟩
    simp only [List.length_append, List.length_singleton]
    omega

theorem aclear_loop_ok :
    ∀ (cells : List (Nat × Ptr)) (m : Mem) (q : AQUEUE_t) (fuel : Nat),
      IsAQueue m q cells → cells.length ≤ 2147483647 → cells.length < fuel →
      ∃ m2, aclear_loop fuel m q = some (⟨Ptr.null, Ptr.null, 0⟩, m2) := by
  intro cells
  induction cells with
  | nil =>
    intro m q fuel hq _ hfuel
    obtain ⟨hh, ht, hn⟩ := hq
    have hh2 : q.head = Ptr.null := hh
    have ht2 : q.tail = Ptr.null := ht
    have hn2 : q.num_nodes = 0 := hn
    cases fuel with
    | zero => omega
    | succ f =>
      refine ⟨m, ?_⟩
      cases q
      simp only at hh2 ht2 hn2
      subst hh2 ht2 hn2
      simp [aclear_loop]
  | cons c rest ih =>
    intro m q fuel hq hlen hfuel
    simp only [List.length_cons] at hlen hfuel
    cases fuel with
    | zero => omega
    | succ f =>
      have hne : q.head ≠ Ptr.null := seg_head_ne_null m c rest _ _ hq.1
      obtain ⟨q2, h2, hq2⟩ := adequeue_ok m q c rest hq (by omega)
      obtain ⟨hfree, hseg⟩ := free_node_seg m q.head c rest hq.1
      obtain ⟨m2, hm2⟩ := ih { m with nodes := m.nodes.set c.1 none } q2 f
        ⟨hseg _ hq2.1, hq2.2⟩ (by omega) (by omega)
      refine ⟨m2, ?_⟩
      simp only [aclear_loop, hne, ne_eq, not_false_eq_true, if_true, h2, Option.bind_eq_bind,
        Option.some_bind, hfree]
      exact hm2

theorem isAQueue_shape (m : Mem) (q : AQUEUE_t) (cells : List (Nat × Ptr))
    (hq : IsAQueue m q cells) :
    (q.num_nodes = 0 ↔ q.head = Ptr.null) ∧ (q.head = Ptr.null ↔ q.tail = Ptr.null) ∧
      (q.tail ≠ Ptr.null → ∃ n, m.node_at q.tail = some n ∧ n.next = Ptr.null) := by
  obtain ⟨hseg, ht, hn⟩ := hq
  rcases List.eq_nil_or_concat cells with hnil | ⟨pre, c, hc⟩
  · subst hnil
    have hh : q.head = Ptr.null := hseg
    have ht2 : q.tail = Ptr.null := ht
    have hn2 : q.num_nodes = 0 := hn
    simp [hh, ht2, hn2]
  · rw [List.concat_eq_append] at hc
    subst hc
    have htl : q.tail = Ptr.node c.1 := by rw [ht]; exact last_node_snoc pre c.1 c.2
    have hcell := (seg_snoc_elim m c.1 c.2 Ptr.null pre q.head hseg).2
    have hhead : q.head ≠ Ptr.null := by
      cases pre with
      | nil => exact seg_head_ne_null m c [] _ _ hseg
      | cons d pre2 => exact seg_head_ne_null m d (pre2 ++ [c]) _ _ hseg
    have hnum : q.num_nodes ≠ 0 := by
      rw [hn]
      simp only [List.length_append, List.length_singleton]
      omega
    refine ⟨⟨fun h => absurd h hnum, fun h => absurd h hhead⟩,
      ⟨fun h => absurd h hhead, fun h => ?_⟩, fun _ => ⟨⟨c.2, Ptr.null⟩, ?_, rfl⟩⟩
    · rw [htl] at h; cases h
    · rw [htl]; exact node_at_node _ _ _ hcell

/-- C28: the predicate `AQueueInv` (`num_nodes` is the number of nodes linked
from the head, the list ends in NULL and the tail is its last node) holds for
the empty atomic queue that `create_aqueue` returns; under it `num_nodes` is 0
exactly when the head is NULL exactly when the tail is NULL, and the `next`
link of the tail node is NULL; every call of `aenqueue` and of `adequeue`
returns and leaves a queue for which the predicate holds again; `aclear`
returns 0 with `num_nodes` 0 and head and tail NULL, for which the predicate
holds again. -/
theorem aqueue_invariant_preserved (m : Mem) :
    (m.room ≠ 0 → ∃ q0 m0, create_aqueue m Ptr.null 0 0 = some (some q0, m0) ∧
      AQueueInv m0 q0) ∧
    ∀ q, AQueueInv m q →
      ((q.num_nodes = 0 ↔ q.head = Ptr.null) ∧ (q.head = Ptr.null ↔ q.tail = Ptr.null) ∧
        (q.tail ≠ Ptr.null → ∃ n, m.node_at q.tail = some n ∧ n.next = Ptr.null)) ∧
      (∀ item, ∃ r q1 m1, aenqueue m (some q) item = some (r, some q1, m1) ∧
        AQueueInv m1 q1) ∧
      (∀ ret_address, ∃ p q1, adequeue m (some q) ret_address = some (p, some q1) ∧
        AQueueInv m q1) ∧
      (∀ fuel : Nat, q.num_nodes < fuel → ∃ m1,
        aclear fuel m (some q) = some (0, some ⟨Ptr.null, Ptr.null, 0⟩, m1) ∧
        AQueueInv m1 ⟨Ptr.null, Ptr.null, 0⟩) := by
  constructor
  · intro hroom
    refine ⟨⟨Ptr.null, Ptr.null, 0⟩, { m with room := m.room - 1 }, ?_,
      ⟨[], isAQueue_empty _, by simp⟩⟩
    simp [create_aqueue, MAX_QUEUE_NODES, Mem.calloc_block, hroom, create_aqueue_loop]
  · intro q hinv
    obtain ⟨cells, hq, hlen⟩ := hinv
    refine ⟨isAQueue_shape m q cells hq, ?_, ?_, ?_⟩
    · intro item
      obtain ⟨r, q1, m1, cells1, h, hq1, hlen1⟩ := aenqueue_keeps m q cells item hq hlen
      exact ⟨r, q1, m1, h, cells1, hq1, hlen1⟩
    · intro ret_address
      obtain ⟨p, q1, h, hq1⟩ := adequeue_any m q cells hq hlen ret_address
      refine ⟨p, q1, h, cells.tail, hq1, ?_⟩
      simp only [List.length_tail]
      omega
    · intro fuel hfuel
      have hn : q.num_nodes = cells.length := hq.2.2
      obtain ⟨m2, hm2⟩ := aclear_loop_ok cells m q fuel hq hlen (by omega)
      refine ⟨m2, ?_, ⟨[], isAQueue_empty _, by simp⟩⟩
      simp [aclear, hm2]

theorem aqueue_invariant_preserved_witness :
    (⟨[some ⟨Ptr.obj 0 0, Ptr.node 1⟩, some ⟨Ptr.obj 0 1, Ptr.null⟩], [], 2, 1⟩ : Mem).room ≠ 0 ∧
    (∃ q0 m0, create_aqueue
        ⟨[some ⟨Ptr.obj 0 0, Ptr.node 1⟩, some ⟨Ptr.obj 0 1, Ptr.null⟩], [], 2, 1⟩ Ptr.null 0 0
        = some (some q0, m0) ∧ AQueueInv m0 q0) ∧
    AQueueInv ⟨[some ⟨Ptr.obj 0 0, Ptr.node 1⟩, some ⟨Ptr.obj 0 1, Ptr.null⟩], [], 2, 1⟩
      ⟨Ptr.node 0, Ptr.node 1, 2⟩ ∧
    ((⟨Ptr.node 0, Ptr.node 1, 2⟩ : AQUEUE_t).num_nodes < (3 : Nat)) ∧
    ∃ m1, aclear 3 ⟨[some ⟨Ptr.obj 0 0, Ptr.node 1⟩, some ⟨Ptr.obj 0 1, Ptr.null⟩], [], 2, 1⟩
        (some ⟨Ptr.node 0, Ptr.node 1, 2⟩) = some (0, some ⟨Ptr.null, Ptr.null, 0⟩, m1) ∧
      AQueueInv m1 ⟨Ptr.null, Ptr.null, 0⟩ :=
  ⟨by decide,
    (aqueue_invariant_preserved
      ⟨[some ⟨Ptr.obj 0 0, Ptr.node 1⟩, some ⟨Ptr.obj 0 1, Ptr.null⟩], [], 2, 1⟩).1 (by decide),
    ⟨[(0, Ptr.obj 0 0), (1, Ptr.obj 0 1)], by decide, by decide⟩, by decide,
    ((aqueue_invariant_preserved
      ⟨[some ⟨Ptr.obj 0 0, Ptr.node 1⟩, some ⟨Ptr.obj 0 1, Ptr.null⟩], [], 2, 1⟩).2
      ⟨Ptr.node 0, Ptr.node 1, 2⟩
      ⟨[(0, Ptr.obj 0 0), (1, Ptr.obj 0 1)], by decide, by decide⟩).2.2.2 3 (by decide)⟩

theorem check_queue_loop_short (m : Mem) (q : QUEUE_t) (data : Ptr) :
    ∀ (fuel : Nat) (cells : List (Nat × Ptr)) (temp : Ptr), Seg m temp cells Ptr.null →
      (∀ c ∈ cells, c.2 ≠ data) → fuel ≤ cells.length →
      (∀ t, m.node_at q.tail = some t → t.next = Ptr.null) →
      check_queue_loop m q data fuel temp = none := by
  intro fuel
  induction fuel with
  | zero => intro cells temp _ _ _ _; rfl
  | succ f ih =>
    intro cells temp hseg hne hfuel htail
    cases cells with
    | nil => simp only [List.length_nil] at hfuel; omega
    | cons c rest =>
      have htemp : temp ≠ Ptr.null := seg_head_ne_null m c rest _ _ hseg
      obtain ⟨hp, nx, hc, hrest⟩ := hseg
      have hnode : m.node_at temp = some ⟨c.2, nx⟩ := by
        rw [hp]; exact node_at_node _ _ _ hc
      have hdata : c.2 ≠ data := hne c (List.mem_cons_self _ _)
      simp only [List.length_cons] at hfuel
      have hrec := ih rest nx hrest (fun d hd => hne d (List.mem_cons_of_mem _ hd))
        (by omega) htail
      cases ht : m.node_at q.tail with
      | none => simp [check_queue_loop, ht]
      | some t =>
        have hnx : t.next = Ptr.null := htail t ht
        simp [check_queue_loop, ht, hnx, htemp, hnode, hdata, hrec]

theorem add_session_short (m : Mem) (q : QUEUE_t) (cells : List (Nat × Ptr))
    (recs : List session_t) (fuel : Nat) (random_num : Int) (permissions : Nat)
    (username : Ptr) (username_len : Int) (hq : IsQueue m q cells)
    (hs : HoldsSessions m cells recs) (hfuel : fuel ≤ cells.length) :
    add_session fuel m random_num permissions (some q) username username_len = none := by
  have hloop : add_session_loop fuel (some q) fuel
      { m with session_number := Int.tmod random_num MAX_SESSIONS } = none := by
    cases fuel with
    | zero => rfl
    | succ f =>
      cases cells with
      | nil => simp only [List.length_nil] at hfuel; omega
      | cons c rest =>
        have hq0 : IsQueue { m with session_number := Int.tmod random_num MAX_SESSIONS } q
            (c :: rest) := isQueue_of_nodes_eq m _ q _ rfl hq
        obtain ⟨dt, ht⟩ := isQueue_tail_node _ q c rest hq0
        have hh : q.head ≠ Ptr.null := seg_head_ne_null _ _ _ _ _ hq0.1
        have hc := check_queue_loop_short
          { m with session_number := Int.tmod random_num MAX_SESSIONS } q Ptr.session_number
          (f + 1) (c :: rest) q.head hq0.1 (holdsSessions_payload m _ recs hs) hfuel
          (fun t h => by rw [ht] at h; cases h; rfl)
        simp [add_session_loop, check_queue, hh, hc]
  simp [add_session, hloop]

theorem add_session_keeps (m m1 : Mem) (q q1 : QUEUE_t) (cells : List (Nat × Ptr))
    (recs : List session_t) (fuel : Nat) (random_num : Int) (permissions : Nat)
    (username : Ptr) (username_len : Int) (id : Nat) (hq : IsQueue m q cells)
    (hs : HoldsSessions m cells recs) (hids : ∀ r ∈ recs, r.session_id < 100000)
    (hrand : 0 ≤ random_num)
    (h : add_session fuel m random_num permissions (some q) username username_len
      = some (id, some q1, m1)) :
    ∃ cells1 recs1, IsQueue m1 q1 cells1 ∧ HoldsSessions m1 cells1 recs1 ∧
      ∀ r ∈ recs1, r.session_id < 100000 := by
  by_cases hfuel : cells.length < fuel
  · by_cases hroom : 2 ≤ m.room
    · obtain ⟨q2, m2, h2, hq2, hs2, _⟩ := add_session_ok m q cells recs fuel random_num
        permissions username username_len hq hs hfuel hroom
      rw [h2] at h
      have hq12 : q2 = q1 := by injection h with h; injection h with _ h; injection h with h _; injection h
      have hm12 : m2 = m1 := by injection h with h; injection h with _ h; injection h
      subst hq12 hm12
      refine ⟨_, _, hq2, hs2, ?_⟩
      intro r hr
      rcases List.mem_append.mp hr with hr | hr
      · exact hids r hr
      · rw [List.mem_singleton.mp hr]
        exact (to_uint32_tmod_nonneg random_num hrand).1
    · obtain ⟨m2, h2, hq2, hs2⟩ := add_session_no_room m q cells recs fuel random_num
        permissions username username_len hq hs hfuel (by omega)
      rw [h2] at h
      have hq12 : q = q1 := by injection h with h; injection h with _ h; injection h with h _; injection h
      have hm12 : m2 = m1 := by injection h with h; injection h with _ h; injection h
      subst hq12 hm12
      exact ⟨cells, recs, hq2, hs2, hids⟩
  · rw [add_session_short m q cells recs fuel random_num permissions username username_len
      hq hs (by omega)] at h
    cases h

theorem dequeue_session_keeps (m : Mem) (q : QUEUE_t) (cells : List (Nat × Ptr))
    (recs : List session_t) (hq : IsQueue m q cells) (hs : HoldsSessions m cells recs) :
    ∃ r q1 m1, dequeue_session m (some q) = some (r, some q1, m1) ∧
      IsQueue m1 q1 cells.tail ∧ HoldsSessions m1 cells.tail recs.tail := by
  cases cells with
  | nil =>
    have hh : q.head = Ptr.null := hq.1
    cases hs
    exact ⟨-1, q, m, by simp [dequeue_session, dequeue, hh], hq, List.Forall₂.nil⟩
  | cons c rest =>
    obtain ⟨q2, hd, hq2, _⟩ := dequeue_ok m q c rest 1 hq
    obtain ⟨hfree, hq2f⟩ := free_node_frame m q c rest hq q2 hq2
    cases hs with
    | cons _ hrs =>
      refine ⟨0, q2, _, ?_, hq2f, holdsSessions_of_sessions_eq m _ rest _ rfl hrs⟩
      simp [dequeue_session, hd, hfree]

theorem sessions_reachable_inv (m : Mem) (q : QUEUE_t) (hr : SessionsReachable m q) :
    ∃ cells recs, IsQueue m q cells ∧ HoldsSessions m cells recs ∧
      ∀ r ∈ recs, r.session_id < 100000 := by
  induction hr with
  | create m m1 q h =>
    have hq : q = ⟨Ptr.null, Ptr.null⟩ := by
      by_cases hroom : m.room = 0
      · simp [create_sessions_queue, create_queue, MAX_QUEUE_NODES, Mem.calloc_block, hroom] at h
      · simp [create_sessions_queue, create_queue, MAX_QUEUE_NODES, Mem.calloc_block, hroom,
          create_queue_loop] at h
        exact h.1.symm
    subst hq
    exact ⟨[], [], isQueue_empty _, List.Forall₂.nil, fun r hr => by cases hr⟩
  | add m m1 q q1 fuel random_num permissions username username_len id _ hrand _ h ih =>
    obtain ⟨cells, recs, hq, hs, hids⟩ := ih
    exact add_session_keeps m m1 q q1 cells recs fuel random_num permissions username
      username_len id hq hs hids hrand h
  | expire m m1 q q1 r _ h ih =>
    obtain ⟨cells, recs, hq, hs, hids⟩ := ih
    obtain ⟨r2, q2, m2, h2, hq2, hs2⟩ := dequeue_session_keeps m q cells recs hq hs
    rw [h2] at h
    have hq12 : q2 = q1 := by injection h with h; injection h with _ h; injection h with h _; injection h
    have hm12 : m2 = m1 := by injection h with h; injection h with _ h; injection h
    subst hq12 hm12
    exact ⟨_, _, hq2, hs2, fun x hx => hids x (List.mem_of_mem_tail hx)⟩

theorem first_session_absent (session_id : Nat) :
    ∀ (cells : List (Nat × Ptr)) (recs : List session_t),
      (∀ r ∈ recs, r.session_id ≠ session_id) →
      first_session session_id cells recs = Ptr.null := by
  intro cells
  induction cells with
  | nil => intro recs _; rfl
  | cons c rest ih =>
    intro recs h
    cases recs with
    | nil => rfl
    | cons r rs =>
      simp only [first_session, h r (List.mem_cons_self _ _), if_false]
      exact ih rs (fun x hx => h x (List.mem_cons_of_mem _ hx))

/-- C29: on every sessions queue that calls of `add_session` (for which
`random()` returned a value from 0 to 2^31 - 1) and `dequeue_session` reach
from the queue of `create_sessions_queue`, and for every `session_id` that is
`MAX_SESSIONS` or more, `check_session` returns 0 and `find_session` returns
NULL (for every bound on the loop above the number of records). -/
theorem check_session_beyond_max_sessions (m : Mem) (q : QUEUE_t) (session_id : Nat)
    (hr : SessionsReachable m q) (hid : MAX_SESSIONS ≤ (session_id : Int)) :
    ∃ fuel0, ∀ fuel, fuel0 ≤ fuel →
      check_session fuel m session_id (some q) = some 0 ∧
      find_session fuel m session_id (some q) = some Ptr.null := by
  obtain ⟨cells, recs, hq, hs, hids⟩ := sessions_reachable_inv m q hr
  have habs : ∀ r ∈ recs, r.session_id ≠ session_id := by
    intro r hr2 he
    have := hids r hr2
    unfold MAX_SESSIONS at hid
    omega
  refine ⟨cells.length + 1, fun fuel hfuel => ⟨?_, ?_⟩⟩
  · rw [check_session_ok m q cells recs session_id fuel hq hs (by omega),
      first_permissions_absent session_id recs habs]
  · rw [find_session_ok m q cells recs session_id fuel hq hs (by omega),
      first_session_absent session_id cells recs habs]

theorem check_session_beyond_max_sessions_witness :
    SessionsReachable ⟨[some ⟨Ptr.session 0, Ptr.null⟩], [some ⟨5, 7, Ptr.obj 0 0, 5⟩], 2, 6⟩
      ⟨Ptr.node 0, Ptr.node 0⟩ ∧
    MAX_SESSIONS ≤ ((4294967295 : Nat) : Int) ∧
    ∃ fuel0, ∀ fuel, fuel0 ≤ fuel →
      check_session fuel
        ⟨[some ⟨Ptr.session 0, Ptr.null⟩], [some ⟨5, 7, Ptr.obj 0 0, 5⟩], 2, 6⟩ 4294967295
        (some ⟨Ptr.node 0, Ptr.node 0⟩) = some 0 ∧
      find_session fuel
        ⟨[some ⟨Ptr.session 0, Ptr.null⟩], [some ⟨5, 7, Ptr.obj 0 0, 5⟩], 2, 6⟩ 4294967295
        (some ⟨Ptr.node 0, Ptr.node 0⟩) = some Ptr.null :=
  have hr : SessionsReachable
      ⟨[some ⟨Ptr.session 0, Ptr.null⟩], [some ⟨5, 7, Ptr.obj 0 0, 5⟩], 2, 6⟩
      ⟨Ptr.node 0, Ptr.node 0⟩ :=
    SessionsReachable.add ⟨[], [], 4, 1⟩ _ ⟨Ptr.null, Ptr.null⟩ _ 1 5 7 (Ptr.obj 0 0) 5 5
      (SessionsReachable.create ⟨[], [], 5, 1⟩ _ _ (by decide)) (by decide) (by decide)
      (by decide)
  ⟨hr, by decide, check_session_beyond_max_sessions _ _ 4294967295 hr (by decide)⟩

theorem first_match_split (m : Mem) (session_id : Nat) (cells : List (Nat × Ptr))
    (recs : List session_t) (hs : HoldsSessions m cells recs) :
    ((∀ r ∈ recs, r.session_id ≠ session_id) ∧ first_session session_id cells recs = Ptr.null ∧
      first_permissions session_id recs = 0) ∨
    ∃ pre_c c post_c pre_r r post_r, cells = pre_c ++ c :: post_c ∧
      recs = pre_r ++ r :: post_r ∧ pre_c.length = pre_r.length ∧
      (∀ x ∈ pre_r, x.session_id ≠ session_id) ∧ r.session_id = session_id ∧
      m.session_at c.2 = some r ∧ first_session session_id cells recs = c.2 ∧
      first_permissions session_id recs = r.permissions := by
  unfold HoldsSessions at hs
  induction hs with
  | nil => exact Or.inl ⟨fun r hr => (by cases hr), rfl, rfl⟩
  | @cons c r cells recs hcr _ ih =>
    by_cases hid : r.session_id = session_id
    · refine Or.inr ⟨[], c, cells, [], r, recs, rfl, rfl, rfl, fun x hx => (by cases hx), hid,
        hcr, ?_, ?_⟩
      · simp [first_session, hid]
      · simp [first_permissions, hid]
    · rcases ih with ⟨hno, hfs, hfp⟩ | ⟨pre_c, c2, post_c, pre_r, r2, post_r, hc, hr, hl, hpre,
          hid2, hat, hfs, hfp⟩
      · refine Or.inl ⟨?_, ?_, ?_⟩
        · intro x hx
          rcases List.mem_cons.mp hx with rfl | hx
          · exact hid
          · exact hno x hx
        · simp only [first_session, hid, if_false]
          exact hfs
        · simp only [first_permissions, hid, if_false]
          exact hfp
      · refine Or.inr ⟨c :: pre_c, c2, post_c, r :: pre_r, r2, post_r, by rw [hc]; rfl,
          by rw [hr]; rfl, by simp [hl], ?_, hid2, hat, ?_, ?_⟩
        · intro x hx
          rcases List.mem_cons.mp hx with rfl | hx
          · exact hid
          · exact hpre x hx
        · simp only [first_session, hid, if_false]
          exact hfs
        · simp only [first_permissions, hid, if_false]
          exact hfp

/-- C30: `check_session` and `find_session` agree. Both return at once for the
NULL queue (0 and NULL). On a well-formed sessions queue, with a bound on the
loop above the number of records, `find_session` returns NULL and
`check_session` returns 0 when no record carries `session_id`; otherwise
`find_session` returns the address of the first record from the head that
carries it and `check_session` returns the permissions of that record. Neither
function writes to memory or to the control block, so both stay as they were
passed in. -/
theorem check_session_agrees_with_find_session (m : Mem) (q : QUEUE_t)
    (cells : List (Nat × Ptr)) (recs : List session_t) (session_id fuel : Nat)
    (hq : IsQueue m q cells) (hs : HoldsSessions m cells recs) (hfuel : cells.length < fuel) :
    check_session fuel m session_id none = some 0 ∧
    find_session fuel m session_id none = some Ptr.null ∧
    (((∀ r ∈ recs, r.session_id ≠ session_id) ∧
        find_session fuel m session_id (some q) = some Ptr.null ∧
        check_session fuel m session_id (some q) = some 0) ∨
      ∃ pre_c c post_c pre_r r post_r, cells = pre_c ++ c :: post_c ∧
        recs = pre_r ++ r :: post_r ∧ pre_c.length = pre_r.length ∧
        (∀ x ∈ pre_r, x.session_id ≠ session_id) ∧ r.session_id = session_id ∧
        c.2 ≠ Ptr.null ∧ m.session_at c.2 = some r ∧
        find_session fuel m session_id (some q) = some c.2 ∧
        check_session fuel m session_id (some q) = some r.permissions) := by
  refine ⟨rfl, rfl, ?_⟩
  rw [find_session_ok m q cells recs session_id fuel hq hs hfuel,
    check_session_ok m q cells recs session_id fuel hq hs hfuel]
  rcases first_match_split m session_id cells recs hs with ⟨hno, hfs, hfp⟩ |
    ⟨pre_c, c, post_c, pre_r, r, post_r, hc, hr, hl, hpre, hid, hat, hfs, hfp⟩
  · exact Or.inl ⟨hno, by rw [hfs], by rw [hfp]⟩
  · refine Or.inr ⟨pre_c, c, post_c, pre_r, r, post_r, hc, hr, hl, hpre, hid, ?_, hat,
      by rw [hfs], by rw [hfp]⟩
    intro hnull
    rw [hnull] at hat
    cases hat

theorem check_session_agrees_with_find_session_witness :
    IsQueue ⟨[some ⟨Ptr.session 0, Ptr.node 1⟩, some ⟨Ptr.session 1, Ptr.null⟩],
        [some ⟨5, 7, Ptr.obj 0 0, 5⟩, some ⟨5, 3, Ptr.obj 1 0, 3⟩], 0, 6⟩
      ⟨Ptr.node 0, Ptr.node 1⟩ [(0, Ptr.session 0), (1, Ptr.session 1)] ∧
    HoldsSessions ⟨[some ⟨Ptr.session 0, Ptr.node 1⟩, some ⟨Ptr.session 1, Ptr.null⟩],
        [some ⟨5, 7, Ptr.obj 0 0, 5⟩, some ⟨5, 3, Ptr.obj 1 0, 3⟩], 0, 6⟩
      [(0, Ptr.session 0), (1, Ptr.session 1)]
      [⟨5, 7, Ptr.obj 0 0, 5⟩, ⟨5, 3, Ptr.obj 1 0, 3⟩] ∧
    [(0, Ptr.session 0), (1, Ptr.session 1)].length < 3 ∧
    (((∀ r ∈ [(⟨5, 7, Ptr.obj 0 0, 5⟩ : session_t), ⟨5, 3, Ptr.obj 1 0, 3⟩],
          r.session_id ≠ 5) ∧
        find_session 3 ⟨[some ⟨Ptr.session 0, Ptr.node 1⟩, some ⟨Ptr.session 1, Ptr.null⟩],
            [some ⟨5, 7, Ptr.obj 0 0, 5⟩, some ⟨5, 3, Ptr.obj 1 0, 3⟩], 0, 6⟩ 5
          (some ⟨Ptr.node 0, Ptr.node 1⟩) = some Ptr.null ∧
        check_session 3 ⟨[some ⟨Ptr.session 0, Ptr.node 1⟩, some ⟨Ptr.session 1, Ptr.null⟩],
            [some ⟨5, 7, Ptr.obj 0 0, 5⟩, some ⟨5, 3, Ptr.obj 1 0, 3⟩], 0, 6⟩ 5
          (some ⟨Ptr.node 0, Ptr.node 1⟩) = some 0) ∨
      ∃ pre_c c post_c pre_r r post_r,
        [(0, Ptr.session 0), (1, Ptr.session 1)] = pre_c ++ c :: post_c ∧
        [(⟨5, 7, Ptr.obj 0 0, 5⟩ : session_t), ⟨5, 3, Ptr.obj 1 0, 3⟩]
          = pre_r ++ r :: post_r ∧ pre_c.length = pre_r.length ∧
        (∀ x ∈ pre_r, x.session_id ≠ 5) ∧ r.session_id = 5 ∧
        c.2 ≠ Ptr.null ∧
        (⟨[some ⟨Ptr.session 0, Ptr.node 1⟩, some ⟨Ptr.session 1, Ptr.null⟩],
            [some ⟨5, 7, Ptr.obj 0 0, 5⟩, some ⟨5, 3, Ptr.obj 1 0, 3⟩], 0, 6⟩ : Mem).session_at c.2
          = some r ∧
        find_session 3 ⟨[some ⟨Ptr.session 0, Ptr.node 1⟩, some ⟨Ptr.session 1, Ptr.null⟩],
            [some ⟨5, 7, Ptr.obj 0 0, 5⟩, some ⟨5, 3, Ptr.obj 1 0, 3⟩], 0, 6⟩ 5
          (some ⟨Ptr.node 0, Ptr.node 1⟩) = some c.2 ∧
        check_session 3 ⟨[some ⟨Ptr.session 0, Ptr.node 1⟩, some ⟨Ptr.session 1, Ptr.null⟩],
            [some ⟨5, 7, Ptr.obj 0 0, 5⟩, some ⟨5, 3, Ptr.obj 1 0, 3⟩], 0, 6⟩ 5
          (some ⟨Ptr.node 0, Ptr.node 1⟩) = some r.permissions) :=
  ⟨by decide, by decide, by decide,
    (check_session_agrees_with_find_session _ _ _ _ 5 3 (by decide) (by decide)
      (by decide)).2.2⟩

theorem filter_real_le (l : List Int) (n : Nat)
    (h : ∀ i, n ≤ i → i < l.length → l[i]? = some (-1)) :
    (l.filter (fun fd => decide (fd ≠ -1))).length ≤ n := by
  rw [← List.countP_eq_length_filter]
  conv_lhs => rw [← List.take_append_drop n l]
  rw [List.countP_append]
  have h1 : List.countP (fun fd => decide (fd ≠ -1)) (l.take n) ≤ n :=
    (List.countP_le_length _).trans (by simp)
  have h2 : List.countP (fun fd => decide (fd ≠ -1)) (l.drop n) = 0 := by
    rw [List.countP_eq_zero]
    intro a ha
    obtain ⟨i, hi⟩ := List.mem_iff_getElem?.mp ha
    rw [List.getElem?_drop] at hi
    have hlt : n + i < l.length := by
      by_contra hge
      rw [List.getElem?_eq_none (by omega)] at hi
      cases hi
    rw [h (n + i) (by omega) hlt] at hi
    cases hi
    simp
  omega

/-- C31: in every worker state reachable from the initial state (with a
poll-set of at least one slot), `num_fds` is at least 1 and at most `MAX_FDS`,
the size of `poll_fds`. Every index below `num_fds`, which is what the
admission loop (`poll_index < num_fds`) and the dispatch loop
(`iter < num_fds`) use, is below `MAX_FDS` and names a slot; so both loops run
without an access outside the array, which in this embedding would leave them
without a result. The number of slots that hold a real fd is at most
`num_fds - 1`. -/
theorem worker_num_fds_bounds (MAX_FDS : Nat) (w : poll_state) (hpos : 1 ≤ MAX_FDS)
    (hr : WorkerReachable MAX_FDS w) :
    1 ≤ w.num_fds ∧ w.num_fds ≤ MAX_FDS ∧ w.poll_fds.length = MAX_FDS ∧
    (∀ i, i < w.num_fds → i < MAX_FDS ∧ ∃ fd, w.poll_fds[i]? = some fd) ∧
    (∀ fd, ∃ fds, admission_slot_loop fd w.num_fds 0 w.poll_fds = some fds) ∧
    (∀ revents : List Nat, w.num_fds ≤ revents.length →
      ∃ w1, dispatch_loop revents w.num_fds 0 w = some w1) ∧
    real_fds w ≤ w.num_fds - 1 := by
  obtain ⟨hlen, h1, h2, hfree⟩ := workerInv_reachable MAX_FDS hpos w hr
  refine ⟨h1, h2, hlen, ?_, ?_, ?_, ?_⟩
  · intro i hi
    have hlt : i < w.poll_fds.length := by omega
    exact ⟨by omega, w.poll_fds[i], List.getElem?_eq_getElem hlt⟩
  · intro fd
    obtain ⟨k, _, _, _, _, hk⟩ := admission_slot_loop_spec fd w.num_fds 0 w.poll_fds
      ⟨w.num_fds - 1, Nat.zero_le _, by omega, hfree _ (Nat.le_refl _) (by omega)⟩
    exact ⟨_, hk⟩
  · intro revents hrev
    obtain ⟨w1, hw1, _⟩ := dispatch_loop_spec revents w.num_fds 0 w (by omega) (by omega)
    exact ⟨w1, hw1⟩
  · exact filter_real_le w.poll_fds (w.num_fds - 1)
      (fun i hi hlt => hfree i hi (by omega))

theorem worker_num_fds_bounds_witness :
    1 ≤ 4 ∧ WorkerReachable 4 ⟨[7, -1, -1, -1], 2, 2, 7, []⟩ ∧
    1 ≤ (⟨[7, -1, -1, -1], 2, 2, 7, []⟩ : poll_state).num_fds ∧
    (⟨[7, -1, -1, -1], 2, 2, 7, []⟩ : poll_state).num_fds ≤ 4 ∧
    [1, 0, 0, 0].length ≥ (⟨[7, -1, -1, -1], 2, 2, 7, []⟩ : poll_state).num_fds ∧
    (∃ w1, dispatch_loop [1, 0, 0, 0] (⟨[7, -1, -1, -1], 2, 2, 7, []⟩ : poll_state).num_fds 0
      ⟨[7, -1, -1, -1], 2, 2, 7, []⟩ = some w1) ∧
    real_fds ⟨[7, -1, -1, -1], 2, 2, 7, []⟩
      ≤ (⟨[7, -1, -1, -1], 2, 2, 7, []⟩ : poll_state).num_fds - 1 :=
  have hstep : poll_func_admission 4
      ⟨⟨[some ⟨Ptr.obj 0 0, Ptr.null⟩], [], 4, 1⟩, some ⟨Ptr.node 0, Ptr.node 0, 1⟩,
        [(Ptr.obj 0 0, 7)]⟩ (poll_func_init 4 0)
      = some (false, ⟨⟨[none], [], 4, 1⟩, some ⟨Ptr.null, Ptr.null, 0⟩, [(Ptr.obj 0 0, 7)]⟩,
          ⟨[7, -1, -1, -1], 2, 2, 7, []⟩) := by decide
  have hr : WorkerReachable 4 ⟨[7, -1, -1, -1], 2, 2, 7, []⟩ :=
    WorkerReachable.admission _ _ _ _ _ (WorkerReachable.init 0) hstep
  have h := worker_num_fds_bounds 4 ⟨[7, -1, -1, -1], 2, 2, 7, []⟩ (by decide) hr
  ⟨by decide, hr, h.1, h.2.1, by decide, h.2.2.2.2.2.1 [1, 0, 0, 0] (by decide),
    h.2.2.2.2.2.2⟩

theorem main_loop_body_exit (p_queue_args : Ptr) (ev : Int × Int) (s s1 : shared_state)
    (ret : Int) (h : main_loop_body p_queue_args ev s = some (some ret, s1)) : ret = -1 := by
  unfold main_loop_body at h
  simp only at h
  split_ifs at h with h1 h2
  · injection h with h
    injection h with h _
    injection h with h
    exact h.symm
  · injection h with h
    injection h with h _
    cases h
  · split at h
    · cases h
    · split_ifs at h
      · injection h with h
        injection h with h _
        injection h with h
        exact h.symm
      · injection h with h
        injection h with h _
        cases h

theorem main_loop_while_exit (p_queue_args : Ptr) (server_shutdown : Int)
    (hsd : server_shutdown ≠ 1) :
    ∀ (events : List (Int × Int)) (s s1 : shared_state) (ret : Int),
      main_loop_while p_queue_args server_shutdown events s = some (ret, s1) → ret = -1 := by
  have hsd2 : (1 : Int) ≠ server_shutdown := fun h => hsd h.symm
  intro events
  induction events with
  | nil =>
    intro s s1 ret h
    simp [main_loop_while, hsd2] at h
  | cons ev rest ih =>
    intro s s1 ret h
    simp only [main_loop_while, hsd2, ne_eq, not_false_eq_true, if_true] at h
    cases hb : main_loop_body p_queue_args ev s with
    | none => rw [hb] at h; cases h
    | some x =>
      obtain ⟨o, s2⟩ := x
      cases o with
      | none =>
        rw [hb] at h
        exact ih s2 s1 ret h
      | some r =>
        rw [hb] at h
        have hr := main_loop_body_exit p_queue_args ev s s2 r hb
        injection h with h
        injection h with h _
        rw [← h, hr]

theorem main_loop_while_idle (p_queue_args : Ptr) (server_shutdown : Int)
    (hsd : server_shutdown ≠ 1) (c : Int) (tail : List (Int × Int)) (s : shared_state) :
    ∀ k, main_loop_while p_queue_args server_shutdown (List.replicate k (0, c) ++ tail) s
      = main_loop_while p_queue_args server_shutdown tail s := by
  have hsd2 : (1 : Int) ≠ server_shutdown := fun h => hsd h.symm
  intro k
  induction k with
  | zero => rfl
  | succ k ih =>
    rw [List.replicate_succ, List.cons_append]
    simp only [main_loop_while, hsd2, ne_eq, not_false_eq_true, if_true]
    simpa [main_loop_body] using ih

theorem main_loop_among_workers_exit (p_queue_args : Ptr) (server_shutdown : Int)
    (hsd : server_shutdown ≠ 1) :
    ∀ (rounds : List ((Int × Int) × shared_state)) (ret : Int),
      main_loop_among_workers p_queue_args server_shutdown rounds = some ret → ret = -1 := by
  have hsd2 : (1 : Int) ≠ server_shutdown := fun h => hsd h.symm
  intro rounds
  induction rounds with
  | nil =>
    intro ret h
    simp [main_loop_among_workers, hsd2] at h
  | cons round rest ih =>
    intro ret h
    simp only [main_loop_among_workers, hsd2, ne_eq, not_false_eq_true, if_true] at h
    cases hb : main_loop_body p_queue_args round.1 round.2 with
    | none => rw [hb] at h; cases h
    | some x =>
      obtain ⟨o, s2⟩ := x
      cases o with
      | none =>
        rw [hb] at h
        exact ih ret h
      | some r =>
        rw [hb] at h
        have hr := main_loop_body_exit p_queue_args round.1 round.2 s2 r hb
        injection h with h
        rw [← h, hr]

/-- C32: `main_loop` never writes its parameter `server_shutdown`, so the
condition of its loop has the value it had at entry. When the argument is 1,
`main_loop` returns 0 at once, whatever `poll` and `client_accept` would
return, and leaves the shared state as it was. Whenever `main_loop` returns 0
the argument was 1; when the argument is not 1, every return is -1: every
round that leaves the loop does so with -1, whatever the shared state, a
failing `poll` makes it return -1, and as long as `poll` returns 0 it does not
return. -/
theorem main_loop_returns_zero_only_on_shutdown (p_queue_args : Ptr) (server_shutdown : Int)
    (events : List (Int × Int)) (s : shared_state) :
    (server_shutdown = 1 → main_loop p_queue_args server_shutdown events s = some (0, s)) ∧
    (∀ ret s1, main_loop p_queue_args server_shutdown events s = some (ret, s1) →
      (ret = 0 → server_shutdown = 1) ∧ (server_shutdown ≠ 1 → ret = -1)) ∧
    (∀ ev ret s1, main_loop_body p_queue_args ev s = some (some ret, s1) → ret = -1) ∧
    (server_shutdown ≠ 1 → ∀ k c,
      main_loop p_queue_args server_shutdown (List.replicate k (0, c)) s = none ∧
      ∀ e : Int × Int, e.1 < 0 →
        main_loop p_queue_args server_shutdown (List.replicate k (0, c) ++ e :: events) s
          = some (-1, s)) ∧
    (∀ rounds,
      (server_shutdown = 1 →
        main_loop_among_workers p_queue_args server_shutdown rounds = some 0) ∧
      ∀ ret, main_loop_among_workers p_queue_args server_shutdown rounds = some ret →
        (ret = 0 → server_shutdown = 1) ∧ (server_shutdown ≠ 1 → ret = -1)) := by
  refine ⟨?_, ?_, ?_, ?_, ?_⟩
  · intro hsd
    subst hsd
    cases events with
    | nil => simp [main_loop, main_loop_while]
    | cons ev rest => simp [main_loop, main_loop_while]
  · intro ret s1 h
    constructor
    · intro hret
      by_contra hsd
      have := main_loop_while_exit p_queue_args server_shutdown hsd events s s1 ret h
      omega
    · intro hsd
      exact main_loop_while_exit p_queue_args server_shutdown hsd events s s1 ret h
  · intro ev ret s1 h
    exact main_loop_body_exit p_queue_args ev s s1 ret h
  · intro hsd k c
    have hsd2 : (1 : Int) ≠ server_shutdown := fun h => hsd h.symm
    constructor
    · have h := main_loop_while_idle p_queue_args server_shutdown hsd c [] s k
      rw [List.append_nil] at h
      unfold main_loop
      rw [h]
      simp [main_loop_while, hsd2]
    · intro e he
      unfold main_loop
      rw [main_loop_while_idle p_queue_args server_shutdown hsd c (e :: events) s k]
      simp [main_loop_while, hsd2, main_loop_body, he]
  · intro rounds
    constructor
    · intro hsd
      subst hsd
      cases rounds with
      | nil => simp [main_loop_among_workers]
      | cons round rest => simp [main_loop_among_workers]
    · intro ret h
      constructor
      · intro hret
        by_contra hsd
        have := main_loop_among_workers_exit p_queue_args server_shutdown hsd rounds ret h
        omega
      · intro hsd
        exact main_loop_among_workers_exit p_queue_args server_shutdown hsd rounds ret h

theorem main_loop_returns_zero_only_on_shutdown_witness :
    main_loop (Ptr.obj 0 0) 1 [(0, 0), (1, 7), (-1, 0)]
        ⟨⟨[], [], 5, 1⟩, some ⟨Ptr.null, Ptr.null, 0⟩, []⟩
      = some (0, ⟨⟨[], [], 5, 1⟩, some ⟨Ptr.null, Ptr.null, 0⟩, []⟩) ∧
    main_loop (Ptr.obj 0 0) 0 [(0, 0), (1, 7), (-1, 0)]
        ⟨⟨[], [], 5, 1⟩, some ⟨Ptr.null, Ptr.null, 0⟩, []⟩
      = some (-1, ⟨⟨[some ⟨Ptr.obj 0 0, Ptr.null⟩], [], 4, 1⟩,
          some ⟨Ptr.node 0, Ptr.node 0, 1⟩, [(Ptr.obj 0 0, 7)]⟩) ∧
    (((-1 : Int) = 0 → (0 : Int) = 1) ∧ ((0 : Int) ≠ 1 → (-1 : Int) = -1)) ∧
    main_loop_body (Ptr.obj 0 0) (1, 7) ⟨⟨[], [], 0, 1⟩, some ⟨Ptr.null, Ptr.null, 0⟩, []⟩
      = some (some (-1), ⟨⟨[], [], 0, 1⟩, some ⟨Ptr.null, Ptr.null, 0⟩, [(Ptr.obj 0 0, 7)]⟩) ∧
    (-1 : Int) = -1 ∧
    main_loop (Ptr.obj 0 0) 0 (List.replicate 2 (0, 0))
        ⟨⟨[], [], 5, 1⟩, some ⟨Ptr.null, Ptr.null, 0⟩, []⟩ = none ∧
    main_loop (Ptr.obj 0 0) 0 (List.replicate 2 (0, 0) ++ (-1, 0) :: [(0, 0), (1, 7), (-1, 0)])
        ⟨⟨[], [], 5, 1⟩, some ⟨Ptr.null, Ptr.null, 0⟩, []⟩
      = some (-1, ⟨⟨[], [], 5, 1⟩, some ⟨Ptr.null, Ptr.null, 0⟩, []⟩) ∧
    main_loop_among_workers (Ptr.obj 0 0) 0
        [((1, 7), ⟨⟨[], [], 5, 1⟩, some ⟨Ptr.null, Ptr.null, 0⟩, []⟩),
          ((1, 9), ⟨⟨[none], [], 0, 1⟩, some ⟨Ptr.null, Ptr.null, 0⟩, [(Ptr.obj 0 0, 7)]⟩)]
      = some (-1) ∧
    (((-1 : Int) = 0 → (0 : Int) = 1) ∧ ((0 : Int) ≠ 1 → (-1 : Int) = -1)) :=
  have hrun : main_loop (Ptr.obj 0 0) 0 [(0, 0), (1, 7), (-1, 0)]
        ⟨⟨[], [], 5, 1⟩, some ⟨Ptr.null, Ptr.null, 0⟩, []⟩
      = some (-1, ⟨⟨[some ⟨Ptr.obj 0 0, Ptr.null⟩], [], 4, 1⟩,
          some ⟨Ptr.node 0, Ptr.node 0, 1⟩, [(Ptr.obj 0 0, 7)]⟩) := by decide
  have hbody : main_loop_body (Ptr.obj 0 0) (1, 7)
        ⟨⟨[], [], 0, 1⟩, some ⟨Ptr.null, Ptr.null, 0⟩, []⟩
      = some (some (-1), ⟨⟨[], [], 0, 1⟩, some ⟨Ptr.null, Ptr.null, 0⟩,
          [(Ptr.obj 0 0, 7)]⟩) := by decide
  have hamong : main_loop_among_workers (Ptr.obj 0 0) 0
        [((1, 7), ⟨⟨[], [], 5, 1⟩, some ⟨Ptr.null, Ptr.null, 0⟩, []⟩),
          ((1, 9), ⟨⟨[none], [], 0, 1⟩, some ⟨Ptr.null, Ptr.null, 0⟩, [(Ptr.obj 0 0, 7)]⟩)]
      = some (-1) := by decide
  have h0 := main_loop_returns_zero_only_on_shutdown (Ptr.obj 0 0) 0 [(0, 0), (1, 7), (-1, 0)]
    ⟨⟨[], [], 5, 1⟩, some ⟨Ptr.null, Ptr.null, 0⟩, []⟩
  ⟨(main_loop_returns_zero_only_on_shutdown (Ptr.obj 0 0) 1 [(0, 0), (1, 7), (-1, 0)]
      ⟨⟨[], [], 5, 1⟩, some ⟨Ptr.null, Ptr.null, 0⟩, []⟩).1 rfl,
    hrun, h0.2.1 _ _ hrun, hbody,
    (main_loop_returns_zero_only_on_shutdown (Ptr.obj 0 0) 0 []
      ⟨⟨[], [], 0, 1⟩, some ⟨Ptr.null, Ptr.null, 0⟩, []⟩).2.2.1 _ _ _ hbody,
    (h0.2.2.2.1 (by decide) 2 0).1, (h0.2.2.2.1 (by decide) 2 0).2 (-1, 0) (by decide),
    hamong, (h0.2.2.2.2 _).2 _ hamong⟩

end PubTools
